import Mathlib

/-!
# sceUsbMic: ring buffer and blocking microphone input

A shallow embedding of `Core/HLE/sceUsbMic.cpp`.

* Host memory is a heap of byte blocks. A C pointer is a block together with an
  offset, so that two pointers into the same array alias each other exactly as
  they do in the program.
* C `int` and `u32` values are mathematical integers. The ring buffer indices
  are far below `2^31` and are left unwrapped; `u32` arithmetic and the
  conversions between `int` and `u32` wrap explicitly (`u32`, `s32`).
* Where C++ leaves the wait computed by `__MicInput` undefined (the `int`
  product overflows, the rate is zero), the value is a parameter of the
  environment (`Env.intOverflow`, `Env.divByZero`).
* The `while` loop of `QueueBuf::push` runs on fuel and yields `none` when the
  fuel is used up.
-/

namespace UsbMic

/-! ## Host memory -/

/-- One byte of memory (a `u8`). -/
abbrev Byte := Nat

/-- A host pointer: a block of the heap and an offset inside that block. -/
structure Ptr where
  blk : Nat
  off : Int
deriving DecidableEq

/-- Pointer arithmetic `p + k`. -/
def Ptr.add (p : Ptr) (k : Int) : Ptr := ⟨p.blk, p.off + k⟩

/-- The host heap: the bytes of every block, and the first block that `new` has not
handed out yet. A block that was never written holds whatever `mem` says, which is how
the indeterminate content of `new u8[n]` is represented. -/
structure Heap where
  mem : Nat → Int → Byte
  next : Nat

/-- The expression `new u8[size]`: hands out the block `next`, content untouched.
Allocation always succeeds. -/
def Heap.alloc (h : Heap) : Nat × Heap := (h.next, { h with next := h.next + 1 })

/-- The call `memcpy(dst, src, n)`: byte `i` of the destination range becomes byte `i`
of the source range as it was before the call (C leaves overlapping ranges undefined; here
they behave as under `memmove`). A non-positive `n` copies nothing. -/
def memcpy (h : Heap) (dst src : Ptr) (n : Int) : Heap :=
  { h with mem := fun b i =>
      if b = dst.blk ∧ dst.off ≤ i ∧ i < dst.off + n then
        h.mem src.blk (src.off + (i - dst.off))
      else h.mem b i }

/-- The `n` bytes found at `p`, in address order. -/
def readBytes (h : Heap) (p : Ptr) (n : Int) : List Byte :=
  (List.range n.toNat).map fun (i : Nat) => h.mem p.blk (p.off + (i : Int))

/-! ## QueueBuf -/

/-- The fields of `class QueueBuf`: `buf_` is the block that holds the storage, and
`end_` is the member `end`. -/
structure QueueBuf where
  buf_ : Nat
  available : Int
  end_ : Int
  capacity : Int
deriving DecidableEq

namespace QueueBuf

/-- The constructor `QueueBuf::QueueBuf(int size)`. -/
def new (h : Heap) (size : Int) : Heap × QueueBuf :=
  let a := h.alloc
  (a.2, { buf_ := a.1, available := 0, end_ := 0, capacity := size })

/-- The accessor `QueueBuf::getAvailableSize`, defined in the class declaration: the
count of unread bytes. -/
def getAvailableSize (q : QueueBuf) : Int := q.available

/-- The function `QueueBuf::getStartPos`. -/
def getStartPos (q : QueueBuf) : Int :=
  if q.end_ ≥ q.available then q.end_ - q.available
  else q.capacity - q.available + q.end_

/-- The function `QueueBuf::getRemainingSize`. -/
def getRemainingSize (q : QueueBuf) : Int := q.capacity - q.getAvailableSize

/-- The function `QueueBuf::pop(u8 *buf, int size)`: the returned count, the heap
after the copies, and the buffer afterwards. -/
def pop (h : Heap) (q : QueueBuf) (buf : Ptr) (size : Int) : Int × Heap × QueueBuf :=
  if size = 0 then (0, h, q)
  else
    let size := if q.getAvailableSize < size then q.getAvailableSize else size
    let ret := size
    let startPos := q.getStartPos
    let h1 :=
      if startPos + size ≤ q.capacity then
        memcpy h buf ⟨q.buf_, startPos⟩ size
      else
        let h0 := memcpy h buf ⟨q.buf_, startPos⟩ (q.capacity - startPos)
        memcpy h0 (buf.add (q.capacity - startPos)) ⟨q.buf_, 0⟩
          (size - (q.capacity - startPos))
    (ret, h1, { q with available := q.available - size })

/-- The function `QueueBuf::resize(int newSize)`. The member `buf_` already points at
the new array when `pop(buf_, ...)` runs, so `pop` reads from and writes to the new
array. -/
def resize (h : Heap) (q : QueueBuf) (newSize : Int) : Heap × QueueBuf :=
  if q.capacity ≥ newSize then (h, q)
  else
    let availableSize := q.getAvailableSize
    let a := h.alloc
    let q1 := { q with buf_ := a.1 }
    let r := q1.pop a.2 ⟨q1.buf_, 0⟩ (min availableSize newSize)
    (r.2.1, { r.2.2 with available := availableSize, end_ := availableSize,
                         capacity := newSize })

/-- The function `QueueBuf::flush`. -/
def flush (q : QueueBuf) : QueueBuf := { q with available := 0, end_ := 0 }

/-- The variables that the `while` loop of `push` updates. -/
structure PushVars where
  heap : Heap
  end_ : Int
  size : Int
  addedSize : Int

/-- The loop `while (end + size > capacity) { ... }` of `QueueBuf::push`, on fuel. -/
def pushLoop (q : QueueBuf) (buf : Ptr) : Nat → PushVars → Option PushVars
  | 0, v => if v.end_ + v.size > q.capacity then none else some v
  | fuel + 1, v =>
    if v.end_ + v.size > q.capacity then
      pushLoop q buf fuel
        { heap := memcpy v.heap ⟨q.buf_, v.end_⟩ (buf.add v.addedSize) (q.capacity - v.end_)
          end_ := 0
          size := v.size - (q.capacity - v.end_)
          addedSize := v.addedSize + (q.capacity - v.end_) }
    else some v

/-- The function `QueueBuf::push(const u8 *buf, int size)`: the returned count, the heap
and the buffer afterwards; `none` when the loop does not finish within `fuel` rounds. -/
def push (fuel : Nat) (h : Heap) (q : QueueBuf) (buf : Ptr) (size : Int) :
    Option (Int × Heap × QueueBuf) :=
  let r := if size > q.capacity then q.resize h size else (h, q)
  let q := r.2
  match pushLoop q buf fuel { heap := r.1, end_ := q.end_, size := size, addedSize := 0 } with
  | none => none
  | some v =>
    let h2 := memcpy v.heap ⟨q.buf_, v.end_⟩ (buf.add v.addedSize) v.size
    let addedSize := v.addedSize + v.size
    let end_ := (v.end_ + v.size) % q.capacity
    some (addedSize, h2,
      { q with end_ := end_, available := min q.capacity (q.available + addedSize) })

/-- The class invariant of `QueueBuf`. -/
def Inv (q : QueueBuf) : Prop :=
  1 ≤ q.capacity ∧ 0 ≤ q.available ∧ q.available ≤ q.capacity ∧
    0 ≤ q.end_ ∧ q.end_ < q.capacity

instance (q : QueueBuf) : Decidable q.Inv := by unfold Inv; infer_instance

/-- The unread bytes of the ring, oldest first: `available` bytes read from the start
position `(end - available) mod capacity`, wrapping at `capacity`. -/
def unread (h : Heap) (q : QueueBuf) : List Byte :=
  (List.range q.available.toNat).map fun (i : Nat) =>
    h.mem q.buf_ ((q.getStartPos + (i : Int)) % q.capacity)

/-- The storage after a push that needs no resize: the two `memcpy` calls of the wrapping
case, or the single one. -/
def pushHeap (h : Heap) (q : QueueBuf) (buf : Ptr) (n : Int) : Heap :=
  if q.end_ + n > q.capacity then
    memcpy (memcpy h ⟨q.buf_, q.end_⟩ buf (q.capacity - q.end_)) ⟨q.buf_, 0⟩
      (buf.add (q.capacity - q.end_)) (n - (q.capacity - q.end_))
  else memcpy h ⟨q.buf_, q.end_⟩ buf n

/-- The fields after a push that needs no resize. -/
def pushState (q : QueueBuf) (n : Int) : QueueBuf :=
  { q with end_ := (q.end_ + n) % q.capacity,
           available := min q.capacity (q.available + n) }

/-- Several `push` calls in a row, one for each pair of a source pointer and a size. -/
def pushAll (fuel : Nat) : Heap → QueueBuf → List (Ptr × Int) → Option (Heap × QueueBuf)
  | h, q, [] => some (h, q)
  | h, q, c :: rest =>
    match q.push fuel h c.1 c.2 with
    | none => none
    | some r => pushAll fuel r.2.1 r.2.2 rest

end QueueBuf

/-- The last `n` elements of a list (the whole list when it is shorter). -/
def lastN (n : Nat) (l : List Byte) : List Byte := l.drop (l.length - n)

/-- A heap whose block `b` holds the bytes `bs` from offset zero on and `fill` in every
other place, with `next` as the first free block. -/
def heapOf (fill : Byte) (next : Nat) (b : Nat) (bs : List Byte) : Heap :=
  { mem := fun b1 i => if b1 = b ∧ 0 ≤ i then bs.getD i.toNat fill else fill
    next := next }

/-! ## Machine integers -/

/-- Conversion to `u32`: the value modulo `2^32`. -/
def u32 (x : Int) : Int := x % 4294967296

/-- Conversion to `int`: the value wrapped into `[-2^31, 2^31)`, as the conversion from
`u32` gives it. -/
def s32 (x : Int) : Int := (x + 2147483648) % 4294967296 - 2147483648

/-! ## Collaborators

The thread scheduler, the event queue, guest memory and the capture backend live in
other files of the emulator. What `sceUsbMic.cpp` needs of them is kept here. -/

/-- Modelled from the spec: the enumeration `MICTYPE` is declared in `sceUsbMic.h`, which
is not among the sources; `__MicInput` tells `CAMERAMIC` from the other types. -/
inductive MICTYPE where
  | AUDIOINPUT
  | USBMIC
  | CAMERAMIC
deriving DecidableEq

/-- Modelled from the spec: the declaration of `MicWaitInfo` is in `sceUsbMic.h`, which
is not among the sources. It is the pending request of one blocked thread: the
requesting thread, the target guest address, the requested byte count and the sample
rate, in the order of the initializer in `__MicInput`; the last three are `u32`. -/
structure MicWaitInfo where
  threadID : Int
  addr : Int
  needSize : Int
  sampleRate : Int
deriving DecidableEq

/-- The capture backend that the build selects with `HAVE_WIN32_MICROPHONE` and
`PPSSPP_PLATFORM(ANDROID)`, with what it answers when asked for a device. -/
inductive Platform where
  | win32 (deviceCounts : Int)
  | android (recordingIsAvailable : Bool)
  | other
deriving DecidableEq

/-- Modelled from the spec: guest memory validity (`Memory::IsValidAddress`,
`Memory::IsValidRange`), the clock conversion `usToCycles`, and the two error codes of
`ErrorCodes.h` are not among the sources; they are parameters. So is what the compiled
program makes of the two operations of `__MicInput` that C++ leaves undefined:
`intOverflow x` is the `int` it has for `x * 1000000 / 2` when the product `x * 1000000`
does not fit an `int`, and `divByZero a` is what it has for the unsigned division of `a`
by a zero sample rate (on targets where that division traps there is no value at all). -/
structure Env where
  IsValidAddress : Int → Bool
  IsValidRange : Int → Int → Bool
  usToCycles : Int → Int
  platform : Platform
  SCE_ERROR_USBMIC_INVALID_MAX_SAMPLES : Int
  SCE_ERROR_USBMIC_INVALID_SAMPLERATE : Int
  intOverflow : Int → Int
  divByZero : Int → Int

/-- Modelled from the spec: the thread scheduler (`sceKernelThread`) is not among the
sources. It knows the current thread and, for every thread, the wait id and the wait
value of the microphone wait it holds (wait id `0`: it holds none), and it records the
threads that were resumed, with the value they were resumed with, oldest first. -/
structure Kernel where
  curThread : Int
  waitID : Int → Int
  waitValue : Int → Int
  resumed : List (Int × Int)

/-- Modelled from the spec: the call `__KernelGetCurThread()`. -/
def __KernelGetCurThread (k : Kernel) : Int := k.curThread

/-- Modelled from the spec: the call `__KernelGetWaitID(threadID, WAITTYPE_MICINPUT, error)`. -/
def __KernelGetWaitID (k : Kernel) (threadID : Int) : Int := k.waitID threadID

/-- Modelled from the spec: the call `__KernelGetWaitValue(threadID, error)`. -/
def __KernelGetWaitValue (k : Kernel) (threadID : Int) : Int := k.waitValue threadID

/-- Modelled from the spec: the call `__KernelResumeThreadFromWait(threadID, ret)`; the
thread holds no wait afterwards. -/
def __KernelResumeThreadFromWait (k : Kernel) (threadID : Int) (ret : Int) : Kernel :=
  { k with
    waitID := fun t => if t = threadID then 0 else k.waitID t
    resumed := k.resumed ++ [(threadID, ret)] }

/-- Modelled from the spec: the call
`__KernelWaitCurThread(WAITTYPE_MICINPUT, waitID, waitValue, 0, false, _)`; the current
thread is suspended on the microphone wait. -/
def __KernelWaitCurThread (k : Kernel) (waitID waitValue : Int) : Kernel :=
  { k with
    waitID := fun t => if t = k.curThread then waitID else k.waitID t
    waitValue := fun t => if t = k.curThread then waitValue else k.waitValue t }

/-- One call of `CoreTiming::ScheduleEvent(cyclesIntoFuture, event_type, userdata)`. -/
structure ScheduledEvent where
  cyclesIntoFuture : Int
  event_type : Int
  userdata : Int
deriving DecidableEq

/-- One call of the capture adapter: `Microphone::startMic(param)` with the vector
`param` points to (`none` for `nullptr`), or `Microphone::stopMic()`. -/
inductive MicCall where
  | start (param : Option (Int × Int))
  | stop
deriving DecidableEq

/-- The block of the host heap that holds guest memory: the guest address `a` is the
pointer `⟨guestBlk, a⟩`. -/
def guestBlk : Nat := 0

/-! ## The subsystem -/

/-- The file-level variables of `sceUsbMic.cpp`, followed by the state of the
collaborators: the host heap, the thread scheduler, the events scheduled so far and the
calls made to the capture adapter so far (both oldest first). -/
structure MicState where
  eventMicBlockingResume : Int
  audioBuf : Option QueueBuf
  numNeedSamples : Int
  waitingThreads : List MicWaitInfo
  isNeedInput : Bool
  curSampleRate : Int
  curChannels : Int
  readMicDataLength : Int
  curTargetAddr : Int
  micState : Int
  heap : Heap
  kernel : Kernel
  events : List ScheduledEvent
  micCalls : List MicCall

/-- Modelled from the spec: the call
`CoreTiming::ScheduleEvent(cyclesIntoFuture, event_type, userdata)`. -/
def ScheduleEvent (s : MicState) (cyclesIntoFuture event_type userdata : Int) : MicState :=
  { s with events := s.events ++ [⟨cyclesIntoFuture, event_type, userdata⟩] }

/-- Modelled from the spec: the call `Memory::Write_U8(value, address)`. -/
def Write_U8 (h : Heap) (value : Int) (address : Int) : Heap :=
  { h with mem := fun b i =>
      if b = guestBlk ∧ i = address then (value % 256).toNat else h.mem b i }

namespace Microphone

/-- The function `Microphone::startMic`. -/
def startMic (s : MicState) (param : Option (Int × Int)) : MicState :=
  { s with micCalls := s.micCalls ++ [MicCall.start param], micState := 1 }

/-- The function `Microphone::stopMic`. -/
def stopMic (s : MicState) : MicState :=
  { s with micCalls := s.micCalls ++ [MicCall.stop], micState := 0 }

/-- The function `Microphone::isHaveDevice`. -/
def isHaveDevice (env : Env) : Bool :=
  match env.platform with
  | Platform.win32 deviceCounts => decide (deviceCounts ≥ 1)
  | Platform.android recordingIsAvailable => recordingIsAvailable
  | Platform.other => false

/-- The function `Microphone::isMicStarted`. -/
def isMicStarted (s : MicState) : Bool := decide (s.micState = 1)

/-- The function `Microphone::isNeedInput`. -/
def isNeedInput (s : MicState) : Bool := s.isNeedInput

/-- The function `Microphone::numNeedSamples` (a `u32` returned as `int`). -/
def numNeedSamples (s : MicState) : Int := s32 s.numNeedSamples

/-- The function `Microphone::availableAudioBufSize`. It is only called while
`audioBuf` is set. -/
def availableAudioBufSize (s : MicState) : Int :=
  match s.audioBuf with
  | some q => q.getAvailableSize
  | none => 0

/-- The function `Microphone::getReadMicDataLength` (a `u32` returned as `int`). -/
def getReadMicDataLength (s : MicState) : Int := s32 s.readMicDataLength

/-- The function `Microphone::getAudioData`. -/
def getAudioData (s : MicState) (buf : Ptr) (size : Int) : Int × MicState :=
  match s.audioBuf with
  | some q =>
    let r := q.pop s.heap buf size
    (r.1, { s with heap := r.2.1, audioBuf := some r.2.2 })
  | none => (0, s)

/-- The function `Microphone::addAudioData`; `none` when the loop of `push` does not
finish within `fuel` rounds. -/
def addAudioData (env : Env) (fuel : Nat) (s : MicState) (buf : Ptr) (size : Int) :
    Option (Int × MicState) :=
  match s.audioBuf with
  | none => some (0, s)
  | some q =>
    match q.push fuel s.heap buf size with
    | none => none
    | some r =>
      let s1 := { s with heap := r.2.1, audioBuf := some r.2.2 }
      let addSize := min (availableAudioBufSize s1)
        (s32 (s32 (numNeedSamples s1 * 2) - getReadMicDataLength s1))
      let s2 :=
        if env.IsValidRange (u32 (s1.curTargetAddr + s1.readMicDataLength)) (u32 addSize) then
          (getAudioData s1 ⟨guestBlk, u32 (s1.curTargetAddr + s1.readMicDataLength)⟩ addSize).2
        else s1
      some (size, { s2 with readMicDataLength := u32 (s2.readMicDataLength + addSize) })

/-- The function `Microphone::flushAudioData`. It is only called while `audioBuf` is
set. -/
def flushAudioData (s : MicState) : MicState :=
  { s with audioBuf := s.audioBuf.map QueueBuf.flush }

/-- The function `Microphone::onMicDeviceChange`. -/
def onMicDeviceChange (s : MicState) : MicState :=
  if isMicStarted s then startMic (stopMic s) none else s

end Microphone

/-- The deviceless loop of `__MicBlockingResume`:
`for (int i = 0; i < needSize; i++) if (IsValidAddress(addr + i)) Write_U8(i & 0xFF, addr + i)`. -/
def synthesize (env : Env) (h : Heap) (addr needSize : Int) : Heap :=
  (List.range needSize.toNat).foldl
    (fun h (i : Nat) =>
      if env.IsValidAddress (u32 (addr + (i : Int))) then
        Write_U8 h ((i : Int) % 256) (u32 (addr + (i : Int)))
      else h)
    h

/-- The wait that `__MicBlockingResume` computes,
`(needSize - getReadMicDataLength()) * 1000000 / 2 / sampleRate`, in `u32` arithmetic. -/
def resumeWaitTimeus (needSize readLength sampleRate : Int) : Int :=
  u32 (u32 (needSize - readLength) * 1000000) / 2 / sampleRate

/-- The loop of `__MicBlockingResume` over `waitingThreads`: the entries that stay, in
order, and the state after the loop (its `waitingThreads` field is not used). -/
def MicBlockingResumeLoop (env : Env) (threadID userdata : Int) :
    List MicWaitInfo → MicState → List MicWaitInfo × MicState
  | [], s => ([], s)
  | w :: rest, s =>
    if w.threadID ≠ threadID then
      let r := MicBlockingResumeLoop env threadID userdata rest s
      (w :: r.1, r.2)
    else
      let waitID := __KernelGetWaitID s.kernel threadID
      if waitID = 0 then
        let r := MicBlockingResumeLoop env threadID userdata rest s
        (w :: r.1, r.2)
      else if Microphone.isHaveDevice env then
        if u32 (Microphone.getReadMicDataLength s) ≥ w.needSize then
          let ret := __KernelGetWaitValue s.kernel threadID
          let s1 := { s with kernel := __KernelResumeThreadFromWait s.kernel threadID ret }
          MicBlockingResumeLoop env threadID userdata rest s1
        else
          let waitTimeus :=
            resumeWaitTimeus w.needSize (Microphone.getReadMicDataLength s) w.sampleRate
          let s1 := ScheduleEvent s (env.usToCycles waitTimeus) s.eventMicBlockingResume userdata
          let r := MicBlockingResumeLoop env threadID userdata rest s1
          (w :: r.1, r.2)
      else
        let h1 := synthesize env s.heap w.addr w.needSize
        let ret := __KernelGetWaitValue s.kernel threadID
        let s1 := { s with
          heap := h1
          kernel := __KernelResumeThreadFromWait s.kernel threadID ret
          readMicDataLength := u32 (s.readMicDataLength + w.needSize) }
        MicBlockingResumeLoop env threadID userdata rest s1

/-- The function `__MicBlockingResume(u64 userdata, int cyclesLate)`. -/
def __MicBlockingResume (env : Env) (s : MicState) (userdata : Int) : MicState :=
  let threadID := s32 userdata
  let r := MicBlockingResumeLoop env threadID userdata s.waitingThreads s
  { r.2 with waitingThreads := r.1 }

/-- The function `__UsbMicInit`; `registered` is what `CoreTiming::RegisterEvent` returns. -/
def __UsbMicInit (s : MicState) (registered : Int) : MicState :=
  { s with
    audioBuf := none
    numNeedSamples := 0
    waitingThreads := []
    isNeedInput := true
    curSampleRate := 44100
    curChannels := 1
    curTargetAddr := 0
    readMicDataLength := 0
    micState := 0
    eventMicBlockingResume := registered }

/-- The function `__UsbMicShutdown`. -/
def __UsbMicShutdown (s : MicState) : MicState :=
  Microphone.stopMic { s with audioBuf := none }

/-- The wait that `__MicInput` computes,
`(size - availableAudioBufSize()) * 1000000 / 2 / sampleRate`: the product and the
division by two are `int` arithmetic, and the division by the `u32` sample rate is
unsigned, so that its dividend is converted to `u32`. While the product fits an `int` the
dividend is its half, rounded towards zero. When the product does not fit, C++ leaves the
value undefined and the dividend is whatever the compiled program has, `env.intOverflow`;
so is the quotient when the rate is zero, `env.divByZero`. -/
def inputWaitTimeus (env : Env) (size available sampleRate : Int) : Int :=
  let x := size - available
  let half :=
    if -2147483648 ≤ x * 1000000 ∧ x * 1000000 ≤ 2147483647 then Int.tdiv (x * 1000000) 2
    else env.intOverflow x
  if sampleRate = 0 then env.divByZero (u32 half) else u32 half / sampleRate

/-- The first part of `__MicInput`, up to the call of `startMic`: the globals are set, the
ring is created or resized, and the capture adapter is started when it is not. -/
def MicInputSetup (s : MicState) (maxSamples sampleRate bufAddr : Int) : MicState :=
  let s := { s with curSampleRate := sampleRate, curChannels := 1, curTargetAddr := bufAddr }
  let size : Int := s32 (u32 (maxSamples * 2))
  let s :=
    match s.audioBuf with
    | none =>
      let r := QueueBuf.new s.heap size
      { s with heap := r.1, audioBuf := some r.2 }
    | some q =>
      let r := q.resize s.heap size
      { s with heap := r.1, audioBuf := some r.2 }
  let s := { s with numNeedSamples := maxSamples, readMicDataLength := 0 }
  if ¬ Microphone.isMicStarted s then Microphone.startMic s (some (sampleRate, 1)) else s

/-- The second part of `__MicInput`, the immediate drain:
`if (Microphone::availableAudioBufSize() > 0) { ... }`. -/
def MicInputDrain (env : Env) (s : MicState) (size : Int) : MicState :=
  if Microphone.availableAudioBufSize s > 0 then
    let addSize := u32 (min (Microphone.availableAudioBufSize s) size)
    let s1 :=
      if env.IsValidRange s.curTargetAddr addSize then
        (Microphone.getAudioData s ⟨guestBlk, s.curTargetAddr⟩ (s32 addSize)).2
      else s
    { s1 with readMicDataLength := u32 (s1.readMicDataLength + addSize) }
  else s

/-- The function `__MicInput`: the returned value and the state afterwards. -/
def __MicInput (env : Env) (s : MicState) (maxSamples sampleRate bufAddr : Int)
    (type : MICTYPE) (block : Bool) : Int × MicState :=
  let size : Int := s32 (u32 (maxSamples * 2))
  let s := MicInputSetup s maxSamples sampleRate bufAddr
  let s := MicInputDrain env s size
  let ret := if type = MICTYPE.CAMERAMIC then u32 size else maxSamples
  if ¬ block then (ret, s)
  else
    let waitTimeus := inputWaitTimeus env size (Microphone.availableAudioBufSize s) sampleRate
    let s := ScheduleEvent s (env.usToCycles waitTimeus) s.eventMicBlockingResume
      (__KernelGetCurThread s.kernel)
    let waitInfo : MicWaitInfo :=
      ⟨__KernelGetCurThread s.kernel, bufAddr, u32 size, sampleRate⟩
    let s := { s with waitingThreads := s.waitingThreads ++ [waitInfo] }
    let s := { s with kernel := __KernelWaitCurThread s.kernel 1 (u32 size) }
    (ret, s)

/-- The function `sceUsbMicInputBlocking`. The declaration of `__MicInput` gives `block`
the default `true`. -/
def sceUsbMicInputBlocking (env : Env) (s : MicState) (maxSamples sampleRate bufAddr : Int) :
    Int × MicState :=
  if ¬ env.IsValidAddress bufAddr then (-1, s)
  else if maxSamples ≤ 0 ∨ (maxSamples.toNat &&& 0x3F) ≠ 0 then
    (env.SCE_ERROR_USBMIC_INVALID_MAX_SAMPLES, s)
  else if sampleRate ≠ 44100 ∧ sampleRate ≠ 22050 ∧ sampleRate ≠ 11025 then
    (env.SCE_ERROR_USBMIC_INVALID_SAMPLERATE, s)
  else
    let r := __MicInput env s maxSamples sampleRate bufAddr MICTYPE.USBMIC true
    (s32 r.1, r.2)

/-- The function `sceUsbMicInput`. -/
def sceUsbMicInput (env : Env) (s : MicState) (maxSamples sampleRate bufAddr : Int) :
    Int × MicState :=
  if ¬ env.IsValidAddress bufAddr then (-1, s)
  else if maxSamples ≤ 0 ∨ (maxSamples.toNat &&& 0x3F) ≠ 0 then
    (env.SCE_ERROR_USBMIC_INVALID_MAX_SAMPLES, s)
  else if sampleRate ≠ 44100 ∧ sampleRate ≠ 22050 ∧ sampleRate ≠ 11025 then
    (env.SCE_ERROR_USBMIC_INVALID_SAMPLERATE, s)
  else
    let r := __MicInput env s maxSamples sampleRate bufAddr MICTYPE.USBMIC false
    (s32 r.1, r.2)

/-- The function `sceUsbMicGetInputLength`. -/
def sceUsbMicGetInputLength (s : MicState) : Int :=
  Int.tdiv (Microphone.getReadMicDataLength s) 2

/-- The bytes that a row of `push` calls hands over, in order, read from the heap `h`. -/
def pushedBytes (h : Heap) : List (Ptr × Int) → List Byte
  | [] => []
  | c :: rest => readBytes h c.1 c.2 ++ pushedBytes h rest

/-! ## Save states -/

/-- Modelled from the spec: one value of a save state, as the serializer
(`Common/Serialize`, not among the sources) stores it: an integer, a flag, or the vector
of pending requests. -/
inductive Item where
  | int (v : Int)
  | bool (b : Bool)
  | waits (l : List MicWaitInfo)
deriving DecidableEq

/-- Modelled from the spec: the two modes of a `PointerWrap` that move data. -/
inductive Mode where
  | MODE_READ
  | MODE_WRITE
deriving DecidableEq

/-- Modelled from the spec: a `PointerWrap`, its mode and its values: the values still to
be read in read mode, the values written so far in write mode. -/
structure PointerWrap where
  mode : Mode
  data : List Item

/-- Modelled from the spec: `Do(p, x)` for an integer `x`: the value of `x` afterwards;
`none` when the next value of the save state is not an integer. -/
def DoInt (p : PointerWrap) (x : Int) : Option (PointerWrap × Int) :=
  match p.mode with
  | Mode.MODE_WRITE => some ({ p with data := p.data ++ [Item.int x] }, x)
  | Mode.MODE_READ =>
    match p.data with
    | Item.int v :: rest => some ({ p with data := rest }, v)
    | _ => none

/-- Modelled from the spec: `Do(p, x)` for a flag `x`. -/
def DoBool (p : PointerWrap) (x : Bool) : Option (PointerWrap × Bool) :=
  match p.mode with
  | Mode.MODE_WRITE => some ({ p with data := p.data ++ [Item.bool x] }, x)
  | Mode.MODE_READ =>
    match p.data with
    | Item.bool v :: rest => some ({ p with data := rest }, v)
    | _ => none

/-- Modelled from the spec: `Do(p, x)` for the vector `x` of pending requests. -/
def DoWaits (p : PointerWrap) (x : List MicWaitInfo) :
    Option (PointerWrap × List MicWaitInfo) :=
  match p.mode with
  | Mode.MODE_WRITE => some ({ p with data := p.data ++ [Item.waits x] }, x)
  | Mode.MODE_READ =>
    match p.data with
    | Item.waits v :: rest => some ({ p with data := rest }, v)
    | _ => none

/-- Modelled from the spec: `p.Section(title, minVer, ver)`: the version of the section,
which is `ver` when writing and the version found when reading, or `-1` when the version
found is outside `minVer .. ver`. A section tests as true when its version is positive. -/
def Section (p : PointerWrap) (minVer ver : Int) : Option (PointerWrap × Int) :=
  (DoInt p ver).map fun r => (r.1, if r.2 < minVer ∨ r.2 > ver then -1 else r.2)

/-- Modelled from the spec: `CoreTiming::RestoreRegisterEvent(event_type, name, callback)`:
the value of `event_type` afterwards; `restoreId` is the identifier the clock hands out
when `event_type` is `-1`. -/
def RestoreRegisterEvent (event_type restoreId : Int) : Int :=
  if event_type = -1 then restoreId else event_type

/-- The reconciliation at the end of `__UsbMicDoState`:
`if (micState == 0) { ... } else if (micState == 1) { ... }`. -/
def DoStateReconcile (s : MicState) (isMicStartedNow : Bool) : MicState :=
  if s.micState = 0 then
    if isMicStartedNow then Microphone.stopMic s else s
  else if s.micState = 1 then
    if isMicStartedNow then s
    else Microphone.startMic s (some (s.curSampleRate, s.curChannels))
  else s

/-- The statement `if (!audioBuf && numNeedSamples > 0) audioBuf = new QueueBuf(...)` of
`__UsbMicDoState`. -/
def DoStateBuffer (s : MicState) : MicState :=
  match s.audioBuf with
  | none =>
    if s.numNeedSamples > 0 then
      let r := QueueBuf.new s.heap (s32 (u32 (s.numNeedSamples * 2)))
      { s with heap := r.1, audioBuf := some r.2 }
    else s
  | some _ => s

/-- The function `__UsbMicDoState(PointerWrap &p)`: the `PointerWrap` and the state
afterwards; `none` when the save state has not the values the version asks for. -/
def __UsbMicDoState (p : PointerWrap) (s : MicState) (restoreId : Int) :
    Option (PointerWrap × MicState) :=
  (Section p 0 3).bind fun sec =>
    if ¬ sec.2 > 0 then
      some (sec.1, { s with
        eventMicBlockingResume := RestoreRegisterEvent (-1) restoreId
        waitingThreads := [] })
    else
      let isMicStartedNow := Microphone.isMicStarted s
      (DoInt sec.1 s.numNeedSamples).bind fun r1 =>
      (DoWaits r1.1 s.waitingThreads).bind fun r2 =>
      (DoBool r2.1 s.isNeedInput).bind fun r3 =>
      (DoInt r3.1 s.curSampleRate).bind fun r4 =>
      (DoInt r4.1 s.curChannels).bind fun r5 =>
      (DoInt r5.1 s.micState).bind fun r6 =>
      (if sec.2 > 1 then DoInt r6.1 s.eventMicBlockingResume else some (r6.1, -1)).bind fun r7 =>
      (if sec.2 > 2 then
          (DoInt r7.1 s.curTargetAddr).bind fun a =>
            (DoInt a.1 s.readMicDataLength).map fun b => (b.1, a.2, b.2)
        else some (r7.1, s.curTargetAddr, s.readMicDataLength)).bind fun r8 =>
      let s1 := { s with
        numNeedSamples := r1.2
        waitingThreads := r2.2
        isNeedInput := r3.2
        curSampleRate := r4.2
        curChannels := r5.2
        micState := r6.2
        eventMicBlockingResume := RestoreRegisterEvent r7.2 restoreId
        curTargetAddr := r8.2.1
        readMicDataLength := r8.2.2 }
      some (r8.1, DoStateReconcile (DoStateBuffer s1) isMicStartedNow)

/-- The values of a save state of section version `v`, in the order in which
`__UsbMicDoState` moves them: the event type is there from version 2 on, the target
address and the delivered-byte count from version 3 on. -/
def snapshotItems (v numNeedSamples : Int) (waitingThreads : List MicWaitInfo)
    (isNeedInput : Bool)
    (curSampleRate curChannels micState eventType curTargetAddr readMicDataLength : Int) :
    List Item :=
  [Item.int v, Item.int numNeedSamples, Item.waits waitingThreads, Item.bool isNeedInput,
      Item.int curSampleRate, Item.int curChannels, Item.int micState] ++
    (if v > 1 then [Item.int eventType] else []) ++
    (if v > 2 then [Item.int curTargetAddr, Item.int readMicDataLength] else [])

/-- The state `s` with the nine variables that `__UsbMicDoState` moves set to the values
given. -/
def withValues (s : MicState) (numNeedSamples : Int) (waitingThreads : List MicWaitInfo)
    (isNeedInput : Bool)
    (curSampleRate curChannels micState eventType curTargetAddr readMicDataLength : Int) :
    MicState :=
  { s with
    numNeedSamples := numNeedSamples
    waitingThreads := waitingThreads
    isNeedInput := isNeedInput
    curSampleRate := curSampleRate
    curChannels := curChannels
    micState := micState
    eventMicBlockingResume := eventType
    curTargetAddr := curTargetAddr
    readMicDataLength := readMicDataLength }

/-! ## The mutex of `QueueBuf` -/

/-- What one statement of a `QueueBuf` member function does: it takes the recursive mutex
(`std::unique_lock<std::recursive_mutex> lock(mutex)`), releases it (`lock.unlock()`), or
reads or writes one of the fields `buf_`, `available`, `end`, `capacity`. -/
inductive LockStep where
  | lock
  | unlock
  | access
deriving DecidableEq

namespace QueueBuf

/-- The statements of `QueueBuf::pop`, in program order: the test `size == 0` touches no
field; the clamp, `getStartPos`, the copies and `available -= size` run between `lock`
and `unlock`. -/
def popSteps (size : Int) : List LockStep :=
  if size = 0 then []
  else [LockStep.lock, LockStep.access, LockStep.access, LockStep.access, LockStep.access,
    LockStep.unlock]

/-- The statements of `QueueBuf::resize`, in program order: the comparison with
`capacity`, then `getAvailableSize`, the exchange of `buf_`, the call of `pop`, and the
three assignments. The function takes no lock of its own. -/
def resizeSteps (q : QueueBuf) (newSize : Int) : List LockStep :=
  if q.capacity ≥ newSize then [LockStep.access]
  else
    [LockStep.access, LockStep.access, LockStep.access] ++
      popSteps (min q.getAvailableSize newSize) ++
      [LockStep.access, LockStep.access, LockStep.access]

/-- The statements of `QueueBuf::push`, in program order: `lock`, the comparison with
`capacity` and the call of `resize` it guards, the loop and the final copy with their
assignments, `unlock`. -/
def pushSteps (q : QueueBuf) (size : Int) : List LockStep :=
  [LockStep.lock, LockStep.access] ++
    (if size > q.capacity then resizeSteps q size else []) ++
    [LockStep.access, LockStep.access, LockStep.access, LockStep.unlock]

/-- The statements of `QueueBuf::flush`, in program order. -/
def flushSteps : List LockStep :=
  [LockStep.lock, LockStep.access, LockStep.access, LockStep.unlock]

end QueueBuf

/-- Whether every field access of a run of statements happens while the mutex is held,
`depth` being the number of times the mutex is held when the run starts. -/
def guarded : Nat → List LockStep → Bool
  | _, [] => true
  | depth, LockStep.lock :: rest => guarded (depth + 1) rest
  | depth, LockStep.unlock :: rest => guarded (depth - 1) rest
  | depth, LockStep.access :: rest => decide (0 < depth) && guarded depth rest

/-- The statements that `__MicInput` runs on an existing ring before the drain: the call
`audioBuf->resize(size)`, made while `__MicInput` holds no lock. -/
def MicInputRingSteps (s : MicState) (maxSamples : Int) : List LockStep :=
  match s.audioBuf with
  | none => []
  | some q => q.resizeSteps (s32 (u32 (maxSamples * 2)))

/-! ## Reachable states -/

/-- Modelled from the spec: the thread scheduler cancels the wait of a thread (the thread
is released or terminated from outside); the thread holds no wait afterwards. -/
def __KernelCancelWait (k : Kernel) (threadID : Int) : Kernel :=
  { k with waitID := fun t => if t = threadID then 0 else k.waitID t }

/-- Modelled from the spec: the thread scheduler makes another thread the current one. -/
def __KernelSwitchThread (k : Kernel) (threadID : Int) : Kernel :=
  { k with curThread := threadID }

/-- The states reachable from `__UsbMicInit` by requests of the current thread while it
holds no wait, firings of `__MicBlockingResume`, producer pushes and thread switches, and,
when `cancel` is set, by the thread scheduler cancelling the wait of a thread. -/
inductive Reachable (env : Env) (cancel : Bool) : MicState → Prop where
  | init (s : MicState) (registered : Int) : Reachable env cancel (__UsbMicInit s registered)
  | blocking (s : MicState) (maxSamples sampleRate bufAddr : Int) :
      Reachable env cancel s →
      __KernelGetWaitID s.kernel (__KernelGetCurThread s.kernel) = 0 →
      Reachable env cancel (sceUsbMicInputBlocking env s maxSamples sampleRate bufAddr).2
  | nonblocking (s : MicState) (maxSamples sampleRate bufAddr : Int) :
      Reachable env cancel s →
      __KernelGetWaitID s.kernel (__KernelGetCurThread s.kernel) = 0 →
      Reachable env cancel (sceUsbMicInput env s maxSamples sampleRate bufAddr).2
  | fire (s : MicState) (userdata : Int) :
      Reachable env cancel s → Reachable env cancel (__MicBlockingResume env s userdata)
  | push (s : MicState) (fuel : Nat) (buf : Ptr) (size : Int) (r : Int × MicState) :
      Reachable env cancel s → Microphone.addAudioData env fuel s buf size = some r →
      Reachable env cancel r.2
  | switch (s : MicState) (threadID : Int) :
      Reachable env cancel s →
      Reachable env cancel { s with kernel := __KernelSwitchThread s.kernel threadID }
  | cancelWait (s : MicState) (threadID : Int) :
      cancel = true → Reachable env cancel s →
      Reachable env cancel { s with kernel := __KernelCancelWait s.kernel threadID }

/-- The registry invariant: no two entries of `waitingThreads` belong to the same thread,
and every thread that has an entry holds the microphone wait. -/
def RegistryInv (s : MicState) : Prop :=
  (s.waitingThreads.map MicWaitInfo.threadID).Nodup ∧
    ∀ w ∈ s.waitingThreads, __KernelGetWaitID s.kernel w.threadID ≠ 0

/-! ## Sample data -/

/-- A sample heap: block 1 holds the bytes `1, ..., 8`, every other byte is `170`; the
blocks `0`, `1` and `2` are in use. -/
def exHeap : Heap := heapOf 170 3 1 [1, 2, 3, 4, 5, 6, 7, 8]

/-- A sample empty ring of capacity 4 whose storage is block 2. -/
def exQueue : QueueBuf := ⟨2, 0, 0, 4⟩

/-- A sample ring of capacity 4 that holds 3 unread bytes and has wrapped. -/
def exQueueWrapped : QueueBuf := ⟨2, 3, 1, 4⟩

/-- Two sample pushes of three bytes each, taken from block 1. -/
def exChunks : List (Ptr × Int) := [(⟨1, 0⟩, 3), (⟨1, 3⟩, 3)]

/-- A sample environment: the valid guest addresses are `0x08000000 ≤ a < 0x0A000000`,
a range is valid when it starts at a valid address and ends inside that region, one
microsecond is 222 cycles, there is no capture backend, and the two error codes are
negative. Where the wait of `__MicInput` is undefined it is a build that has folded
`* 1000000 / 2` into a 32-bit multiplication by `500000`, and whose division by zero
gives 0. -/
def exEnv : Env :=
  { IsValidAddress := fun a => decide (0x08000000 ≤ a ∧ a < 0x0A000000)
    IsValidRange := fun a n => decide (0x08000000 ≤ a ∧ a < 0x0A000000 ∧ a + n ≤ 0x0A000000)
    usToCycles := fun us => us * 222
    platform := Platform.other
    SCE_ERROR_USBMIC_INVALID_MAX_SAMPLES := -2145109000
    SCE_ERROR_USBMIC_INVALID_SAMPLERATE := -2145108000
    intOverflow := fun x => s32 (x * 500000)
    divByZero := fun _ => 0 }

/-- A sample thread scheduler: thread 7 is running and no thread holds a wait. -/
def exKernel : Kernel :=
  { curThread := 7, waitID := fun _ => 0, waitValue := fun _ => 0, resumed := [] }

/-- A sample state, as `__UsbMicInit` leaves it (event type 3, every byte of memory 170). -/
def exState : MicState :=
  { eventMicBlockingResume := 3, audioBuf := none, numNeedSamples := 0, waitingThreads := [],
    isNeedInput := true, curSampleRate := 44100, curChannels := 1, readMicDataLength := 0,
    curTargetAddr := 0, micState := 0, heap := ⟨fun _ _ => 170, 1⟩, kernel := exKernel,
    events := [], micCalls := [] }

/-- The sample state with a ring of capacity 128 that holds 128 unread bytes. -/
def exStateFull : MicState :=
  { exState with audioBuf := some ⟨1, 128, 0, 128⟩, heap := ⟨fun _ _ => 170, 2⟩ }

/-- The sample state with a pending request of thread 7, which holds no wait. -/
def exStateOrphan : MicState :=
  { exState with waitingThreads := [⟨7, 0x09000000, 128, 44100⟩] }

/-- The sample state after thread 7 asked for 64 samples at `0x09000000` with
`sceUsbMicInputBlocking`: thread 7 waits and has one entry. -/
def exStateWaiting : MicState := (sceUsbMicInputBlocking exEnv exState 64 44100 0x09000000).2

/-- The sample state after the wait of thread 7 was cancelled from outside and thread 7
asked again, for 64 samples at `0x09000100`: thread 7 waits and has two entries. -/
def exStateDouble : MicState :=
  (sceUsbMicInputBlocking exEnv
    { exStateWaiting with kernel := __KernelCancelWait exStateWaiting.kernel 7 }
    64 44100 0x09000100).2

/-- The sample environment with one capture device present. -/
def exEnvDevice : Env := { exEnv with platform := Platform.win32 1 }

/-- The sample state, with a device present, after thread 7 asked for 2176 samples at
`0x09000000` with `sceUsbMicInputBlocking`. -/
def exStateBig : MicState :=
  (sceUsbMicInputBlocking exEnvDevice exState 2176 44100 0x09000000).2

/-- The sample state after the non-blocking request of 64 samples at `0x09000000` found
the ring full: the target address is set and 128 bytes are delivered. -/
def exStateDelivered : MicState := (sceUsbMicInput exEnv exStateFull 64 44100 0x09000000).2

/-- A sample save state of section version 2 (64 samples needed, no pending request, mic
started, event type 3). -/
def exSnapshot2 : PointerWrap :=
  ⟨Mode.MODE_READ, snapshotItems 2 64 [] true 44100 1 1 3 0 0⟩

/-- A sample ring of capacity 128 that holds 16 unread bytes. -/
def exQueue128 : QueueBuf := ⟨1, 16, 16, 128⟩

/-- The sample state after thread 7 and then thread 8 asked for 64 samples each with
`sceUsbMicInputBlocking`, at `0x09000000` and at `0x09000100`: both wait, each has one
entry. -/
def exStateTwoWaiting : MicState :=
  (sceUsbMicInputBlocking exEnv
    { exStateWaiting with kernel := __KernelSwitchThread exStateWaiting.kernel 8 }
    64 44100 0x09000100).2

/-- The sample state in which thread 7 waits for its 64 samples, after the capture
backend handed over 16 bytes with `Microphone::addAudioData` (the 16 bytes at offset 0 of
host block 2). -/
def exStatePushed : MicState :=
  ((Microphone.addAudioData exEnv 1 exStateWaiting ⟨2, 0⟩ 16).getD (0, exStateWaiting)).2

/-- The sample state with a ring of capacity 128 in block 1 that holds 128 unread bytes,
the first eight of them `1, ..., 8`; every other byte of memory is `170`. -/
def exStateRing : MicState :=
  { exState with
    audioBuf := some ⟨1, 128, 0, 128⟩
    heap := heapOf 170 2 1 [1, 2, 3, 4, 5, 6, 7, 8] }

/-- The sample state after the non-blocking request of 64 samples at 44100 Hz: the
capture adapter was started with `(44100, 1)`. -/
def exStateStarted : MicState := (sceUsbMicInput exEnv exState 64 44100 0x09000000).2

/-- The sample state, with a device present, in which thread 7 waits for its 2176
samples, after the capture backend handed over 100 bytes with
`Microphone::addAudioData`. -/
def exStateBigPushed : MicState :=
  ((Microphone.addAudioData exEnvDevice 1 exStateBig ⟨2, 0⟩ 100).getD (0, exStateBig)).2

/-! ## Lemmas -/

theorem lastN_length (c : Nat) (l : List Byte) : (lastN c l).length = min c l.length := by
  simp [lastN]; omega

theorem lastN_append_of_le (c : Nat) (l1 l2 : List Byte) (hc : c ≤ l2.length) :
    lastN c (l1 ++ l2) = lastN c l2 := by
  unfold lastN
  rw [List.drop_append_eq_append_drop, List.length_append]
  have e1 : l1.length + l2.length - c - l1.length = l2.length - c := by omega
  rw [e1, List.drop_eq_nil_of_le (by omega), List.nil_append]

theorem lastN_append_length (l1 l2 : List Byte) : lastN l2.length (l1 ++ l2) = l2 := by
  rw [lastN_append_of_le _ _ _ (le_refl _)]
  simp [lastN]

theorem lastN_lastN_append (c : Nat) (l1 l2 : List Byte) :
    lastN c (lastN c l1 ++ l2) = lastN c (l1 ++ l2) := by
  unfold lastN
  rw [List.drop_append_eq_append_drop, List.drop_append_eq_append_drop, List.drop_drop]
  simp only [List.length_append, List.length_drop]
  congr 2 <;> omega

theorem emod_wrap (x c : Int) (h0 : 0 ≤ x) (h1 : x < 2 * c) :
    (x < c ∧ x % c = x) ∨ (c ≤ x ∧ x % c = x - c) := by
  by_cases h : x < c
  · exact Or.inl ⟨h, Int.emod_eq_of_lt h0 h⟩
  · right
    refine ⟨by omega, ?_⟩
    rw [Int.emod_eq_sub_self_emod]
    exact Int.emod_eq_of_lt (by omega) (by omega)

theorem map_range_getElem_opt (f : Nat → Byte) (n i : Nat) :
    ((List.range n).map f)[i]? = if i < n then some (f i) else none := by
  simp [List.getElem?_map, List.getElem?_range]
  split_ifs <;> simp_all

theorem ring_arith_old (c a e n i S S1 e1 P Q : Int)
    (h1 : 1 ≤ c) (h2 : 0 ≤ a) (h3 : a ≤ c) (h5 : e < c) (hn : n ≤ c) (hi0 : 0 ≤ i)
    (hS : (e ≥ a ∧ S = e - a) ∨ (e < a ∧ S = c - a + e))
    (he1 : (e + n < c ∧ e1 = e + n) ∨ (c ≤ e + n ∧ e1 = e + n - c))
    (hS1 : (e1 ≥ min c (a + n) ∧ S1 = e1 - min c (a + n)) ∨
      (e1 < min c (a + n) ∧ S1 = c - min c (a + n) + e1))
    (hP : (S1 + i < c ∧ P = S1 + i) ∨ (c ≤ S1 + i ∧ P = S1 + i - c))
    (hk : a + n - min c (a + n) + i < a)
    (hQ : (S + (a + n - min c (a + n) + i) < c ∧ Q = S + (a + n - min c (a + n) + i)) ∨
      (c ≤ S + (a + n - min c (a + n) + i) ∧ Q = S + (a + n - min c (a + n) + i) - c)) :
    P = Q ∧ ¬ (e ≤ P ∧ P < e + n) ∧ ¬ (P + c < e + n) := by
  omega

theorem ring_arith_new (c a e n i S1 e1 P : Int)
    (h1 : 1 ≤ c) (h2 : 0 ≤ a) (h3 : a ≤ c) (h4 : 0 ≤ e) (h5 : e < c) (hn : n ≤ c)
    (hi : i < min c (a + n))
    (he1 : (e + n < c ∧ e1 = e + n) ∨ (c ≤ e + n ∧ e1 = e + n - c))
    (hS1 : (e1 ≥ min c (a + n) ∧ S1 = e1 - min c (a + n)) ∨
      (e1 < min c (a + n) ∧ S1 = c - min c (a + n) + e1))
    (hP : (S1 + i < c ∧ P = S1 + i) ∨ (c ≤ S1 + i ∧ P = S1 + i - c))
    (hk : ¬ a + n - min c (a + n) + i < a) :
    (e ≤ P ∧ P < e + n ∧ P - e = n - min c (a + n) + i) ∨
      (¬ (e ≤ P ∧ P < e + n) ∧ P + c < e + n ∧ P + c - e = n - min c (a + n) + i) := by
  omega

theorem drop_index_cast (c a n : Int) (i : Nat) (h1 : 1 ≤ c) (h2 : 0 ≤ a) (hn0 : 0 ≤ n) :
    ((a.toNat + n.toNat - c.toNat + i : Nat) : Int) = a + n - min c (a + n) + (i : Int) := by
  omega

theorem drop_index_lt (c a n : Int) (i : Nat) (h1 : 1 ≤ c) (h2 : 0 ≤ a) (hn0 : 0 ≤ n) :
    a.toNat + n.toNat - c.toNat + i < a.toNat ↔ a + n - min c (a + n) + (i : Int) < a := by
  omega

theorem drop_index_sub (c a n : Int) (i : Nat) (h1 : 1 ≤ c) (h2 : 0 ≤ a) (hn0 : 0 ≤ n)
    (hk : ¬ a + n - min c (a + n) + (i : Int) < a) :
    ((a.toNat + n.toNat - c.toNat + i - a.toNat : Nat) : Int)
      = n - min c (a + n) + (i : Int) := by
  omega

theorem drop_index_none (c a n : Int) (i : Nat) (h1 : 1 ≤ c) (h2 : 0 ≤ a) (hn0 : 0 ≤ n)
    (hi : ¬ i < (min c (a + n)).toNat) :
    ¬ a.toNat + n.toNat - c.toNat + i < a.toNat ∧
      ¬ a.toNat + n.toNat - c.toNat + i - a.toNat < n.toNat := by
  omega

theorem drop_index_some (c a n : Int) (i : Nat) (h1 : 1 ≤ c) (h2 : 0 ≤ a) (hn0 : 0 ≤ n)
    (hi : i < (min c (a + n)).toNat)
    (hk : ¬ a.toNat + n.toNat - c.toNat + i < a.toNat) :
    a.toNat + n.toNat - c.toNat + i - a.toNat < n.toNat := by
  omega

theorem toNat_lt_cast (x : Int) (i : Nat) (hi : i < x.toNat) : (i : Int) < x := by
  omega

theorem add_wrap_bounds (S c i : Int) (hS0 : 0 ≤ S) (hS : S < c) (hi0 : 0 ≤ i) (hi : i < c) :
    0 ≤ S + i ∧ S + i < 2 * c := by
  omega

theorem pop_arith (c a e r i S S1 P Q : Int)
    (h1 : 1 ≤ c) (h5 : e < c) (hr0 : 0 ≤ r) (hi0 : 0 ≤ i) (hi : i < a - r)
    (hS : (e ≥ a ∧ S = e - a) ∨ (e < a ∧ S = c - a + e))
    (hS1 : (e ≥ a - r ∧ S1 = e - (a - r)) ∨ (e < a - r ∧ S1 = c - (a - r) + e))
    (hP : (S1 + i < c ∧ P = S1 + i) ∨ (c ≤ S1 + i ∧ P = S1 + i - c))
    (hQ : (S + (r + i) < c ∧ Q = S + (r + i)) ∨ (c ≤ S + (r + i) ∧ Q = S + (r + i) - c)) :
    P = Q := by
  omega

theorem pop_index_cast (r : Int) (i : Nat) (hr0 : 0 ≤ r) :
    ((r.toNat + i : Nat) : Int) = r + (i : Int) := by
  omega

theorem pop_index_lt (a r : Int) (i : Nat) (hr0 : 0 ≤ r) (hr : r ≤ a) :
    (i < (a - r).toNat ↔ r.toNat + i < a.toNat) := by
  omega

namespace QueueBuf

theorem getStartPos_range (q : QueueBuf) (hq : q.Inv) :
    0 ≤ q.getStartPos ∧ q.getStartPos < q.capacity := by
  obtain ⟨h1, h2, h3, h4, h5⟩ := hq
  unfold getStartPos
  split_ifs <;> constructor <;> omega

theorem pop_fst (h : Heap) (q : QueueBuf) (buf : Ptr) (m : Int)
    (ha : 0 ≤ q.available) : (q.pop h buf m).1 = min m q.available := by
  unfold pop getAvailableSize
  by_cases h0 : m = 0
  · simp [h0, ha]
  · simp only [h0, if_false]
    split_ifs <;> omega

theorem pop_snd (h : Heap) (q : QueueBuf) (buf : Ptr) (m : Int)
    (ha : 0 ≤ q.available) :
    (q.pop h buf m).2.2 = { q with available := q.available - min m q.available } := by
  unfold pop getAvailableSize
  by_cases h0 : m = 0
  · simp [h0, ha]
  · simp only [h0, if_false]
    split_ifs with h1
    · have : min m q.available = q.available := by omega
      rw [this]
    · have : min m q.available = m := by omega
      rw [this]

theorem pop_next (h : Heap) (q : QueueBuf) (buf : Ptr) (m : Int) :
    (q.pop h buf m).2.1.next = h.next := by
  unfold pop memcpy
  by_cases h0 : m = 0
  · simp [h0]
  · simp only [h0, if_false]
    split_ifs <;> rfl

theorem pop_mem_other (h : Heap) (q : QueueBuf) (buf : Ptr) (m : Int) (b : Nat) (j : Int)
    (hb : b ≠ buf.blk) : (q.pop h buf m).2.1.mem b j = h.mem b j := by
  unfold pop memcpy Ptr.add
  by_cases h0 : m = 0
  · simp [h0]
  · simp only [h0, if_false]
    split_ifs <;> simp [hb]

theorem pop_mem_dst (h : Heap) (q : QueueBuf) (buf : Ptr) (m : Int) (hq : q.Inv)
    (hm : 0 ≤ m) (hb : buf.blk ≠ q.buf_) (i : Int) (hi0 : 0 ≤ i)
    (hi : i < min m q.available) :
    (q.pop h buf m).2.1.mem buf.blk (buf.off + i)
      = h.mem q.buf_ ((q.getStartPos + i) % q.capacity) := by
  have hs := getStartPos_range q hq
  obtain ⟨h1, h2, h3, h4, h5⟩ := hq
  have hw := emod_wrap (q.getStartPos + i) q.capacity (by omega) (by omega)
  have hb2 : ¬ q.buf_ = buf.blk := fun e => hb e.symm
  unfold pop memcpy Ptr.add getAvailableSize
  have h0 : m ≠ 0 := by omega
  simp only [h0, if_false]
  generalize q.getStartPos = s at *
  rcases hw with ⟨hw1, hw2⟩ | ⟨hw1, hw2⟩ <;> rw [hw2] <;>
    split_ifs <;> simp only [hb2, false_and, if_false, true_and] <;>
    split_ifs <;>
    first
      | (exfalso; omega)
      | (congr 1; omega)


theorem pushLoop_done (q : QueueBuf) (buf : Ptr) (fuel : Nat) (v : PushVars)
    (hv : ¬ v.end_ + v.size > q.capacity) : pushLoop q buf fuel v = some v := by
  cases fuel <;> simp [pushLoop, hv]

theorem push_eq (fuel : Nat) (h : Heap) (q : QueueBuf) (buf : Ptr) (n : Int)
    (hq : q.Inv) (hn0 : 0 ≤ n) (hn : n ≤ q.capacity) :
    push (fuel + 1) h q buf n
      = some (n, pushHeap h q buf n, pushState q n) := by
  obtain ⟨h1, h2, h3, h4, h5⟩ := hq
  have hnr : ¬ n > q.capacity := by omega
  unfold push pushHeap pushState
  simp only [hnr, if_false]
  by_cases hc : q.end_ + n > q.capacity
  · have hw := emod_wrap (q.end_ + n) q.capacity (by omega) (by omega)
    rcases hw with ⟨hw1, hw2⟩ | ⟨hw1, hw2⟩
    · omega
    · rw [pushLoop, if_pos hc, pushLoop_done _ _ _ _ (by simp; omega)]
      simp only [hc, if_true, Ptr.add, zero_add, add_zero]
      have e1 : q.capacity - q.end_ + (n - (q.capacity - q.end_)) = n := by omega
      have e2 : (n - (q.capacity - q.end_)) % q.capacity = (q.end_ + n) % q.capacity := by
        rw [hw2, Int.emod_eq_of_lt (by omega) (by omega)]; omega
      rw [e1, e2]
  · rw [pushLoop_done _ _ _ _ hc]
    simp only [hc, if_false, Ptr.add, zero_add, add_zero]


theorem pushHeap_next (h : Heap) (q : QueueBuf) (buf : Ptr) (n : Int) :
    (pushHeap h q buf n).next = h.next := by
  unfold pushHeap memcpy
  split_ifs <;> rfl

theorem pushHeap_mem_other (h : Heap) (q : QueueBuf) (buf : Ptr) (n : Int) (b : Nat)
    (j : Int) (hb : b ≠ q.buf_) : (pushHeap h q buf n).mem b j = h.mem b j := by
  unfold pushHeap memcpy Ptr.add
  split_ifs <;> simp [hb]

theorem pushHeap_mem_ring (h : Heap) (q : QueueBuf) (buf : Ptr) (n : Int) (hq : q.Inv)
    (hn : n ≤ q.capacity) (hb : buf.blk ≠ q.buf_) (j : Int) (hj0 : 0 ≤ j)
    (hj : j < q.capacity) :
    (pushHeap h q buf n).mem q.buf_ j =
      if q.end_ ≤ j ∧ j < q.end_ + n then h.mem buf.blk (buf.off + (j - q.end_))
      else if j + q.capacity < q.end_ + n then
        h.mem buf.blk (buf.off + (j + q.capacity - q.end_))
      else h.mem q.buf_ j := by
  obtain ⟨h1, h2, h3, h4, h5⟩ := hq
  unfold pushHeap memcpy Ptr.add
  split_ifs <;> simp only [hb, false_and, if_false, true_and] <;>
    split_ifs <;>
    first
      | (exfalso; omega)
      | rfl
      | (congr 1; omega)

theorem unread_getElem_opt (h : Heap) (q : QueueBuf) (i : Nat) :
    (q.unread h)[i]? =
      if i < q.available.toNat then
        some (h.mem q.buf_ ((q.getStartPos + (i : Int)) % q.capacity))
      else none := by
  unfold unread
  rw [map_range_getElem_opt]

theorem readBytes_getElem_opt (h : Heap) (p : Ptr) (n : Int) (i : Nat) :
    (readBytes h p n)[i]? =
      if i < n.toNat then some (h.mem p.blk (p.off + (i : Int))) else none := by
  unfold readBytes
  rw [map_range_getElem_opt]

theorem unread_length (h : Heap) (q : QueueBuf) : (q.unread h).length = q.available.toNat := by
  simp [unread]

theorem readBytes_length (h : Heap) (p : Ptr) (n : Int) : (readBytes h p n).length = n.toNat := by
  simp [readBytes]

theorem getStartPos_cases (q : QueueBuf) :
    (q.end_ ≥ q.available ∧ q.getStartPos = q.end_ - q.available) ∨
      (q.end_ < q.available ∧ q.getStartPos = q.capacity - q.available + q.end_) := by
  unfold getStartPos
  split_ifs <;> omega

theorem pushState_inv (q : QueueBuf) (n : Int) (hq : q.Inv) (hn0 : 0 ≤ n) :
    (pushState q n).Inv := by
  obtain ⟨h1, h2, h3, h4, h5⟩ := hq
  refine ⟨h1, ?_, ?_, Int.emod_nonneg _ (by omega), Int.emod_lt_of_pos _ (by omega)⟩ <;>
    simp only [pushState] <;> omega

/-- The ring after a push that fits in the capacity holds the last `capacity` bytes of
the old unread content followed by the input. -/
theorem unread_pushHeap (h : Heap) (q : QueueBuf) (buf : Ptr) (n : Int) (hq : q.Inv)
    (hn0 : 0 ≤ n) (hn : n ≤ q.capacity) (hb : buf.blk ≠ q.buf_) :
    unread (pushHeap h q buf n) (pushState q n)
      = lastN q.capacity.toNat (q.unread h ++ readBytes h buf n) := by
  have hs := getStartPos_range q hq
  have hqp := pushState_inv q n hq hn0
  have hsp := getStartPos_range _ hqp
  have cS := getStartPos_cases q
  have cSp := getStartPos_cases (pushState q n)
  have hq2 := hq
  obtain ⟨h1, h2, h3, h4, h5⟩ := hq
  have hav : (pushState q n).available = min q.capacity (q.available + n) := rfl
  have hbf : (pushState q n).buf_ = q.buf_ := rfl
  have hcp : (pushState q n).capacity = q.capacity := rfl
  have hen : (pushState q n).end_ = (q.end_ + n) % q.capacity := rfl
  have hw := emod_wrap (q.end_ + n) q.capacity (by omega) (by omega)
  rw [hav, hen] at cSp
  rw [hcp] at cSp hsp
  apply List.ext_getElem?
  intro i
  unfold lastN
  rw [unread_getElem_opt, List.getElem?_drop, List.getElem?_append, unread_getElem_opt,
    readBytes_getElem_opt, List.length_append, unread_length, readBytes_length, hav, hbf, hcp]
  have hP0 : ∀ x : Int, 0 ≤ x % q.capacity := fun x => Int.emod_nonneg _ (by omega)
  have hP1 : ∀ x : Int, x % q.capacity < q.capacity := fun x => Int.emod_lt_of_pos _ (by omega)
  by_cases hi : i < (min q.capacity (q.available + n)).toNat
  · rw [if_pos hi, pushHeap_mem_ring h q buf n hq2 hn hb _ (hP0 _) (hP1 _)]
    have hi1 := toNat_lt_cast _ _ hi
    have hi2 : (i : Int) < q.capacity := lt_of_lt_of_le hi1 (min_le_left _ _)
    have hi0 : (0 : Int) ≤ (i : Int) := Int.ofNat_nonneg i
    have hb1 := add_wrap_bounds _ _ _ hsp.1 hsp.2 hi0 hi2
    have hw2 := emod_wrap (getStartPos (pushState q n) + (i : Int)) q.capacity hb1.1 hb1.2
    by_cases hk : q.available.toNat + n.toNat - q.capacity.toNat + i < q.available.toNat
    · have hk1 := (drop_index_lt q.capacity q.available n i h1 h2 hn0).1 hk
      have hb2 := add_wrap_bounds q.getStartPos q.capacity
        (q.available + n - min q.capacity (q.available + n) + (i : Int)) hs.1 hs.2
        (by have := min_le_right q.capacity (q.available + n); linarith)
        (by linarith)
      have hw3 := emod_wrap _ _ hb2.1 hb2.2
      simp only [hk, if_true]
      rw [drop_index_cast q.capacity q.available n i h1 h2 hn0]
      obtain ⟨e3, e1, e2⟩ := ring_arith_old _ _ _ _ _ _ _ _ _ _ h1 h2 h3 h5 hn hi0
        cS hw cSp hw2 hk1 hw3
      rw [if_neg e1, if_neg e2, e3]
    · have hk2 := drop_index_some q.capacity q.available n i h1 h2 hn0 hi hk
      have hk1 := fun x => hk ((drop_index_lt q.capacity q.available n i h1 h2 hn0).2 x)
      simp only [hk, hk2, if_true, if_false]
      rw [drop_index_sub q.capacity q.available n i h1 h2 hn0 hk1]
      rcases ring_arith_new _ _ _ _ _ _ _ _ h1 h2 h3 h4 h5 hn hi1 hw cSp hw2 hk1 with
        ⟨e1, e2, e3⟩ | ⟨e1, e2, e3⟩
      · rw [if_pos ⟨e1, e2⟩, e3]
      · rw [if_neg e1, if_pos e2, e3]
  · rw [if_neg hi]
    obtain ⟨hk, hk2⟩ := drop_index_none q.capacity q.available n i h1 h2 hn0 hi
    simp only [hk, hk2, if_false]


/-- The bytes that `pop` copies out are the oldest unread bytes, in order. -/
theorem readBytes_pop (h : Heap) (q : QueueBuf) (buf : Ptr) (m : Int) (hq : q.Inv)
    (hm : 0 ≤ m) (hb : buf.blk ≠ q.buf_) :
    readBytes (q.pop h buf m).2.1 buf (q.pop h buf m).1
      = (q.unread h).take (q.pop h buf m).1.toNat := by
  have ha := hq.2.1
  apply List.ext_getElem?
  intro i
  rw [readBytes_getElem_opt, List.getElem?_take, unread_getElem_opt, pop_fst h q buf m ha]
  by_cases hi : i < (min m q.available).toNat
  · have hi1 := toNat_lt_cast _ _ hi
    have hi2 : i < q.available.toNat := by omega
    rw [if_pos hi, if_pos hi, if_pos hi2,
      pop_mem_dst h q buf m hq hm hb (i : Int) (Int.ofNat_nonneg i) hi1]
  · rw [if_neg hi, if_neg hi]

/-- What `pop` leaves unread is the old unread content without the bytes it returned. -/
theorem unread_pop (h : Heap) (q : QueueBuf) (buf : Ptr) (m : Int) (hq : q.Inv)
    (hm : 0 ≤ m) (hb : buf.blk ≠ q.buf_) :
    unread (q.pop h buf m).2.1 (q.pop h buf m).2.2
      = (q.unread h).drop (q.pop h buf m).1.toNat := by
  have hs := getStartPos_range q hq
  have cS := getStartPos_cases q
  obtain ⟨h1, h2, h3, h4, h5⟩ := hq
  have hr0 : 0 ≤ min m q.available := le_min hm h2
  have hr : min m q.available ≤ q.available := min_le_right _ _
  have hq1 : Inv { q with available := q.available - min m q.available } :=
    ⟨h1, by simp only []; omega, by simp only []; omega, h4, h5⟩
  have hs1 := getStartPos_range _ hq1
  have cS1 := getStartPos_cases { q with available := q.available - min m q.available }
  apply List.ext_getElem?
  intro i
  rw [unread_getElem_opt, List.getElem?_drop, unread_getElem_opt, pop_snd h q buf m h2,
    pop_fst h q buf m h2, pop_mem_other h q buf m _ _ (fun e => hb e.symm)]
  simp only [] at cS1 hs1 ⊢
  by_cases hi : i < (q.available - min m q.available).toNat
  · have hi2 := (pop_index_lt q.available (min m q.available) i hr0 hr).1 hi
    have hi1 := toNat_lt_cast _ _ hi
    have hi0 : (0 : Int) ≤ (i : Int) := Int.ofNat_nonneg i
    rw [if_pos hi, if_pos hi2, pop_index_cast _ i hr0]
    have hb1 := add_wrap_bounds _ q.capacity (i : Int) hs1.1 hs1.2 hi0 (by linarith)
    have hb2 := add_wrap_bounds q.getStartPos q.capacity (min m q.available + (i : Int))
      hs.1 hs.2 (by linarith) (by linarith)
    have hw1 := emod_wrap _ _ hb1.1 hb1.2
    have hw2 := emod_wrap _ _ hb2.1 hb2.2
    rw [pop_arith _ _ _ _ _ _ _ _ _ h1 h5 hr0 hi0 hi1 cS cS1 hw1 hw2]
  · have hi2 := fun x => hi ((pop_index_lt q.available (min m q.available) i hr0 hr).2 x)
    rw [if_neg hi, if_neg hi2]


theorem pop_buf (h : Heap) (q : QueueBuf) (buf : Ptr) (m : Int) :
    (q.pop h buf m).2.2.buf_ = q.buf_ := by
  unfold pop
  split_ifs <;> rfl

theorem resize_grow (h : Heap) (q : QueueBuf) (newSize : Int)
    (hn : q.capacity < newSize) :
    (q.resize h newSize).2 = ⟨h.next, q.available, q.available, newSize⟩ ∧
      (q.resize h newSize).1.next = h.next + 1 ∧
      ∀ b j, b ≠ h.next → (q.resize h newSize).1.mem b j = h.mem b j := by
  have hc : ¬ q.capacity ≥ newSize := by omega
  unfold resize
  simp only [hc, if_false, Heap.alloc]
  refine ⟨?_, ?_, ?_⟩
  · rw [pop_buf]
    rfl
  · rw [pop_next]
  · intro b j hb
    rw [pop_mem_other _ _ _ _ _ _ hb]

theorem push_grow (fuel : Nat) (h : Heap) (q : QueueBuf) (buf : Ptr) (n : Int)
    (hn : q.capacity < n) :
    q.push fuel h buf n = push fuel (q.resize h n).1 (q.resize h n).2 buf n := by
  have e : (q.resize h n).2.capacity = n := by
    have hc : ¬ q.capacity ≥ n := by omega
    simp only [resize, hc, if_false]
  have h1 : n > q.capacity := hn
  have h2 : ¬ n > (q.resize h n).2.capacity := by omega
  conv_lhs => unfold push
  conv_rhs => unfold push
  simp only [h1, h2, if_true, if_false]

/-- Every push returns, on one round of fuel or more, and returns the input length. -/
theorem push_returns (fuel : Nat) (h : Heap) (q : QueueBuf) (buf : Ptr) (n : Int)
    (hq : q.Inv) (hn0 : 0 ≤ n) :
    ∃ h1 q1, q.push (fuel + 1) h buf n = some (n, h1, q1) := by
  by_cases hn : n ≤ q.capacity
  · exact ⟨_, _, push_eq fuel h q buf n hq hn0 hn⟩
  · obtain ⟨h1, h2, h3, h4, h5⟩ := hq
    obtain ⟨r1, -, -⟩ := resize_grow h q n (by omega)
    rw [push_grow _ _ _ _ _ (by omega)]
    refine ⟨_, _, push_eq fuel _ _ buf n ?_ hn0 ?_⟩
    · rw [r1]; exact ⟨by simp only []; omega, h2, by simp only []; omega, h2,
        by simp only []; omega⟩
    · rw [r1]

theorem readBytes_congr (h1 h2 : Heap) (p : Ptr) (n : Int)
    (hm : ∀ j, h1.mem p.blk j = h2.mem p.blk j) : readBytes h1 p n = readBytes h2 p n := by
  unfold readBytes
  simp only [hm]

theorem unread_congr (h1 h2 : Heap) (q : QueueBuf)
    (hm : ∀ j, h1.mem q.buf_ j = h2.mem q.buf_ j) : q.unread h1 = q.unread h2 := by
  unfold unread
  simp only [hm]

theorem pushedBytes_congr (h1 h2 : Heap) (b : Nat) (chunks : List (Ptr × Int))
    (hb : ∀ c ∈ chunks, c.1.blk ≠ b)
    (hm : ∀ b1 j, b1 ≠ b → h1.mem b1 j = h2.mem b1 j) :
    pushedBytes h1 chunks = pushedBytes h2 chunks := by
  induction chunks with
  | nil => rfl
  | cons c rest ih =>
    simp only [pushedBytes]
    rw [ih (fun c1 hc1 => hb c1 (List.mem_cons_of_mem _ hc1)),
      readBytes_congr h1 h2 c.1 c.2 (fun j => hm _ j (hb c (List.mem_cons_self _ _)))]

/-- A single push longer than the capacity grows the ring to the input length and the
ring then holds exactly the input. -/
theorem push_longer (fuel : Nat) (h : Heap) (q : QueueBuf) (buf : Ptr) (n : Int)
    (hq : q.Inv) (hn : q.capacity < n) (hb : buf.blk ≠ h.next) :
    ∃ h1 q1, q.push (fuel + 1) h buf n = some (n, h1, q1) ∧ q1.capacity = n ∧
      q1.available = n ∧ q1.unread h1 = readBytes h buf n := by
  obtain ⟨h1, h2, h3, h4, h5⟩ := hq
  obtain ⟨r1, -, r3⟩ := resize_grow h q n hn
  have hq2 : (q.resize h n).2.Inv := by
    rw [r1]; exact ⟨by simp only []; omega, h2, by simp only []; omega, h2,
      by simp only []; omega⟩
  have hcap : (q.resize h n).2.capacity = n := by rw [r1]
  have hbuf : (q.resize h n).2.buf_ = h.next := by rw [r1]
  have hav : (q.resize h n).2.available = q.available := by rw [r1]
  have hn0 : 0 ≤ n := by omega
  refine ⟨pushHeap (q.resize h n).1 (q.resize h n).2 buf n, pushState (q.resize h n).2 n,
    ?_, ?_, ?_, ?_⟩
  · rw [push_grow _ _ _ _ _ hn]
    exact push_eq fuel _ _ buf n hq2 hn0 (by rw [hcap])
  · show (pushState _ n).capacity = n
    exact hcap
  · show min (q.resize h n).2.capacity ((q.resize h n).2.available + n) = n
    rw [hcap, hav]; omega
  · rw [unread_pushHeap _ _ buf n hq2 hn0 (by rw [hcap]) (by rw [hbuf]; exact hb), hcap,
      readBytes_congr _ h buf n (fun j => r3 _ j hb)]
    have hl : n.toNat = (readBytes h buf n).length := (readBytes_length h buf n).symm
    rw [hl, lastN_append_length]

theorem pushedBytes_length (h : Heap) (chunks : List (Ptr × Int))
    (hc : ∀ c ∈ chunks, 0 ≤ c.2) :
    ((pushedBytes h chunks).length : Int) = (chunks.map Prod.snd).sum := by
  induction chunks with
  | nil => rfl
  | cons c rest ih =>
    have h0 := hc c (List.mem_cons_self _ _)
    have ih1 := ih (fun c1 hc1 => hc c1 (List.mem_cons_of_mem _ hc1))
    simp only [pushedBytes, List.length_append, readBytes_length, List.map_cons, List.sum_cons]
    omega

/-- A row of pushes none of which is longer than the capacity: the ring keeps its
capacity and holds the last `capacity` bytes of the old content followed by all the
bytes pushed. -/
theorem pushAll_fifo (fuel : Nat) (chunks : List (Ptr × Int)) :
    ∀ (h : Heap) (q : QueueBuf), q.Inv →
      (∀ c ∈ chunks, 0 ≤ c.2 ∧ c.2 ≤ q.capacity ∧ c.1.blk ≠ q.buf_) →
      ∃ h1 q1, pushAll (fuel + 1) h q chunks = some (h1, q1) ∧ q1.Inv ∧
        q1.capacity = q.capacity ∧ q1.buf_ = q.buf_ ∧
        q1.unread h1 = lastN q.capacity.toNat (q.unread h ++ pushedBytes h chunks) := by
  induction chunks with
  | nil =>
    intro h q hq _
    refine ⟨h, q, rfl, hq, rfl, rfl, ?_⟩
    simp only [pushedBytes, List.append_nil, lastN]
    have : (q.unread h).length - q.capacity.toNat = 0 := by
      rw [unread_length]
      have := hq.2.2.1
      omega
    rw [this, List.drop_zero]
  | cons c rest ih =>
    intro h q hq hc
    obtain ⟨hc0, hc1, hc2⟩ := hc c (List.mem_cons_self _ _)
    have hrest : ∀ c1 ∈ rest, 0 ≤ c1.2 ∧ c1.2 ≤ (pushState q c.2).capacity ∧
        c1.1.blk ≠ (pushState q c.2).buf_ :=
      fun c1 hc1 => hc c1 (List.mem_cons_of_mem _ hc1)
    obtain ⟨h1, q1, e1, e2, e3, e4, e5⟩ :=
      ih (pushHeap h q c.1 c.2) (pushState q c.2) (pushState_inv q c.2 hq hc0) hrest
    refine ⟨h1, q1, ?_, e2, e3, e4, ?_⟩
    · simp only [pushAll, push_eq fuel h q c.1 c.2 hq hc0 hc1]
      exact e1
    · rw [e5, unread_pushHeap h q c.1 c.2 hq hc0 hc1 hc2]
      have e6 : pushedBytes (pushHeap h q c.1 c.2) rest = pushedBytes h rest :=
        pushedBytes_congr _ _ q.buf_ rest (fun c1 hc1 => (hrest c1 hc1).2.2)
          (fun b1 j hb1 => pushHeap_mem_other h q c.1 c.2 b1 j hb1)
      show lastN q.capacity.toNat (lastN q.capacity.toNat _ ++ _) = _
      rw [e6, lastN_lastN_append]
      simp only [pushedBytes, List.append_assoc]

end QueueBuf

theorem u32_s32 (x : Int) : u32 (s32 x) = u32 x := by
  unfold u32 s32
  omega

theorem u32_u32 (x : Int) : u32 (u32 x) = u32 x := by
  unfold u32
  omega

theorem u32_of_range (x : Int) (h0 : 0 ≤ x) (h1 : x < 4294967296) : u32 x = x := by
  unfold u32
  omega

theorem s32_of_range (x : Int) (h0 : -2147483648 ≤ x) (h1 : x < 2147483648) : s32 x = x := by
  unfold s32
  omega

theorem land_63 (x : Nat) : x &&& 0x3F = x % 64 := by
  have := Nat.and_pow_two_sub_one_eq_mod x 6
  simpa using this

theorem invalid_max_samples (maxSamples : Int) (h : maxSamples = 0 ∨ maxSamples % 64 ≠ 0) :
    maxSamples ≤ 0 ∨ (maxSamples.toNat &&& 0x3F) ≠ 0 := by
  rw [land_63]
  omega

theorem valid_max_samples (maxSamples : Int) (h0 : 0 < maxSamples) (h : maxSamples % 64 = 0) :
    ¬ (maxSamples ≤ 0 ∨ (maxSamples.toNat &&& 0x3F) ≠ 0) := by
  rw [land_63]
  omega

/-- The blocking call is the non-blocking call followed by the three registration steps. -/
theorem MicInput_block (env : Env) (s : MicState) (maxSamples sampleRate bufAddr : Int)
    (type : MICTYPE) :
    __MicInput env s maxSamples sampleRate bufAddr type true =
      ((__MicInput env s maxSamples sampleRate bufAddr type false).1,
        { ScheduleEvent (__MicInput env s maxSamples sampleRate bufAddr type false).2
            (env.usToCycles (inputWaitTimeus env (s32 (u32 (maxSamples * 2)))
              (Microphone.availableAudioBufSize
                (__MicInput env s maxSamples sampleRate bufAddr type false).2) sampleRate))
            (__MicInput env s maxSamples sampleRate bufAddr type false).2.eventMicBlockingResume
            (__KernelGetCurThread
              (__MicInput env s maxSamples sampleRate bufAddr type false).2.kernel) with
          waitingThreads :=
            (__MicInput env s maxSamples sampleRate bufAddr type false).2.waitingThreads ++
              [⟨__KernelGetCurThread
                  (__MicInput env s maxSamples sampleRate bufAddr type false).2.kernel,
                bufAddr, u32 (s32 (u32 (maxSamples * 2))), sampleRate⟩]
          kernel := __KernelWaitCurThread
            (__MicInput env s maxSamples sampleRate bufAddr type false).2.kernel 1
            (u32 (s32 (u32 (maxSamples * 2)))) }) := by
  rfl

/-- Two states with the same registry, event queue, thread scheduler and event type. -/
theorem MicInputSetup_frame (s : MicState) (maxSamples sampleRate bufAddr : Int) :
    (MicInputSetup s maxSamples sampleRate bufAddr).waitingThreads = s.waitingThreads ∧
      (MicInputSetup s maxSamples sampleRate bufAddr).events = s.events ∧
      (MicInputSetup s maxSamples sampleRate bufAddr).kernel = s.kernel ∧
      (MicInputSetup s maxSamples sampleRate bufAddr).eventMicBlockingResume
        = s.eventMicBlockingResume := by
  unfold MicInputSetup
  cases hb : s.audioBuf <;> simp only [Microphone.startMic] <;> split_ifs <;>
    exact ⟨rfl, rfl, rfl, rfl⟩

theorem MicInputDrain_frame (env : Env) (s : MicState) (size : Int) :
    (MicInputDrain env s size).waitingThreads = s.waitingThreads ∧
      (MicInputDrain env s size).events = s.events ∧
      (MicInputDrain env s size).kernel = s.kernel ∧
      (MicInputDrain env s size).eventMicBlockingResume = s.eventMicBlockingResume := by
  unfold MicInputDrain Microphone.getAudioData
  cases hb : s.audioBuf <;> simp only [] <;> split_ifs <;> exact ⟨rfl, rfl, rfl, rfl⟩

/-- The non-blocking part of `__MicInput` leaves the registry, the event queue, the
thread scheduler and the event type alone. -/
theorem MicInput_frame (env : Env) (s : MicState) (maxSamples sampleRate bufAddr : Int)
    (type : MICTYPE) :
    (__MicInput env s maxSamples sampleRate bufAddr type false).2.waitingThreads
        = s.waitingThreads ∧
      (__MicInput env s maxSamples sampleRate bufAddr type false).2.events = s.events ∧
      (__MicInput env s maxSamples sampleRate bufAddr type false).2.kernel = s.kernel ∧
      (__MicInput env s maxSamples sampleRate bufAddr type false).2.eventMicBlockingResume
        = s.eventMicBlockingResume := by
  obtain ⟨a1, a2, a3, a4⟩ := MicInputSetup_frame s maxSamples sampleRate bufAddr
  obtain ⟨b1, b2, b3, b4⟩ := MicInputDrain_frame env
    (MicInputSetup s maxSamples sampleRate bufAddr) (s32 (u32 (maxSamples * 2)))
  have e : (__MicInput env s maxSamples sampleRate bufAddr type false).2
      = MicInputDrain env (MicInputSetup s maxSamples sampleRate bufAddr)
          (s32 (u32 (maxSamples * 2))) := rfl
  rw [e]
  exact ⟨b1.trans a1, b2.trans a2, b3.trans a3, b4.trans a4⟩

theorem MicBlockingResumeLoop_orphan (env : Env) (threadID userdata : Int)
    (l : List MicWaitInfo) (s : MicState) (hw : __KernelGetWaitID s.kernel threadID = 0) :
    MicBlockingResumeLoop env threadID userdata l s = (l, s) := by
  induction l with
  | nil => rfl
  | cons w rest ih =>
    unfold MicBlockingResumeLoop
    by_cases ht : w.threadID ≠ threadID
    · rw [if_pos ht, ih]
    · rw [if_neg ht, if_pos hw, ih]

/-- While the product stays below `2^31` the wait of `__MicInput` is the exact value,
in every environment. -/
theorem inputWaitTimeus_exact (env : Env) (size available sampleRate : Int)
    (h0 : 0 ≤ size - available) (h1 : size - available ≤ 2147) (hs : sampleRate ≠ 0) :
    inputWaitTimeus env size available sampleRate
      = (size - available) * 1000000 / 2 / sampleRate := by
  have hr : -2147483648 ≤ (size - available) * 1000000 ∧
      (size - available) * 1000000 ≤ 2147483647 := by constructor <;> omega
  unfold inputWaitTimeus
  simp only [hr, and_self, if_true, hs, if_false]
  rw [Int.tdiv_eq_ediv (by omega) (by decide), u32_of_range _ (by omega) (by omega)]

/-- The dividend of the wait of `__MicInput` is a `u32`: for a rate that is not zero the
wait is at most `4294967295 / sampleRate`, in every environment. -/
theorem inputWaitTimeus_le (env : Env) (size available sampleRate : Int)
    (hs : 0 < sampleRate) :
    inputWaitTimeus env size available sampleRate ≤ 4294967295 / sampleRate := by
  have hne : sampleRate ≠ 0 := by omega
  have hu : ∀ v : Int, u32 v ≤ 4294967295 := by
    intro v
    unfold u32
    omega
  unfold inputWaitTimeus
  simp only [hne, if_false]
  exact Int.ediv_le_ediv hs (hu _)

theorem MicInputSetup_available (s : MicState) (maxSamples sampleRate bufAddr : Int) :
    Microphone.availableAudioBufSize (MicInputSetup s maxSamples sampleRate bufAddr)
        = Microphone.availableAudioBufSize s ∧
      (MicInputSetup s maxSamples sampleRate bufAddr).readMicDataLength = 0 := by
  unfold MicInputSetup
  cases hb : s.audioBuf with
  | none =>
    simp only [Microphone.startMic, Microphone.availableAudioBufSize, hb]
    split_ifs <;> exact ⟨rfl, rfl⟩
  | some q =>
    simp only [Microphone.startMic, Microphone.availableAudioBufSize, hb]
    have e : (q.resize s.heap (s32 (u32 (maxSamples * 2)))).2.getAvailableSize
        = q.getAvailableSize := by
      unfold QueueBuf.resize
      split_ifs <;> rfl
    split_ifs <;> exact ⟨e, rfl⟩

/-! ## The claims on `QueueBuf` -/

/-- C1 (the code departs from the claim): on an empty ring of capacity 4, pushing the
three bytes `1, 2, 3`, calling `resize(8)` and popping three bytes returns three bytes of
the newly allocated array (here `170, 170, 170`), not the bytes pushed: inside `resize`
the member `buf_` is redirected to the new array before `pop(buf_, ...)` reads from it. -/
theorem C1_resize_drops_unread :
    exQueue.Inv ∧
      (exQueue.push 1 exHeap ⟨1, 0⟩ 3).map
          (fun r =>
            (r.2.2.unread r.2.1,
             ((r.2.2.resize r.2.1 8).2.pop (r.2.2.resize r.2.1 8).1 ⟨0, 0⟩ 3).1,
             readBytes ((r.2.2.resize r.2.1 8).2.pop (r.2.2.resize r.2.1 8).1 ⟨0, 0⟩ 3).2.1
               ⟨0, 0⟩ 3))
        = some ([1, 2, 3], 3, [170, 170, 170]) := by
  decide

/-- C2, as stated, fails: one `push` call of `C + k = 6` bytes on a ring of capacity
`C = 4` leaves capacity and available at 6, not at 4. -/
theorem C2_single_push_grows :
    exQueue.Inv ∧ exQueue.capacity = 4 ∧
      (exQueue.push 1 exHeap ⟨1, 0⟩ 6).map (fun r => (r.1, r.2.2.capacity, r.2.2.available))
        = some (6, 6, 6) ∧
      (exQueue.push 1 exHeap ⟨1, 0⟩ 6).map (fun r => (r.2.2.capacity, r.2.2.available))
        ≠ some (exQueue.capacity, exQueue.capacity) := by
  decide

/-- C2, amended: pushing `C + k` bytes split over `push` calls of at most `C` bytes each
leaves capacity and available at `C`, the ring holds exactly the last `C` bytes pushed, in
order, and a following pop of `C` bytes returns them; a single `push` call of more than
`C` bytes grows the capacity to its length and the ring then holds all its bytes. -/
theorem C2_ring_overwrite (fuel : Nat) (h : Heap) (q : QueueBuf) (chunks : List (Ptr × Int))
    (k : Int) (hf : 1 ≤ fuel) (hq : q.Inv) (hk : 0 ≤ k)
    (hc : ∀ c ∈ chunks, 0 ≤ c.2 ∧ c.2 ≤ q.capacity ∧ c.1.blk ≠ q.buf_)
    (hsum : (chunks.map Prod.snd).sum = q.capacity + k) :
    (∃ h1 q1, QueueBuf.pushAll fuel h q chunks = some (h1, q1) ∧
        q1.capacity = q.capacity ∧ q1.available = q.capacity ∧
        q1.unread h1 = lastN q.capacity.toNat (pushedBytes h chunks) ∧
        ∀ out : Ptr, out.blk ≠ q.buf_ →
          (q1.pop h1 out q.capacity).1 = q.capacity ∧
          readBytes (q1.pop h1 out q.capacity).2.1 out q.capacity
            = lastN q.capacity.toNat (pushedBytes h chunks)) ∧
      ∀ (buf : Ptr) (n : Int), q.capacity < n → buf.blk ≠ h.next →
        ∃ h1 q1, q.push fuel h buf n = some (n, h1, q1) ∧ q1.capacity = n ∧
          q1.available = n ∧ q1.unread h1 = readBytes h buf n := by
  obtain ⟨f, rfl⟩ : ∃ f, fuel = f + 1 := ⟨fuel - 1, by omega⟩
  refine ⟨?_, fun buf n hn hb => QueueBuf.push_longer f h q buf n hq hn hb⟩
  obtain ⟨h1, q1, e1, e2, e3, e4, e5⟩ := QueueBuf.pushAll_fifo f chunks h q hq hc
  have hlen := QueueBuf.pushedBytes_length h chunks (fun c hcm => (hc c hcm).1)
  have hcap1 : 1 ≤ q.capacity := hq.1
  have e6 : q1.unread h1 = lastN q.capacity.toNat (pushedBytes h chunks) := by
    rw [e5]
    exact lastN_append_of_le _ _ _ (by omega)
  have e7 : q1.available = q.capacity := by
    have hl := congrArg List.length e6
    rw [QueueBuf.unread_length, lastN_length] at hl
    have := e2.2.1
    omega
  refine ⟨h1, q1, e1, e3, e7, e6, fun out ho => ?_⟩
  have hm : 0 ≤ q.capacity := by omega
  have hp := QueueBuf.pop_fst h1 q1 out q.capacity e2.2.1
  have hr := QueueBuf.readBytes_pop h1 q1 out q.capacity e2 hm (by rw [e4]; exact ho)
  rw [e7] at hp
  rw [hp, min_self] at hr
  refine ⟨by rw [hp, min_self], ?_⟩
  rw [hr, e6]
  apply List.take_of_length_le
  rw [lastN_length]
  omega

/-- C2, amended, at a sample input: two pushes of three bytes each on an empty ring of
capacity 4 leave the last four bytes `3, 4, 5, 6`; one push of six bytes grows the ring. -/
theorem C2_ring_overwrite_witness :
    (∃ h1 q1, QueueBuf.pushAll 1 exHeap exQueue exChunks = some (h1, q1) ∧
        q1.capacity = exQueue.capacity ∧ q1.available = exQueue.capacity ∧
        q1.unread h1 = lastN exQueue.capacity.toNat (pushedBytes exHeap exChunks) ∧
        (q1.pop h1 ⟨0, 0⟩ exQueue.capacity).1 = exQueue.capacity ∧
        readBytes (q1.pop h1 ⟨0, 0⟩ exQueue.capacity).2.1 ⟨0, 0⟩ exQueue.capacity
          = lastN exQueue.capacity.toNat (pushedBytes exHeap exChunks)) ∧
      ∃ h1 q1, exQueue.push 1 exHeap ⟨1, 0⟩ 6 = some (6, h1, q1) ∧ q1.capacity = 6 ∧
        q1.available = 6 ∧ q1.unread h1 = readBytes exHeap ⟨1, 0⟩ 6 := by
  have w := C2_ring_overwrite 1 exHeap exQueue exChunks 2 (by decide) (by decide) (by decide)
    (by decide) (by decide)
  obtain ⟨⟨h1, q1, e1, e2, e3, e4, e5⟩, w2⟩ := w
  exact ⟨⟨h1, q1, e1, e2, e3, e4, e5 ⟨0, 0⟩ (by decide)⟩, w2 ⟨1, 0⟩ 6 (by decide) (by decide)⟩

/-- C3: on a ring that satisfies the invariant, `pop(m)` with `m >= 0` returns
`min(m, available)`, copies out that many bytes, which are the oldest unread bytes in
order, lowers `available` by the count returned and leaves `end` and `capacity` as they
were; what stays unread is the rest of the old content. Popping more than `available`
returns `available` bytes, the whole content, and empties the ring. The destination must
not be the ring storage itself. -/
theorem C3_pop_delivers_oldest (h : Heap) (q : QueueBuf) (buf : Ptr) (m : Int)
    (hq : q.Inv) (hm : 0 ≤ m) (hb : buf.blk ≠ q.buf_) :
    (q.pop h buf m).1 = min m q.available ∧
      readBytes (q.pop h buf m).2.1 buf (q.pop h buf m).1
        = (q.unread h).take (q.pop h buf m).1.toNat ∧
      (q.pop h buf m).2.2.available = q.available - (q.pop h buf m).1 ∧
      (q.pop h buf m).2.2.end_ = q.end_ ∧
      (q.pop h buf m).2.2.capacity = q.capacity ∧
      QueueBuf.unread (q.pop h buf m).2.1 (q.pop h buf m).2.2
        = (q.unread h).drop (q.pop h buf m).1.toNat ∧
      (m > q.available →
        (q.pop h buf m).1 = q.available ∧ (q.pop h buf m).2.2.available = 0 ∧
        readBytes (q.pop h buf m).2.1 buf (q.pop h buf m).1 = q.unread h) := by
  have ha := hq.2.1
  have h1 := QueueBuf.pop_fst h q buf m ha
  have h2 := QueueBuf.pop_snd h q buf m ha
  have h3 := QueueBuf.readBytes_pop h q buf m hq hm hb
  have h4 := QueueBuf.unread_pop h q buf m hq hm hb
  refine ⟨h1, h3, ?_, ?_, ?_, h4, fun hgt => ?_⟩
  · rw [h2, h1]
  · rw [h2]
  · rw [h2]
  · have e : min m q.available = q.available := by omega
    refine ⟨by rw [h1, e], by rw [h2, e]; simp, ?_⟩
    rw [h3, h1, e]
    apply List.take_of_length_le
    rw [QueueBuf.unread_length]

/-- C3 at a sample input: popping 5 bytes from a wrapped ring that holds 3. -/
theorem C3_pop_delivers_oldest_witness :
    (exQueueWrapped.pop exHeap ⟨0, 0⟩ 5).1 = min 5 exQueueWrapped.available ∧
      readBytes (exQueueWrapped.pop exHeap ⟨0, 0⟩ 5).2.1 ⟨0, 0⟩
          (exQueueWrapped.pop exHeap ⟨0, 0⟩ 5).1
        = (exQueueWrapped.unread exHeap).take (exQueueWrapped.pop exHeap ⟨0, 0⟩ 5).1.toNat ∧
      (exQueueWrapped.pop exHeap ⟨0, 0⟩ 5).2.2.available
        = exQueueWrapped.available - (exQueueWrapped.pop exHeap ⟨0, 0⟩ 5).1 ∧
      (exQueueWrapped.pop exHeap ⟨0, 0⟩ 5).2.2.end_ = exQueueWrapped.end_ ∧
      (exQueueWrapped.pop exHeap ⟨0, 0⟩ 5).2.2.capacity = exQueueWrapped.capacity ∧
      QueueBuf.unread (exQueueWrapped.pop exHeap ⟨0, 0⟩ 5).2.1
          (exQueueWrapped.pop exHeap ⟨0, 0⟩ 5).2.2
        = (exQueueWrapped.unread exHeap).drop (exQueueWrapped.pop exHeap ⟨0, 0⟩ 5).1.toNat ∧
      (exQueueWrapped.pop exHeap ⟨0, 0⟩ 5).1 = exQueueWrapped.available ∧
      (exQueueWrapped.pop exHeap ⟨0, 0⟩ 5).2.2.available = 0 ∧
      readBytes (exQueueWrapped.pop exHeap ⟨0, 0⟩ 5).2.1 ⟨0, 0⟩
          (exQueueWrapped.pop exHeap ⟨0, 0⟩ 5).1
        = exQueueWrapped.unread exHeap := by
  have w := C3_pop_delivers_oldest exHeap exQueueWrapped ⟨0, 0⟩ 5 (by decide) (by decide)
    (by decide)
  obtain ⟨e1, e2, e3, e4, e5, e6, e7⟩ := w
  exact ⟨e1, e2, e3, e4, e5, e6, e7 (by decide)⟩

/-- C4: on a ring that satisfies the invariant, `push` of `n >= 0` bytes returns (on one
round of fuel or more) exactly `n`; when `n <= capacity` and the source is not the ring
storage, the capacity is unchanged and the unread content afterwards is the last
`capacity` bytes of the old unread content followed by the input. -/
theorem C4_push_is_fifo (fuel : Nat) (h : Heap) (q : QueueBuf) (buf : Ptr) (n : Int)
    (hf : 1 ≤ fuel) (hq : q.Inv) (hn0 : 0 ≤ n) :
    ∃ h1 q1, q.push fuel h buf n = some (n, h1, q1) ∧
      (n ≤ q.capacity → buf.blk ≠ q.buf_ →
        q1.capacity = q.capacity ∧
        q1.unread h1 = lastN q.capacity.toNat (q.unread h ++ readBytes h buf n)) := by
  obtain ⟨f, rfl⟩ : ∃ f, fuel = f + 1 := ⟨fuel - 1, by omega⟩
  by_cases hn : n ≤ q.capacity
  · exact ⟨_, _, QueueBuf.push_eq f h q buf n hq hn0 hn, fun _ hb =>
      ⟨rfl, QueueBuf.unread_pushHeap h q buf n hq hn0 hn hb⟩⟩
  · obtain ⟨h1, q1, e⟩ := QueueBuf.push_returns f h q buf n hq hn0
    exact ⟨h1, q1, e, fun hle => absurd hle hn⟩

/-- C4 at a sample input: pushing two bytes into a wrapped ring that holds 3 of 4. -/
theorem C4_push_is_fifo_witness :
    ∃ h1 q1, exQueueWrapped.push 1 exHeap ⟨1, 0⟩ 2 = some (2, h1, q1) ∧
      q1.capacity = exQueueWrapped.capacity ∧
      q1.unread h1
        = lastN exQueueWrapped.capacity.toNat
            (exQueueWrapped.unread exHeap ++ readBytes exHeap ⟨1, 0⟩ 2) := by
  have w := C4_push_is_fifo 1 exHeap exQueueWrapped ⟨1, 0⟩ 2 (by decide) (by decide)
    (by decide)
  obtain ⟨h1, q1, e1, e2⟩ := w
  exact ⟨h1, q1, e1, e2 (by decide) (by decide)⟩

/-! ## The claims on the entry points -/

/-- C5: when the address is not a valid guest address, or `maxSamples` is 0 or not a
multiple of 64, or the sample rate is not one of 44100, 22050, 11025, both
`sceUsbMicInputBlocking` and `sceUsbMicInput` return a negative code and the state they
return is the state they were given; with a valid address and a valid sample count the
code returned for such a rate is `SCE_ERROR_USBMIC_INVALID_SAMPLERATE`. The two error
codes are taken to be negative. -/
theorem C5_invalid_arguments_rejected (env : Env) (s : MicState)
    (maxSamples sampleRate bufAddr : Int)
    (hmax : env.SCE_ERROR_USBMIC_INVALID_MAX_SAMPLES < 0)
    (hrate : env.SCE_ERROR_USBMIC_INVALID_SAMPLERATE < 0)
    (hbad : env.IsValidAddress bufAddr = false ∨ maxSamples = 0 ∨ maxSamples % 64 ≠ 0 ∨
      (sampleRate ≠ 44100 ∧ sampleRate ≠ 22050 ∧ sampleRate ≠ 11025)) :
    ((sceUsbMicInputBlocking env s maxSamples sampleRate bufAddr).1 < 0 ∧
        (sceUsbMicInputBlocking env s maxSamples sampleRate bufAddr).2 = s) ∧
      ((sceUsbMicInput env s maxSamples sampleRate bufAddr).1 < 0 ∧
        (sceUsbMicInput env s maxSamples sampleRate bufAddr).2 = s) ∧
      (env.IsValidAddress bufAddr = true → 0 < maxSamples → maxSamples % 64 = 0 →
        (sceUsbMicInputBlocking env s maxSamples sampleRate bufAddr).1
            = env.SCE_ERROR_USBMIC_INVALID_SAMPLERATE ∧
          (sceUsbMicInput env s maxSamples sampleRate bufAddr).1
            = env.SCE_ERROR_USBMIC_INVALID_SAMPLERATE) := by
  unfold sceUsbMicInputBlocking sceUsbMicInput
  by_cases ha : env.IsValidAddress bufAddr = true
  · by_cases hm : maxSamples ≤ 0 ∨ (maxSamples.toNat &&& 0x3F) ≠ 0
    · rw [if_neg (not_not.2 ha), if_pos hm, if_neg (not_not.2 ha), if_pos hm]
      exact ⟨⟨hmax, rfl⟩, ⟨hmax, rfl⟩,
        fun _ h0 h64 => absurd hm (valid_max_samples maxSamples h0 h64)⟩
    · have hr : sampleRate ≠ 44100 ∧ sampleRate ≠ 22050 ∧ sampleRate ≠ 11025 := by
        rcases hbad with h | h | h | h
        · rw [ha] at h; exact absurd h (by decide)
        · exact absurd (invalid_max_samples maxSamples (Or.inl h)) hm
        · exact absurd (invalid_max_samples maxSamples (Or.inr h)) hm
        · exact h
      rw [if_neg (not_not.2 ha), if_neg hm, if_pos hr, if_neg (not_not.2 ha), if_neg hm,
        if_pos hr]
      exact ⟨⟨hrate, rfl⟩, ⟨hrate, rfl⟩, fun _ _ _ => ⟨rfl, rfl⟩⟩
  · rw [if_pos ha, if_pos ha]
    have hneg : (-1 : Int) < 0 := by decide
    exact ⟨⟨hneg, rfl⟩, ⟨hneg, rfl⟩, fun h => absurd h ha⟩

/-- C5 at the sample request: 128 samples at the rate 12000 into a valid address. -/
theorem C5_invalid_arguments_rejected_witness :
    ((sceUsbMicInputBlocking exEnv exState 128 12000 0x09000000).1 < 0 ∧
        (sceUsbMicInputBlocking exEnv exState 128 12000 0x09000000).2 = exState) ∧
      ((sceUsbMicInput exEnv exState 128 12000 0x09000000).1 < 0 ∧
        (sceUsbMicInput exEnv exState 128 12000 0x09000000).2 = exState) ∧
      (sceUsbMicInputBlocking exEnv exState 128 12000 0x09000000).1
        = exEnv.SCE_ERROR_USBMIC_INVALID_SAMPLERATE ∧
      (sceUsbMicInput exEnv exState 128 12000 0x09000000).1
        = exEnv.SCE_ERROR_USBMIC_INVALID_SAMPLERATE := by
  have w := C5_invalid_arguments_rejected exEnv exState 128 12000 0x09000000 (by decide)
    (by decide) (Or.inr (Or.inr (Or.inr (by decide))))
  exact ⟨w.1, w.2.1, w.2.2 (by decide) (by decide) (by decide)⟩

/-- C6, as stated, fails: the 128 bytes asked for at `0x09FFFFC0` run past the end of
valid guest memory, the first address is valid, and both entry points accept the
request: they return 64 and the state is changed. -/
theorem C6_range_not_validated :
    exEnv.IsValidAddress 0x09FFFFC0 = true ∧
      exEnv.IsValidRange 0x09FFFFC0 (2 * 64) = false ∧
      (sceUsbMicInput exEnv exState 64 44100 0x09FFFFC0).1 = 64 ∧
      ¬ (sceUsbMicInput exEnv exState 64 44100 0x09FFFFC0).1 < 0 ∧
      ¬ (sceUsbMicInputBlocking exEnv exState 64 44100 0x09FFFFC0).1 < 0 ∧
      (sceUsbMicInput exEnv exState 64 44100 0x09FFFFC0).2.numNeedSamples = 64 ∧
      (sceUsbMicInput exEnv exState 64 44100 0x09FFFFC0).2.curTargetAddr = 0x09FFFFC0 ∧
      (sceUsbMicInput exEnv exState 64 44100 0x09FFFFC0).2.micState = 1 ∧
      (sceUsbMicInputBlocking exEnv exState 64 44100 0x09FFFFC0).1 = 64 ∧
      (sceUsbMicInputBlocking exEnv exState 64 44100 0x09FFFFC0).2.waitingThreads
        = [⟨7, 0x09FFFFC0, 128, 44100⟩] ∧
      exState.numNeedSamples = 0 ∧ exState.curTargetAddr = 0 ∧ exState.micState = 0 ∧
      exState.waitingThreads = [] := by
  decide

/-- C6, amended: a request whose first address `bufAddr` is not a valid guest address
fails fast in both entry points with the result `-1` and the state unchanged. The rest of
the range is not looked at on entry: with a valid first address, a sample count that is a
positive multiple of 64 and a listed rate, the request goes on to `__MicInput`. -/
theorem C6_first_address_validated (env : Env) (s : MicState)
    (maxSamples sampleRate bufAddr : Int) :
    (env.IsValidAddress bufAddr = false →
        sceUsbMicInputBlocking env s maxSamples sampleRate bufAddr = (-1, s) ∧
        sceUsbMicInput env s maxSamples sampleRate bufAddr = (-1, s)) ∧
      (env.IsValidAddress bufAddr = true → 0 < maxSamples → maxSamples % 64 = 0 →
        (sampleRate = 44100 ∨ sampleRate = 22050 ∨ sampleRate = 11025) →
        sceUsbMicInputBlocking env s maxSamples sampleRate bufAddr
            = (s32 (__MicInput env s maxSamples sampleRate bufAddr MICTYPE.USBMIC true).1,
               (__MicInput env s maxSamples sampleRate bufAddr MICTYPE.USBMIC true).2) ∧
          sceUsbMicInput env s maxSamples sampleRate bufAddr
            = (s32 (__MicInput env s maxSamples sampleRate bufAddr MICTYPE.USBMIC false).1,
               (__MicInput env s maxSamples sampleRate bufAddr MICTYPE.USBMIC false).2)) := by
  unfold sceUsbMicInputBlocking sceUsbMicInput
  refine ⟨fun ha => ?_, fun ha h0 h64 hr => ?_⟩
  · simp [ha]
  · have hm2 := valid_max_samples maxSamples h0 h64
    have hr2 : ¬ (sampleRate ≠ 44100 ∧ sampleRate ≠ 22050 ∧ sampleRate ≠ 11025) := by omega
    have ha2 : ¬ ¬ env.IsValidAddress bufAddr = true := not_not.2 ha
    rw [if_neg ha2, if_neg hm2, if_neg hr2, if_neg ha2, if_neg hm2, if_neg hr2]
    exact ⟨rfl, rfl⟩

/-- C6, amended, at two sample requests: the invalid address 0, and the valid address
`0x09FFFFC0` whose range runs past valid memory. -/
theorem C6_first_address_validated_witness :
    (sceUsbMicInputBlocking exEnv exState 64 44100 0 = (-1, exState) ∧
        sceUsbMicInput exEnv exState 64 44100 0 = (-1, exState)) ∧
      (sceUsbMicInputBlocking exEnv exState 64 44100 0x09FFFFC0
          = (s32 (__MicInput exEnv exState 64 44100 0x09FFFFC0 MICTYPE.USBMIC true).1,
             (__MicInput exEnv exState 64 44100 0x09FFFFC0 MICTYPE.USBMIC true).2) ∧
        sceUsbMicInput exEnv exState 64 44100 0x09FFFFC0
          = (s32 (__MicInput exEnv exState 64 44100 0x09FFFFC0 MICTYPE.USBMIC false).1,
             (__MicInput exEnv exState 64 44100 0x09FFFFC0 MICTYPE.USBMIC false).2)) :=
  ⟨(C6_first_address_validated exEnv exState 64 44100 0).1 (by decide),
    (C6_first_address_validated exEnv exState 64 44100 0x09FFFFC0).2 (by decide) (by decide)
      (by decide) (by decide)⟩

/-- C7, as stated, fails: the ring holds the 128 bytes that 64 samples need, the drain
delivers all of them, and the blocking call still registers the entry, schedules an
event and suspends thread 7. -/
theorem C7_satisfied_request_still_waits :
    Microphone.availableAudioBufSize exStateFull = 2 * 64 ∧
      (__MicInput exEnv exStateFull 64 44100 0x09000000 MICTYPE.USBMIC true).2.readMicDataLength
        = 2 * 64 ∧
      (__MicInput exEnv exStateFull 64 44100 0x09000000 MICTYPE.USBMIC true).2.waitingThreads
        = [⟨7, 0x09000000, 128, 44100⟩] ∧
      (__MicInput exEnv exStateFull 64 44100 0x09000000 MICTYPE.USBMIC true).2.events
        = [⟨exEnv.usToCycles 1451, 3, 7⟩] ∧
      (__MicInput exEnv exStateFull 64 44100 0x09000000 MICTYPE.USBMIC true).2.kernel.waitID 7
        = 1 ∧
      exStateFull.waitingThreads = [] ∧ exStateFull.events = [] ∧
      exStateFull.kernel.waitID 7 = 0 := by
  decide

/-- C7, amended: every accepted blocking request (`__MicInput` with `block` set, a sample
count that is a positive multiple of 64 and a listed rate, reached through
`sceUsbMicInputBlocking` when the first address is valid) appends one entry for the
current thread (target address, `2 * maxSamples` as `u32`, sample rate) to
`waitingThreads`, schedules one event for the current thread and suspends the current
thread on the microphone wait with wait id 1, whether or not the immediate drain satisfied
the request. -/
theorem C7_blocking_request_always_waits (env : Env) (s : MicState)
    (maxSamples sampleRate bufAddr : Int) (type : MICTYPE)
    (h0 : 0 < maxSamples) (h64 : maxSamples % 64 = 0)
    (hr : sampleRate = 44100 ∨ sampleRate = 22050 ∨ sampleRate = 11025) :
    (__MicInput env s maxSamples sampleRate bufAddr type true).2.waitingThreads
        = s.waitingThreads ++
            [⟨s.kernel.curThread, bufAddr, u32 (maxSamples * 2), sampleRate⟩] ∧
      (∃ cycles,
        (__MicInput env s maxSamples sampleRate bufAddr type true).2.events
          = s.events ++ [⟨cycles, s.eventMicBlockingResume, s.kernel.curThread⟩]) ∧
      (__MicInput env s maxSamples sampleRate bufAddr type true).2.kernel.waitID
          s.kernel.curThread = 1 ∧
      (__MicInput env s maxSamples sampleRate bufAddr type true).2.kernel.waitValue
          s.kernel.curThread = u32 (maxSamples * 2) ∧
      (__MicInput env s maxSamples sampleRate bufAddr type true).2.kernel.resumed
        = s.kernel.resumed ∧
      (env.IsValidAddress bufAddr = true →
        (sceUsbMicInputBlocking env s maxSamples sampleRate bufAddr).2
          = (__MicInput env s maxSamples sampleRate bufAddr MICTYPE.USBMIC true).2) := by
  obtain ⟨a1, a2, a3, a4⟩ := MicInput_frame env s maxSamples sampleRate bufAddr type
  refine ⟨?_, ?_, ?_, ?_, ?_, fun ha => ?_⟩
  · rw [MicInput_block]
    simp only [ScheduleEvent, __KernelGetCurThread, a1, a3, u32_s32, u32_u32]
  · rw [MicInput_block]
    simp only [ScheduleEvent, __KernelGetCurThread, a2, a3, a4]
    exact ⟨_, rfl⟩
  · rw [MicInput_block]
    simp only [ScheduleEvent, __KernelWaitCurThread, __KernelGetCurThread, a3, if_true]
  · rw [MicInput_block]
    simp only [ScheduleEvent, __KernelWaitCurThread, __KernelGetCurThread, a3, u32_s32,
      u32_u32, if_true]
  · rw [MicInput_block]
    simp only [ScheduleEvent, __KernelWaitCurThread, __KernelGetCurThread, a3]
  · have hm2 := valid_max_samples maxSamples h0 h64
    have hr2 : ¬ (sampleRate ≠ 44100 ∧ sampleRate ≠ 22050 ∧ sampleRate ≠ 11025) := by omega
    have ha2 : ¬ ¬ env.IsValidAddress bufAddr = true := not_not.2 ha
    unfold sceUsbMicInputBlocking
    rw [if_neg ha2, if_neg hm2, if_neg hr2]

/-- C7, amended, at the sample request of 64 samples at 44100 Hz on the ring that holds
the 128 bytes asked for: the request is satisfied by the drain and thread 7 still gets an
entry, an event and the wait. -/
theorem C7_blocking_request_always_waits_witness :
    (__MicInput exEnv exStateFull 64 44100 0x09000000 MICTYPE.USBMIC
        true).2.readMicDataLength = 128 ∧
      (__MicInput exEnv exStateFull 64 44100 0x09000000 MICTYPE.USBMIC true).2.waitingThreads
        = exStateFull.waitingThreads ++ [⟨7, 0x09000000, u32 (64 * 2), 44100⟩] ∧
      (∃ cycles,
        (__MicInput exEnv exStateFull 64 44100 0x09000000 MICTYPE.USBMIC true).2.events
          = exStateFull.events ++ [⟨cycles, 3, 7⟩]) ∧
      (__MicInput exEnv exStateFull 64 44100 0x09000000 MICTYPE.USBMIC true).2.kernel.waitID 7
        = 1 ∧
      (sceUsbMicInputBlocking exEnv exStateFull 64 44100 0x09000000).2
        = (__MicInput exEnv exStateFull 64 44100 0x09000000 MICTYPE.USBMIC true).2 := by
  have w := C7_blocking_request_always_waits exEnv exStateFull 64 44100 0x09000000
    MICTYPE.USBMIC (by decide) (by decide) (Or.inl rfl)
  exact ⟨by decide, w.1, w.2.1, w.2.2.1, w.2.2.2.2.2 (by decide)⟩

/-- C8, as stated, fails: on an empty ring nothing is delivered (`readMicDataLength`
stays 0) and the non-blocking call returns 64 samples for `USBMIC` and 128 bytes for
`CAMERAMIC`, the counts requested. -/
theorem C8_returns_requested_count :
    (__MicInput exEnv exState 64 44100 0x09000000 MICTYPE.USBMIC false).1 = 64 ∧
      (__MicInput exEnv exState 64 44100 0x09000000 MICTYPE.USBMIC false).2.readMicDataLength
        = 0 ∧
      (__MicInput exEnv exState 64 44100 0x09000000 MICTYPE.CAMERAMIC false).1 = 128 ∧
      (__MicInput exEnv exState 64 44100 0x09000000 MICTYPE.CAMERAMIC false).2.readMicDataLength
        = 0 ∧
      (__MicInput exEnv exState 64 44100 0x09000000 MICTYPE.USBMIC false).1
        ≠ (__MicInput exEnv exState 64 44100 0x09000000 MICTYPE.USBMIC
            false).2.readMicDataLength / 2 ∧
      (__MicInput exEnv exState 64 44100 0x09000000 MICTYPE.CAMERAMIC false).1
        ≠ (__MicInput exEnv exState 64 44100 0x09000000 MICTYPE.CAMERAMIC
            false).2.readMicDataLength := by
  decide

/-- C8, amended: a non-blocking call of `__MicInput` returns the count requested,
`2 * maxSamples` (as `u32`) for `CAMERAMIC` and `maxSamples` for the other types,
whatever was delivered; on an empty ring nothing is delivered and the value returned is
the same. -/
theorem C8_nonblocking_returns_request (env : Env) (s : MicState)
    (maxSamples sampleRate bufAddr : Int) (type : MICTYPE) :
    (__MicInput env s maxSamples sampleRate bufAddr type false).1
        = (if type = MICTYPE.CAMERAMIC then u32 (maxSamples * 2) else maxSamples) ∧
      (Microphone.availableAudioBufSize s ≤ 0 →
        (__MicInput env s maxSamples sampleRate bufAddr type false).2.readMicDataLength = 0) := by
  constructor
  · show (if type = MICTYPE.CAMERAMIC then u32 (s32 (u32 (maxSamples * 2))) else maxSamples) = _
    rw [u32_s32]
    unfold u32
    split_ifs
    · exact Int.emod_emod_of_dvd _ (dvd_refl _)
    · rfl
  · intro h
    obtain ⟨b1, b2⟩ := MicInputSetup_available s maxSamples sampleRate bufAddr
    have e : (__MicInput env s maxSamples sampleRate bufAddr type false).2
        = MicInputDrain env (MicInputSetup s maxSamples sampleRate bufAddr)
            (s32 (u32 (maxSamples * 2))) := rfl
    have hn : ¬ Microphone.availableAudioBufSize
        (MicInputSetup s maxSamples sampleRate bufAddr) > 0 := by rw [b1]; omega
    rw [e]
    unfold MicInputDrain
    rw [if_neg hn]
    exact b2

/-- C8, amended, at the sample request of 64 samples on an empty ring. -/
theorem C8_nonblocking_returns_request_witness :
    (__MicInput exEnv exState 64 44100 0x09000000 MICTYPE.USBMIC false).1
        = (if MICTYPE.USBMIC = MICTYPE.CAMERAMIC then u32 (64 * 2) else 64) ∧
      (__MicInput exEnv exState 64 44100 0x09000000 MICTYPE.USBMIC false).2.readMicDataLength
        = 0 :=
  ⟨(C8_nonblocking_returns_request exEnv exState 64 44100 0x09000000 MICTYPE.USBMIC).1,
    (C8_nonblocking_returns_request exEnv exState 64 44100 0x09000000 MICTYPE.USBMIC).2
      (by decide)⟩

/-- C9 (the code departs from the claim): for the accepted blocking request of 4352
samples at 44100 Hz on an empty ring the exact wait is 98684 microseconds. The product
`8704 * 1000000` does not fit the 32-bit `int` it is computed in, and the dividend of the
division by the `u32` sample rate is a `u32`: the wait that `__MicInput` schedules is at
most `4294967295 / 44100 = 97391` microseconds whatever the compiled program makes of the
overflow, so it is not the exact value in any environment. In the sample environment, a
build that multiplies by `500000` in 32 bits, it is 1293 microseconds. -/
theorem C9_wait_product_overflows :
    ((0 : Int) < 4352 ∧ (4352 : Int) % 64 = 0) ∧
      (2 * 4352 - 0) * 1000000 / 2 / 44100 = (98684 : Int) ∧
      (2147483647 : Int) < (2 * 4352 - 0) * 1000000 ∧
      (4294967295 : Int) / 44100 = 97391 ∧
      (∀ env : Env,
        (__MicInput env exState 4352 44100 0x09000000 MICTYPE.USBMIC true).2.events
          = [⟨env.usToCycles (inputWaitTimeus env (2 * 4352) 0 44100), 3, 7⟩]) ∧
      (∀ env : Env, inputWaitTimeus env (2 * 4352) 0 44100 ≤ 97391 ∧
        inputWaitTimeus env (2 * 4352) 0 44100 ≠ (2 * 4352 - 0) * 1000000 / 2 / 44100) ∧
      inputWaitTimeus exEnv (2 * 4352) 0 44100 = 1293 ∧
      (sceUsbMicInputBlocking exEnv exState 4352 44100 0x09000000).2.events
        = [⟨exEnv.usToCycles 1293, 3, 7⟩] := by
  refine ⟨by decide, by decide, by decide, by decide, fun env => rfl, fun env => ?_,
    by decide, by decide⟩
  have h := inputWaitTimeus_le env (2 * 4352) 0 44100 (by decide)
  have e : (4294967295 : Int) / 44100 = 97391 := by decide
  have e2 : ((2 : Int) * 4352 - 0) * 1000000 / 2 / 44100 = 98684 := by decide
  rw [e] at h
  rw [e2]
  exact ⟨h, by omega⟩

/-- C10, as stated, fails: thread 7 has an entry and holds no wait; after the callback
fired for thread 7 its entry is still in `waitingThreads`. -/
theorem C10_orphan_entry_stays :
    __KernelGetWaitID exStateOrphan.kernel 7 = 0 ∧
      exStateOrphan.waitingThreads = [⟨7, 0x09000000, 128, 44100⟩] ∧
      (__MicBlockingResume exEnv exStateOrphan 7).waitingThreads
        = [⟨7, 0x09000000, 128, 44100⟩] := by
  decide

/-- C10, amended: when the callback fires for a thread that no longer holds the
microphone wait, the thread is not resumed, no event is scheduled and its entry stays in
`waitingThreads`: the callback returns the state it was given. -/
theorem C10_orphan_callback_changes_nothing (env : Env) (s : MicState) (userdata : Int)
    (hw : __KernelGetWaitID s.kernel (s32 userdata) = 0) :
    __MicBlockingResume env s userdata = s := by
  unfold __MicBlockingResume
  simp only [MicBlockingResumeLoop_orphan env (s32 userdata) userdata s.waitingThreads s hw]

/-- C10, amended, at the sample state in which thread 7 has an entry and holds no wait. -/
theorem C10_orphan_callback_changes_nothing_witness :
    __MicBlockingResume exEnv exStateOrphan 7 = exStateOrphan :=
  C10_orphan_callback_changes_nothing exEnv exStateOrphan 7 (by decide)

/-! ## Lemmas on the callback -/

theorem resume_waitID (k : Kernel) (threadID ret : Int) :
    __KernelGetWaitID (__KernelResumeThreadFromWait k threadID ret) threadID = 0 := by
  simp [__KernelGetWaitID, __KernelResumeThreadFromWait]

/-- A thread without an entry: the loop keeps every entry and changes nothing. -/
theorem MicBlockingResumeLoop_no_entry (env : Env) (threadID userdata : Int)
    (l : List MicWaitInfo) (s : MicState) (hl : ∀ w ∈ l, w.threadID ≠ threadID) :
    MicBlockingResumeLoop env threadID userdata l s = (l, s) := by
  induction l with
  | nil => rfl
  | cons w rest ih =>
    unfold MicBlockingResumeLoop
    rw [if_pos (hl w (List.mem_cons_self _ _)),
      ih (fun x hx => hl x (List.mem_cons_of_mem _ hx))]

/-- Entries of other threads ahead of the first entry of the thread are stepped over. -/
theorem MicBlockingResumeLoop_skip (env : Env) (threadID userdata : Int)
    (pre l : List MicWaitInfo) (s : MicState) (hpre : ∀ w ∈ pre, w.threadID ≠ threadID) :
    MicBlockingResumeLoop env threadID userdata (pre ++ l) s
      = (pre ++ (MicBlockingResumeLoop env threadID userdata l s).1,
         (MicBlockingResumeLoop env threadID userdata l s).2) := by
  induction pre with
  | nil => rfl
  | cons w rest ih =>
    rw [List.cons_append]
    conv_lhs => unfold MicBlockingResumeLoop
    rw [if_pos (hpre w (List.mem_cons_self _ _)),
      ih (fun x hx => hpre x (List.mem_cons_of_mem _ hx))]
    rfl

/-- The deviceless branch: the entry goes, the thread is resumed, the rest stays. -/
theorem MicBlockingResumeLoop_deviceless (env : Env) (threadID userdata : Int)
    (e : MicWaitInfo) (post : List MicWaitInfo) (s : MicState) (he : e.threadID = threadID)
    (hw : __KernelGetWaitID s.kernel threadID ≠ 0) (hd : Microphone.isHaveDevice env = false) :
    MicBlockingResumeLoop env threadID userdata (e :: post) s
      = (post, { s with
          heap := synthesize env s.heap e.addr e.needSize
          kernel := __KernelResumeThreadFromWait s.kernel threadID
            (__KernelGetWaitValue s.kernel threadID)
          readMicDataLength := u32 (s.readMicDataLength + e.needSize) }) := by
  conv_lhs => unfold MicBlockingResumeLoop
  have h1 : ¬ e.threadID ≠ threadID := not_not.2 he
  have h3 : ¬ Microphone.isHaveDevice env = true := by rw [hd]; decide
  rw [if_neg h1, if_neg hw, if_neg h3]
  exact MicBlockingResumeLoop_orphan env threadID userdata post _ (resume_waitID _ _ _)

/-- The branch that finds the request satisfied: the entry goes, the thread is resumed,
the rest stays. -/
theorem MicBlockingResumeLoop_satisfied (env : Env) (threadID userdata : Int)
    (e : MicWaitInfo) (post : List MicWaitInfo) (s : MicState) (he : e.threadID = threadID)
    (hw : __KernelGetWaitID s.kernel threadID ≠ 0) (hd : Microphone.isHaveDevice env = true)
    (hr : u32 (Microphone.getReadMicDataLength s) ≥ e.needSize) :
    MicBlockingResumeLoop env threadID userdata (e :: post) s
      = (post, { s with
          kernel := __KernelResumeThreadFromWait s.kernel threadID
            (__KernelGetWaitValue s.kernel threadID) }) := by
  conv_lhs => unfold MicBlockingResumeLoop
  have h1 : ¬ e.threadID ≠ threadID := not_not.2 he
  rw [if_neg h1, if_neg hw, if_pos hd, if_pos hr]
  exact MicBlockingResumeLoop_orphan env threadID userdata post _ (resume_waitID _ _ _)

/-- The branch that re-arms: one event is scheduled, the entry stays, and the loop goes on
with the rest. -/
theorem MicBlockingResumeLoop_rearm (env : Env) (threadID userdata : Int)
    (e : MicWaitInfo) (post : List MicWaitInfo) (s : MicState) (he : e.threadID = threadID)
    (hw : __KernelGetWaitID s.kernel threadID ≠ 0) (hd : Microphone.isHaveDevice env = true)
    (hr : ¬ u32 (Microphone.getReadMicDataLength s) ≥ e.needSize) :
    MicBlockingResumeLoop env threadID userdata (e :: post) s
      = (e :: (MicBlockingResumeLoop env threadID userdata post
                (ScheduleEvent s
                  (env.usToCycles (resumeWaitTimeus e.needSize
                    (Microphone.getReadMicDataLength s) e.sampleRate))
                  s.eventMicBlockingResume userdata)).1,
         (MicBlockingResumeLoop env threadID userdata post
                (ScheduleEvent s
                  (env.usToCycles (resumeWaitTimeus e.needSize
                    (Microphone.getReadMicDataLength s) e.sampleRate))
                  s.eventMicBlockingResume userdata)).2) := by
  conv_lhs => unfold MicBlockingResumeLoop
  have h1 : ¬ e.threadID ≠ threadID := not_not.2 he
  rw [if_neg h1, if_neg hw, if_pos hd, if_neg hr]

/-- A list has no entry of the thread, or a first one. -/
theorem first_entry (threadID : Int) (l : List MicWaitInfo) :
    (∀ w ∈ l, w.threadID ≠ threadID) ∨
      ∃ pre e post, l = pre ++ e :: post ∧ (∀ w ∈ pre, w.threadID ≠ threadID) ∧
        e.threadID = threadID := by
  induction l with
  | nil => exact Or.inl (fun w hw => absurd hw (List.not_mem_nil w))
  | cons w rest ih =>
    by_cases hw : w.threadID = threadID
    · exact Or.inr ⟨[], w, rest, rfl, fun x hx => absurd hx (List.not_mem_nil x), hw⟩
    · rcases ih with h | ⟨pre, e, post, h1, h2, h3⟩
      · left
        intro x hx
        rcases List.mem_cons.1 hx with rfl | hx
        · exact hw
        · exact h x hx
      · right
        refine ⟨w :: pre, e, post, by rw [h1]; rfl, ?_, h3⟩
        intro x hx
        rcases List.mem_cons.1 hx with rfl | hx
        · exact hw
        · exact h2 x hx

/-- The resumes of one run of the loop: none, or one resume of the thread with its wait
value, and then the thread held the wait and one of its entries was due. -/
theorem MicBlockingResumeLoop_resumed (env : Env) (threadID userdata : Int)
    (l : List MicWaitInfo) :
    ∀ s : MicState, ∃ L,
      (MicBlockingResumeLoop env threadID userdata l s).2.kernel.resumed
          = s.kernel.resumed ++ L ∧
        (L = [] ∨
          (L = [(threadID, __KernelGetWaitValue s.kernel threadID)] ∧
            __KernelGetWaitID s.kernel threadID ≠ 0 ∧
            ∃ w ∈ l, w.threadID = threadID ∧
              (Microphone.isHaveDevice env = false ∨
                u32 (Microphone.getReadMicDataLength s) ≥ w.needSize))) := by
  induction l with
  | nil => exact fun s => ⟨[], (List.append_nil _).symm, Or.inl rfl⟩
  | cons w rest ih =>
    intro s
    have lift : ∀ L,
        (L = [] ∨
          (L = [(threadID, __KernelGetWaitValue s.kernel threadID)] ∧
            __KernelGetWaitID s.kernel threadID ≠ 0 ∧
            ∃ x ∈ rest, x.threadID = threadID ∧
              (Microphone.isHaveDevice env = false ∨
                u32 (Microphone.getReadMicDataLength s) ≥ x.needSize))) →
        (L = [] ∨
          (L = [(threadID, __KernelGetWaitValue s.kernel threadID)] ∧
            __KernelGetWaitID s.kernel threadID ≠ 0 ∧
            ∃ x ∈ w :: rest, x.threadID = threadID ∧
              (Microphone.isHaveDevice env = false ∨
                u32 (Microphone.getReadMicDataLength s) ≥ x.needSize))) := by
      intro L hL
      rcases hL with h | ⟨h1, h2, x, hx, h3⟩
      · exact Or.inl h
      · exact Or.inr ⟨h1, h2, x, List.mem_cons_of_mem _ hx, h3⟩
    by_cases ht : w.threadID = threadID
    · by_cases hw : __KernelGetWaitID s.kernel threadID = 0
      · rw [MicBlockingResumeLoop_orphan env threadID userdata (w :: rest) s hw]
        exact ⟨[], (List.append_nil _).symm, Or.inl rfl⟩
      · by_cases hd : Microphone.isHaveDevice env = true
        · by_cases hr : u32 (Microphone.getReadMicDataLength s) ≥ w.needSize
          · rw [MicBlockingResumeLoop_satisfied env threadID userdata w rest s ht hw hd hr]
            exact ⟨_, rfl, Or.inr ⟨rfl, hw, w, List.mem_cons_self _ _, ht, Or.inr hr⟩⟩
          · rw [MicBlockingResumeLoop_rearm env threadID userdata w rest s ht hw hd hr]
            obtain ⟨L, h1, h2⟩ := ih (ScheduleEvent s
              (env.usToCycles (resumeWaitTimeus w.needSize
                (Microphone.getReadMicDataLength s) w.sampleRate))
              s.eventMicBlockingResume userdata)
            exact ⟨L, h1, lift L h2⟩
        · have hd2 : Microphone.isHaveDevice env = false := by
            cases h : Microphone.isHaveDevice env
            · rfl
            · exact absurd h hd
          rw [MicBlockingResumeLoop_deviceless env threadID userdata w rest s ht hw hd2]
          exact ⟨_, rfl, Or.inr ⟨rfl, hw, w, List.mem_cons_self _ _, ht, Or.inl hd2⟩⟩
    · have e := MicBlockingResumeLoop_skip env threadID userdata [w] rest s
        (fun x hx => by rw [List.mem_singleton.1 hx]; exact ht)
      rw [List.singleton_append] at e
      rw [e]
      obtain ⟨L, h1, h2⟩ := ih s
      exact ⟨L, h1, lift L h2⟩

theorem synthesize_succ (env : Env) (h : Heap) (addr : Int) (n : Nat) :
    (List.range (n + 1)).foldl
        (fun h (i : Nat) =>
          if env.IsValidAddress (u32 (addr + (i : Int))) then
            Write_U8 h ((i : Int) % 256) (u32 (addr + (i : Int)))
          else h) h
      = (fun h (i : Nat) =>
          if env.IsValidAddress (u32 (addr + (i : Int))) then
            Write_U8 h ((i : Int) % 256) (u32 (addr + (i : Int)))
          else h)
        ((List.range n).foldl
          (fun h (i : Nat) =>
            if env.IsValidAddress (u32 (addr + (i : Int))) then
              Write_U8 h ((i : Int) % 256) (u32 (addr + (i : Int)))
            else h) h) n := by
  rw [List.range_succ, List.foldl_append]
  rfl

theorem u32_add_inj (addr : Int) (i n : Nat) (hi : i < n) (hn : n < 4294967296) :
    u32 (addr + (i : Int)) ≠ u32 (addr + (n : Int)) := by
  unfold u32
  omega

theorem byte_of_index (n : Nat) : (((n : Int) % 256) % 256).toNat = n % 256 := by
  omega

/-- After the first `n` rounds of the deviceless loop every valid address `addr + i` with
`i < n` holds `i mod 256`. -/
theorem synthesize_fold (env : Env) (h : Heap) (addr : Int) (n : Nat)
    (hn : n ≤ 4294967296) :
    ∀ i : Nat, i < n → env.IsValidAddress (u32 (addr + (i : Int))) = true →
      ((List.range n).foldl
          (fun h (i : Nat) =>
            if env.IsValidAddress (u32 (addr + (i : Int))) then
              Write_U8 h ((i : Int) % 256) (u32 (addr + (i : Int)))
            else h) h).mem guestBlk (u32 (addr + (i : Int))) = i % 256 := by
  induction n with
  | zero => exact fun i hi => absurd hi (Nat.not_lt_zero i)
  | succ n ih =>
    intro i hi hv
    rw [synthesize_succ]
    by_cases hin : i = n
    · subst hin
      simp only [hv, if_true, Write_U8, and_self]
      exact byte_of_index i
    · have hlt : i < n := by omega
      have hne := u32_add_inj addr i n hlt (by omega)
      have e := ih (by omega) i hlt hv
      by_cases hvn : env.IsValidAddress (u32 (addr + (n : Int))) = true
      · simp only [hvn, if_true, Write_U8, hne, and_false, if_false]
        exact e
      · simp only [hvn, if_false]
        exact e

theorem synthesize_valid (env : Env) (h : Heap) (addr needSize : Int)
    (hn : needSize ≤ 4294967296) (i : Nat) (hi : i < needSize.toNat)
    (hv : env.IsValidAddress (u32 (addr + (i : Int))) = true) :
    (synthesize env h addr needSize).mem guestBlk (u32 (addr + (i : Int))) = i % 256 :=
  synthesize_fold env h addr needSize.toNat (by omega) i hi hv

/-- The callback without a device, for a thread that holds the wait, on the first entry
of the thread. -/
theorem MicBlockingResume_deviceless (env : Env) (s : MicState) (userdata : Int)
    (pre post : List MicWaitInfo) (e : MicWaitInfo)
    (hd : Microphone.isHaveDevice env = false)
    (hw : __KernelGetWaitID s.kernel (s32 userdata) ≠ 0)
    (hl : s.waitingThreads = pre ++ e :: post)
    (hpre : ∀ w ∈ pre, w.threadID ≠ s32 userdata) (he : e.threadID = s32 userdata) :
    __MicBlockingResume env s userdata
      = { s with
          waitingThreads := pre ++ post
          heap := synthesize env s.heap e.addr e.needSize
          kernel := __KernelResumeThreadFromWait s.kernel (s32 userdata)
            (__KernelGetWaitValue s.kernel (s32 userdata))
          readMicDataLength := u32 (s.readMicDataLength + e.needSize) } := by
  unfold __MicBlockingResume
  simp only [hl, MicBlockingResumeLoop_skip env (s32 userdata) userdata pre (e :: post) s hpre,
    MicBlockingResumeLoop_deviceless env (s32 userdata) userdata e post s he hw hd]

/-! ## The claims on the callback -/

/-- C11: in one call of `__MicBlockingResume` for thread `T` the only thread that can be
resumed is `T`, at most once and with its wait value, and only when `T` has an entry, the
wait id of `T` is not zero, and either no device is present or `readMicDataLength` (as the
`u32` it is) has reached the `needSize` of an entry of `T`; when `T` has no entry the
callback returns the state it was given. -/
theorem C11_resume_only_when_due (env : Env) (s : MicState) (userdata : Int) :
    (∃ L, (__MicBlockingResume env s userdata).kernel.resumed = s.kernel.resumed ++ L ∧
        (L = [] ∨
          (L = [(s32 userdata, __KernelGetWaitValue s.kernel (s32 userdata))] ∧
            __KernelGetWaitID s.kernel (s32 userdata) ≠ 0 ∧
            ∃ w ∈ s.waitingThreads, w.threadID = s32 userdata ∧
              (Microphone.isHaveDevice env = false ∨ u32 s.readMicDataLength ≥ w.needSize)))) ∧
      ((∀ w ∈ s.waitingThreads, w.threadID ≠ s32 userdata) →
        __MicBlockingResume env s userdata = s) := by
  constructor
  · obtain ⟨L, h1, h2⟩ :=
      MicBlockingResumeLoop_resumed env (s32 userdata) userdata s.waitingThreads s
    refine ⟨L, h1, ?_⟩
    rcases h2 with h | ⟨h3, h4, w, hw, h5, h6⟩
    · exact Or.inl h
    · refine Or.inr ⟨h3, h4, w, hw, h5, ?_⟩
      rcases h6 with h | h
      · exact Or.inl h
      · right
        unfold Microphone.getReadMicDataLength at h
        rw [u32_s32] at h
        exact h
  · intro h
    unfold __MicBlockingResume
    simp only [MicBlockingResumeLoop_no_entry env (s32 userdata) userdata s.waitingThreads s h]

/-- C12, as stated, fails: thread 7 holds the wait and has two entries, no device is
present; after one firing of the callback the entry of its second request is still in
`waitingThreads`. -/
theorem C12_second_entry_stays :
    Microphone.isHaveDevice exEnv = false ∧
      __KernelGetWaitID exStateDouble.kernel 7 = 1 ∧
      exStateDouble.waitingThreads
        = [⟨7, 0x09000000, 128, 44100⟩, ⟨7, 0x09000100, 128, 44100⟩] ∧
      (__MicBlockingResume exEnv exStateDouble 7).waitingThreads
        = [⟨7, 0x09000100, 128, 44100⟩] ∧
      (__MicBlockingResume exEnv exStateDouble 7).kernel.resumed = [(7, 128)] := by
  decide

/-- C12, amended: with no device present, for a thread `T` that holds the microphone
wait and whose first entry in `waitingThreads` is `e`, one firing of the callback resumes
`T` once with its stored wait value, removes `e`, keeps every other entry and schedules
no event; `T` holds no wait afterwards, and no entry of `T` remains when `e` was its only
entry. -/
theorem C12_deviceless_resolves_first_entry (env : Env) (s : MicState) (userdata : Int)
    (pre post : List MicWaitInfo) (e : MicWaitInfo)
    (hd : Microphone.isHaveDevice env = false)
    (hw : __KernelGetWaitID s.kernel (s32 userdata) ≠ 0)
    (hl : s.waitingThreads = pre ++ e :: post)
    (hpre : ∀ w ∈ pre, w.threadID ≠ s32 userdata) (he : e.threadID = s32 userdata) :
    (__MicBlockingResume env s userdata).kernel.resumed
        = s.kernel.resumed ++ [(s32 userdata, __KernelGetWaitValue s.kernel (s32 userdata))] ∧
      (__MicBlockingResume env s userdata).waitingThreads = pre ++ post ∧
      (__MicBlockingResume env s userdata).events = s.events ∧
      __KernelGetWaitID (__MicBlockingResume env s userdata).kernel (s32 userdata) = 0 ∧
      ((∀ w ∈ post, w.threadID ≠ s32 userdata) →
        ∀ w ∈ (__MicBlockingResume env s userdata).waitingThreads,
          w.threadID ≠ s32 userdata) := by
  rw [MicBlockingResume_deviceless env s userdata pre post e hd hw hl hpre he]
  refine ⟨rfl, rfl, rfl, resume_waitID _ _ _, fun hpost w hwm => ?_⟩
  rcases List.mem_append.1 hwm with h | h
  · exact hpre w h
  · exact hpost w h

/-- C12, amended, at the sample state in which thread 7 waits and has one entry. -/
theorem C12_deviceless_resolves_first_entry_witness :
    (__MicBlockingResume exEnv exStateWaiting 7).kernel.resumed
        = exStateWaiting.kernel.resumed ++
            [(s32 7, __KernelGetWaitValue exStateWaiting.kernel (s32 7))] ∧
      (__MicBlockingResume exEnv exStateWaiting 7).waitingThreads = [] ++ [] ∧
      (__MicBlockingResume exEnv exStateWaiting 7).events = exStateWaiting.events ∧
      __KernelGetWaitID (__MicBlockingResume exEnv exStateWaiting 7).kernel (s32 7) = 0 ∧
      ∀ w ∈ (__MicBlockingResume exEnv exStateWaiting 7).waitingThreads, w.threadID ≠ s32 7 := by
  have w := C12_deviceless_resolves_first_entry exEnv exStateWaiting 7 [] []
    ⟨7, 0x09000000, 128, 44100⟩ (by decide) (by decide) (by decide) (by decide) (by decide)
  exact ⟨w.1, w.2.1, w.2.2.1, w.2.2.2.1, w.2.2.2.2 (by decide)⟩

/-- C13: with no device present, the bytes that the callback writes for the first entry
`e` of a waiting thread are fixed by the request: in two states whatever, every offset
`i` below `e.needSize` (a `u32`) whose address `e.addr + i` is valid holds `i mod 256`
after the callback, so the two outputs are the same byte for byte. -/
theorem C13_deviceless_bytes_fixed (env : Env) (s1 s2 : MicState) (userdata : Int)
    (pre1 post1 pre2 post2 : List MicWaitInfo) (e : MicWaitInfo)
    (hd : Microphone.isHaveDevice env = false)
    (hw1 : __KernelGetWaitID s1.kernel (s32 userdata) ≠ 0)
    (hl1 : s1.waitingThreads = pre1 ++ e :: post1)
    (hpre1 : ∀ w ∈ pre1, w.threadID ≠ s32 userdata)
    (hw2 : __KernelGetWaitID s2.kernel (s32 userdata) ≠ 0)
    (hl2 : s2.waitingThreads = pre2 ++ e :: post2)
    (hpre2 : ∀ w ∈ pre2, w.threadID ≠ s32 userdata)
    (he : e.threadID = s32 userdata) (hn : e.needSize ≤ 4294967296)
    (i : Nat) (hi : i < e.needSize.toNat)
    (hv : env.IsValidAddress (u32 (e.addr + (i : Int))) = true) :
    (__MicBlockingResume env s1 userdata).heap = synthesize env s1.heap e.addr e.needSize ∧
      (__MicBlockingResume env s1 userdata).heap.mem guestBlk (u32 (e.addr + (i : Int)))
        = i % 256 ∧
      (__MicBlockingResume env s2 userdata).heap.mem guestBlk (u32 (e.addr + (i : Int)))
        = i % 256 ∧
      (__MicBlockingResume env s1 userdata).heap.mem guestBlk (u32 (e.addr + (i : Int)))
        = (__MicBlockingResume env s2 userdata).heap.mem guestBlk (u32 (e.addr + (i : Int))) := by
  have a1 : (__MicBlockingResume env s1 userdata).heap
      = synthesize env s1.heap e.addr e.needSize := by
    rw [MicBlockingResume_deviceless env s1 userdata pre1 post1 e hd hw1 hl1 hpre1 he]
  have a2 : (__MicBlockingResume env s2 userdata).heap
      = synthesize env s2.heap e.addr e.needSize := by
    rw [MicBlockingResume_deviceless env s2 userdata pre2 post2 e hd hw2 hl2 hpre2 he]
  have b1 := synthesize_valid env s1.heap e.addr e.needSize hn i hi hv
  have b2 := synthesize_valid env s2.heap e.addr e.needSize hn i hi hv
  rw [a1, a2]
  exact ⟨rfl, b1, b2, b1.trans b2.symm⟩

/-- C13 at two sample states, the one with one entry of thread 7 and the one with two,
at offset 5 of the request of 128 bytes at `0x09000000`. -/
theorem C13_deviceless_bytes_fixed_witness :
    (__MicBlockingResume exEnv exStateWaiting 7).heap
        = synthesize exEnv exStateWaiting.heap 0x09000000 128 ∧
      (__MicBlockingResume exEnv exStateWaiting 7).heap.mem guestBlk (u32 (0x09000000 + 5))
        = 5 % 256 ∧
      (__MicBlockingResume exEnv exStateDouble 7).heap.mem guestBlk (u32 (0x09000000 + 5))
        = 5 % 256 ∧
      (__MicBlockingResume exEnv exStateWaiting 7).heap.mem guestBlk (u32 (0x09000000 + 5))
        = (__MicBlockingResume exEnv exStateDouble 7).heap.mem guestBlk
            (u32 (0x09000000 + 5)) :=
  C13_deviceless_bytes_fixed exEnv exStateWaiting exStateDouble 7 [] []
    [] [⟨7, 0x09000100, 128, 44100⟩] ⟨7, 0x09000000, 128, 44100⟩ (by decide) (by decide)
    (by decide) (by decide) (by decide) (by decide) (by decide) (by decide) (by decide) 5
    (by decide) (by decide)

/-! ## Lemmas on the registry -/

theorem addAudioData_frame (env : Env) (fuel : Nat) (s : MicState) (buf : Ptr) (size : Int)
    (r : Int × MicState) (h : Microphone.addAudioData env fuel s buf size = some r) :
    r.2.waitingThreads = s.waitingThreads ∧ r.2.kernel = s.kernel := by
  unfold Microphone.addAudioData at h
  cases hb : s.audioBuf with
  | none =>
    simp only [hb, Option.some.injEq] at h
    rw [← h]
    exact ⟨rfl, rfl⟩
  | some q =>
    simp only [hb] at h
    cases hp : q.push fuel s.heap buf size with
    | none =>
      simp only [hp] at h
      exact absurd h (by simp)
    | some p =>
      simp only [hp, Option.some.injEq] at h
      rw [← h]
      simp only [Microphone.getAudioData]
      split_ifs <;> exact ⟨rfl, rfl⟩

theorem sceUsbMicInput_frame (env : Env) (s : MicState) (maxSamples sampleRate bufAddr : Int) :
    (sceUsbMicInput env s maxSamples sampleRate bufAddr).2.waitingThreads = s.waitingThreads ∧
      (sceUsbMicInput env s maxSamples sampleRate bufAddr).2.kernel = s.kernel := by
  obtain ⟨a1, -, a3, -⟩ := MicInput_frame env s maxSamples sampleRate bufAddr MICTYPE.USBMIC
  unfold sceUsbMicInput
  split_ifs <;> first | exact ⟨rfl, rfl⟩ | exact ⟨a1, a3⟩

/-- What a blocking call of `__MicInput` does to the registry and to the scheduler. -/
theorem MicInput_blocking_registry (env : Env) (s : MicState)
    (maxSamples sampleRate bufAddr : Int) (type : MICTYPE) :
    (__MicInput env s maxSamples sampleRate bufAddr type true).2.waitingThreads
        = s.waitingThreads ++
            [⟨s.kernel.curThread, bufAddr, u32 (s32 (u32 (maxSamples * 2))), sampleRate⟩] ∧
      (__MicInput env s maxSamples sampleRate bufAddr type true).2.kernel
        = __KernelWaitCurThread s.kernel 1 (u32 (s32 (u32 (maxSamples * 2)))) := by
  obtain ⟨a1, -, a3, -⟩ := MicInput_frame env s maxSamples sampleRate bufAddr type
  rw [MicInput_block]
  simp only [ScheduleEvent, __KernelGetCurThread, a1, a3]
  exact ⟨trivial, trivial⟩

theorem RegistryInv_MicInput (env : Env) (s : MicState)
    (maxSamples sampleRate bufAddr : Int) (type : MICTYPE) (hs : RegistryInv s)
    (hc : __KernelGetWaitID s.kernel (__KernelGetCurThread s.kernel) = 0) :
    RegistryInv (__MicInput env s maxSamples sampleRate bufAddr type true).2 := by
  obtain ⟨b1, b2⟩ := MicInput_blocking_registry env s maxSamples sampleRate bufAddr type
  obtain ⟨h1, h2⟩ := hs
  have hfresh : ∀ w ∈ s.waitingThreads, w.threadID ≠ s.kernel.curThread := by
    intro w hw e
    apply h2 w hw
    rw [e]
    exact hc
  unfold RegistryInv
  rw [b1, b2]
  constructor
  · rw [List.map_append, List.map_singleton]
    apply List.Nodup.append h1 (List.nodup_singleton _)
    intro t ht1 ht2
    obtain ⟨w, hw, rfl⟩ := List.mem_map.1 ht1
    exact hfresh w hw (List.mem_singleton.1 ht2)
  · intro w hw
    rcases List.mem_append.1 hw with h | h
    · have := hfresh w h
      simp only [__KernelGetWaitID, __KernelWaitCurThread, this, if_false]
      exact h2 w h
    · rw [List.mem_singleton.1 h]
      simp [__KernelGetWaitID, __KernelWaitCurThread]

theorem RegistryInv_blocking (env : Env) (s : MicState)
    (maxSamples sampleRate bufAddr : Int) (hs : RegistryInv s)
    (hc : __KernelGetWaitID s.kernel (__KernelGetCurThread s.kernel) = 0) :
    RegistryInv (sceUsbMicInputBlocking env s maxSamples sampleRate bufAddr).2 := by
  unfold sceUsbMicInputBlocking
  split_ifs <;>
    first
      | exact hs
      | exact RegistryInv_MicInput env s maxSamples sampleRate bufAddr MICTYPE.USBMIC hs hc

theorem MicBlockingResume_satisfied (env : Env) (s : MicState) (userdata : Int)
    (pre post : List MicWaitInfo) (e : MicWaitInfo)
    (hd : Microphone.isHaveDevice env = true)
    (hw : __KernelGetWaitID s.kernel (s32 userdata) ≠ 0)
    (hl : s.waitingThreads = pre ++ e :: post)
    (hpre : ∀ w ∈ pre, w.threadID ≠ s32 userdata) (he : e.threadID = s32 userdata)
    (hr : u32 (Microphone.getReadMicDataLength s) ≥ e.needSize) :
    __MicBlockingResume env s userdata
      = { s with
          waitingThreads := pre ++ post
          kernel := __KernelResumeThreadFromWait s.kernel (s32 userdata)
            (__KernelGetWaitValue s.kernel (s32 userdata)) } := by
  unfold __MicBlockingResume
  simp only [hl, MicBlockingResumeLoop_skip env (s32 userdata) userdata pre (e :: post) s hpre,
    MicBlockingResumeLoop_satisfied env (s32 userdata) userdata e post s he hw hd hr]

theorem MicBlockingResume_rearm (env : Env) (s : MicState) (userdata : Int)
    (pre post : List MicWaitInfo) (e : MicWaitInfo)
    (hd : Microphone.isHaveDevice env = true)
    (hw : __KernelGetWaitID s.kernel (s32 userdata) ≠ 0)
    (hl : s.waitingThreads = pre ++ e :: post)
    (hpre : ∀ w ∈ pre, w.threadID ≠ s32 userdata) (he : e.threadID = s32 userdata)
    (hpost : ∀ w ∈ post, w.threadID ≠ s32 userdata)
    (hr : ¬ u32 (Microphone.getReadMicDataLength s) ≥ e.needSize) :
    __MicBlockingResume env s userdata
      = { s with
          events := s.events ++
            [⟨env.usToCycles (resumeWaitTimeus e.needSize
                (Microphone.getReadMicDataLength s) e.sampleRate),
              s.eventMicBlockingResume, userdata⟩] } := by
  unfold __MicBlockingResume
  simp only [hl, MicBlockingResumeLoop_skip env (s32 userdata) userdata pre (e :: post) s hpre,
    MicBlockingResumeLoop_rearm env (s32 userdata) userdata e post s he hw hd hr,
    MicBlockingResumeLoop_no_entry env (s32 userdata) userdata post _ hpost, ScheduleEvent]

theorem nodup_split (threadID : Int) (pre post : List MicWaitInfo) (e : MicWaitInfo)
    (he : e.threadID = threadID)
    (hn : ((pre ++ e :: post).map MicWaitInfo.threadID).Nodup) :
    ((pre ++ post).map MicWaitInfo.threadID).Nodup ∧ ∀ w ∈ post, w.threadID ≠ threadID := by
  rw [List.map_append, List.map_cons] at hn
  have h1 := List.nodup_cons.1 (List.nodup_middle.1 hn)
  rw [List.map_append]
  refine ⟨h1.2, fun w hw e2 => h1.1 ?_⟩
  rw [he, ← e2]
  exact List.mem_append_right _ (List.mem_map_of_mem _ hw)

theorem RegistryInv_fire (env : Env) (s : MicState) (userdata : Int) (hs : RegistryInv s) :
    RegistryInv (__MicBlockingResume env s userdata) := by
  rcases first_entry (s32 userdata) s.waitingThreads with h | ⟨pre, e, post, hl, hpre, he⟩
  · have e1 : __MicBlockingResume env s userdata = s := by
      unfold __MicBlockingResume
      simp only [MicBlockingResumeLoop_no_entry env (s32 userdata) userdata s.waitingThreads s h]
    rw [e1]
    exact hs
  · obtain ⟨h1, h2⟩ := hs
    have hw : __KernelGetWaitID s.kernel (s32 userdata) ≠ 0 := by
      have := h2 e (by rw [hl]; exact List.mem_append_right _ (List.mem_cons_self _ _))
      rw [he] at this
      exact this
    rw [hl] at h1
    obtain ⟨n1, hpost⟩ := nodup_split (s32 userdata) pre post e he h1
    have keep : ∀ w ∈ pre ++ post,
        __KernelGetWaitID (__KernelResumeThreadFromWait s.kernel (s32 userdata)
          (__KernelGetWaitValue s.kernel (s32 userdata))) w.threadID ≠ 0 := by
      intro w hwm
      have hne : w.threadID ≠ s32 userdata := by
        rcases List.mem_append.1 hwm with h | h
        · exact hpre w h
        · exact hpost w h
      have hin : w ∈ s.waitingThreads := by
        rw [hl]
        rcases List.mem_append.1 hwm with h | h
        · exact List.mem_append_left _ h
        · exact List.mem_append_right _ (List.mem_cons_of_mem _ h)
      simp only [__KernelGetWaitID, __KernelResumeThreadFromWait, hne, if_false]
      exact h2 w hin
    by_cases hd : Microphone.isHaveDevice env = true
    · by_cases hr : u32 (Microphone.getReadMicDataLength s) ≥ e.needSize
      · rw [MicBlockingResume_satisfied env s userdata pre post e hd hw hl hpre he hr]
        exact ⟨n1, keep⟩
      · rw [MicBlockingResume_rearm env s userdata pre post e hd hw hl hpre he hpost hr]
        refine ⟨?_, h2⟩
        show (s.waitingThreads.map MicWaitInfo.threadID).Nodup
        rw [hl]
        exact h1
    · have hd2 : Microphone.isHaveDevice env = false := by
        cases h : Microphone.isHaveDevice env
        · rfl
        · exact absurd h hd
      rw [MicBlockingResume_deviceless env s userdata pre post e hd2 hw hl hpre he]
      exact ⟨n1, keep⟩

/-- The registry invariant holds in every state reachable without cancellation. -/
theorem Reachable_RegistryInv (env : Env) (s : MicState) (h : Reachable env false s) :
    RegistryInv s := by
  induction h with
  | init s registered =>
    exact ⟨List.nodup_nil, fun w hw => absurd hw (List.not_mem_nil w)⟩
  | blocking s maxSamples sampleRate bufAddr _ hc ih =>
    exact RegistryInv_blocking env s maxSamples sampleRate bufAddr ih hc
  | nonblocking s maxSamples sampleRate bufAddr _ _ ih =>
    obtain ⟨a1, a2⟩ := sceUsbMicInput_frame env s maxSamples sampleRate bufAddr
    unfold RegistryInv
    rw [a1, a2]
    exact ih
  | fire s userdata _ ih => exact RegistryInv_fire env s userdata ih
  | push s fuel buf size r _ hp ih =>
    obtain ⟨a1, a2⟩ := addAudioData_frame env fuel s buf size r hp
    unfold RegistryInv
    rw [a1, a2]
    exact ih
  | switch s threadID _ ih => exact ih
  | cancelWait s threadID hc _ _ => exact absurd hc (by decide)

/-- While the product stays below `2^32` the wait of `__MicBlockingResume` is the exact
value. -/
theorem resumeWaitTimeus_exact (needSize readLength sampleRate : Int)
    (h0 : 0 ≤ needSize - readLength) (h1 : needSize - readLength ≤ 4294) :
    resumeWaitTimeus needSize readLength sampleRate
      = (needSize - readLength) * 1000000 / 2 / sampleRate := by
  unfold resumeWaitTimeus
  rw [u32_of_range (needSize - readLength) (by omega) (by omega),
    u32_of_range ((needSize - readLength) * 1000000) (by omega) (by omega)]

/-- C14, as stated, fails: thread 7 asks and waits, the thread scheduler cancels its
wait, thread 7 asks again; the state reached has two entries of thread 7. -/
theorem C14_two_entries_after_cancel :
    Reachable exEnv true exStateDouble ∧
      exStateDouble.waitingThreads.map MicWaitInfo.threadID = [7, 7] ∧
      ¬ (exStateDouble.waitingThreads.map MicWaitInfo.threadID).Nodup := by
  refine ⟨?_, by decide, by decide⟩
  exact Reachable.blocking _ 64 44100 0x09000100
    (Reachable.cancelWait _ 7 rfl
      (Reachable.blocking _ 64 44100 0x09000000 (Reachable.init exState 3) (by decide)))
    (by decide)

/-- C14, amended: in every state reachable from `__UsbMicInit` by requests of the
current thread while it holds no wait, firings of `__MicBlockingResume`, producer pushes
and thread switches, with no wait cancelled from outside, `waitingThreads` has at most
one entry per thread id. -/
theorem C14_one_entry_per_thread (env : Env) (s : MicState) (h : Reachable env false s) :
    (s.waitingThreads.map MicWaitInfo.threadID).Nodup :=
  (Reachable_RegistryInv env s h).1

/-- C14, amended, at the sample state reached by one blocking request of thread 7. -/
theorem C14_one_entry_per_thread_witness :
    (exStateWaiting.waitingThreads.map MicWaitInfo.threadID).Nodup :=
  C14_one_entry_per_thread exEnv exStateWaiting
    (Reachable.blocking _ 64 44100 0x09000000 (Reachable.init exState 3) (by decide))

/-- C19: the invariant `0 <= available <= capacity`, `0 <= end < capacity` (with
`capacity >= 1`) holds after the constructor with `size >= 1` and is kept by `push` with
any length `>= 0`, by `pop` with any size `>= 0`, by `resize` with any new size and by
`flush`; under it `getStartPos` lies in `[0, capacity)` and is
`(end - available) mod capacity`. -/
theorem C19_invariant_preserved (h : Heap) (q : QueueBuf) (hq : q.Inv) :
    (∀ size : Int, 1 ≤ size → (QueueBuf.new h size).2.Inv) ∧
      (∀ (fuel : Nat) (buf : Ptr) (n : Int), 1 ≤ fuel → 0 ≤ n →
        ∃ h1 q1, q.push fuel h buf n = some (n, h1, q1) ∧ q1.Inv) ∧
      (∀ (buf : Ptr) (m : Int), 0 ≤ m → (q.pop h buf m).2.2.Inv) ∧
      (∀ newSize : Int, (q.resize h newSize).2.Inv) ∧
      q.flush.Inv ∧
      0 ≤ q.getStartPos ∧ q.getStartPos < q.capacity ∧
      q.getStartPos = (q.end_ - q.available) % q.capacity := by
  have hs := QueueBuf.getStartPos_range q hq
  have hq2 := hq
  obtain ⟨h1, h2, h3, h4, h5⟩ := hq
  have hresize : ∀ newSize : Int, (q.resize h newSize).2.Inv := by
    intro newSize
    by_cases hc : q.capacity < newSize
    · obtain ⟨r1, -, -⟩ := QueueBuf.resize_grow h q newSize hc
      rw [r1]
      exact ⟨by simp only []; omega, h2, by simp only []; omega, h2, by simp only []; omega⟩
    · have hge : q.capacity ≥ newSize := by omega
      unfold QueueBuf.resize
      rw [if_pos hge]
      exact hq2
  refine ⟨?_, ?_, ?_, hresize, ?_, hs.1, hs.2, ?_⟩
  · intro size hsz
    exact ⟨hsz, le_refl _, by simp only [QueueBuf.new]; omega, le_refl _,
      by simp only [QueueBuf.new]; omega⟩
  · intro fuel buf n hf hn0
    obtain ⟨f, rfl⟩ : ∃ f, fuel = f + 1 := ⟨fuel - 1, by omega⟩
    by_cases hn : n ≤ q.capacity
    · exact ⟨_, _, QueueBuf.push_eq f h q buf n hq2 hn0 hn, QueueBuf.pushState_inv q n hq2 hn0⟩
    · have hgrow : q.capacity < n := by omega
      obtain ⟨r1, -, -⟩ := QueueBuf.resize_grow h q n hgrow
      have hcap : (q.resize h n).2.capacity = n := by rw [r1]
      rw [QueueBuf.push_grow _ _ _ _ _ hgrow]
      exact ⟨_, _, QueueBuf.push_eq f _ _ buf n (hresize n) hn0 (by rw [hcap]),
        QueueBuf.pushState_inv _ n (hresize n) hn0⟩
  · intro buf m hm
    rw [QueueBuf.pop_snd h q buf m h2]
    exact ⟨h1, by simp only []; omega, by simp only []; omega, h4, h5⟩
  · exact ⟨h1, le_refl _, by simp only [QueueBuf.flush]; omega, le_refl _,
      by simp only [QueueBuf.flush]; omega⟩
  · rcases QueueBuf.getStartPos_cases q with ⟨c1, c2⟩ | ⟨c1, c2⟩
    · rw [c2, Int.emod_eq_of_lt (by omega) (by omega)]
    · rw [c2, Int.emod_eq_sub_self_emod, ← Int.emod_eq_sub_self_emod]
      have e : (q.end_ - q.available) % q.capacity
          = (q.end_ - q.available + q.capacity) % q.capacity := by
        rw [Int.add_emod_self]
      rw [e, Int.emod_eq_of_lt (by omega) (by omega)]
      omega

/-- C19 at the sample ring that has wrapped: capacity 4, 3 unread bytes, `end` 1. -/
theorem C19_invariant_preserved_witness :
    (∀ size : Int, 1 ≤ size → (QueueBuf.new exHeap size).2.Inv) ∧
      (∃ h1 q1, exQueueWrapped.push 1 exHeap ⟨1, 0⟩ 6 = some (6, h1, q1) ∧ q1.Inv) ∧
      (exQueueWrapped.pop exHeap ⟨0, 0⟩ 2).2.2.Inv ∧
      (exQueueWrapped.resize exHeap 8).2.Inv ∧
      exQueueWrapped.flush.Inv ∧
      0 ≤ exQueueWrapped.getStartPos ∧ exQueueWrapped.getStartPos < exQueueWrapped.capacity ∧
      exQueueWrapped.getStartPos
        = (exQueueWrapped.end_ - exQueueWrapped.available) % exQueueWrapped.capacity := by
  have w := C19_invariant_preserved exHeap exQueueWrapped (by decide)
  exact ⟨w.1, w.2.1 1 ⟨1, 0⟩ 6 (by decide) (by decide), w.2.2.1 ⟨0, 0⟩ 2 (by decide),
    w.2.2.2.1 8, w.2.2.2.2⟩

/-- C20 (the code departs from the claim): a device is present, thread 7 holds the wait
and has the one entry of its request of 4352 bytes at 44100 Hz, nothing is delivered yet.
The callback re-arms as the claim says, keeps the entry and resumes nobody, but the
product `4352 * 1000000` does not fit in the `u32` it is computed in: the delay scheduled
is 646 microseconds, the exact value is 49342. -/
theorem C20_rearm_delay_wraps :
    Microphone.isHaveDevice exEnvDevice = true ∧
      __KernelGetWaitID exStateBig.kernel 7 = 1 ∧
      exStateBig.waitingThreads = [⟨7, 0x09000000, 4352, 44100⟩] ∧
      exStateBig.readMicDataLength = 0 ∧
      (4352 - 0) * 1000000 / 2 / 44100 = (49342 : Int) ∧
      (4294967295 : Int) < (4352 - 0) * 1000000 ∧
      resumeWaitTimeus 4352 0 44100 = 646 ∧
      (__MicBlockingResume exEnvDevice exStateBig 7).events
        = exStateBig.events ++ [⟨exEnvDevice.usToCycles 646, 3, 7⟩] ∧
      (__MicBlockingResume exEnvDevice exStateBig 7).waitingThreads
        = exStateBig.waitingThreads ∧
      (__MicBlockingResume exEnvDevice exStateBig 7).kernel.resumed = [] := by
  decide

/-! ## Lemmas on save states -/

/-- Loading a save state of section version 1, 2 or 3: the values present are taken, the
event type defaults to `-1` below version 2, and below version 3 the target address and the
delivered-byte count are left as they are. -/
theorem DoState_read (s : MicState) (restoreId v nns : Int) (wt : List MicWaitInfo)
    (ini : Bool) (csr cch ms ev cta rml : Int) (rest : List Item)
    (hv : v = 1 ∨ v = 2 ∨ v = 3) :
    __UsbMicDoState
        ⟨Mode.MODE_READ, snapshotItems v nns wt ini csr cch ms ev cta rml ++ rest⟩ s restoreId
      = some (⟨Mode.MODE_READ, rest⟩,
          DoStateReconcile
            (DoStateBuffer (withValues s nns wt ini csr cch ms
              (RestoreRegisterEvent (if v > 1 then ev else -1) restoreId)
              (if v > 2 then cta else s.curTargetAddr)
              (if v > 2 then rml else s.readMicDataLength)))
            (Microphone.isMicStarted s)) := by
  rcases hv with rfl | rfl | rfl <;> rfl

/-- Saving at section version 3: every value is written, in order. -/
theorem DoState_write (s : MicState) (restoreId : Int) :
    __UsbMicDoState ⟨Mode.MODE_WRITE, []⟩ s restoreId
      = some (⟨Mode.MODE_WRITE,
            snapshotItems 3 s.numNeedSamples s.waitingThreads s.isNeedInput s.curSampleRate
              s.curChannels s.micState s.eventMicBlockingResume s.curTargetAddr
              s.readMicDataLength⟩,
          DoStateReconcile
            (DoStateBuffer (withValues s s.numNeedSamples s.waitingThreads s.isNeedInput
              s.curSampleRate s.curChannels s.micState
              (RestoreRegisterEvent s.eventMicBlockingResume restoreId)
              s.curTargetAddr s.readMicDataLength))
            (Microphone.isMicStarted s)) := by
  rfl

theorem DoStateBuffer_fields (s : MicState) :
    (DoStateBuffer s).numNeedSamples = s.numNeedSamples ∧
      (DoStateBuffer s).waitingThreads = s.waitingThreads ∧
      (DoStateBuffer s).isNeedInput = s.isNeedInput ∧
      (DoStateBuffer s).curSampleRate = s.curSampleRate ∧
      (DoStateBuffer s).curChannels = s.curChannels ∧
      (DoStateBuffer s).micState = s.micState ∧
      (DoStateBuffer s).curTargetAddr = s.curTargetAddr ∧
      (DoStateBuffer s).readMicDataLength = s.readMicDataLength ∧
      (DoStateBuffer s).micCalls = s.micCalls := by
  unfold DoStateBuffer
  cases s.audioBuf with
  | none =>
    simp only []
    split_ifs <;> exact ⟨rfl, rfl, rfl, rfl, rfl, rfl, rfl, rfl, rfl⟩
  | some q => exact ⟨rfl, rfl, rfl, rfl, rfl, rfl, rfl, rfl, rfl⟩

theorem DoStateReconcile_fields (s : MicState) (now : Bool) :
    (DoStateReconcile s now).numNeedSamples = s.numNeedSamples ∧
      (DoStateReconcile s now).waitingThreads = s.waitingThreads ∧
      (DoStateReconcile s now).isNeedInput = s.isNeedInput ∧
      (DoStateReconcile s now).curSampleRate = s.curSampleRate ∧
      (DoStateReconcile s now).curChannels = s.curChannels ∧
      (DoStateReconcile s now).curTargetAddr = s.curTargetAddr ∧
      (DoStateReconcile s now).readMicDataLength = s.readMicDataLength := by
  unfold DoStateReconcile Microphone.startMic Microphone.stopMic
  split_ifs <;> exact ⟨rfl, rfl, rfl, rfl, rfl, rfl, rfl⟩

/-- The reconciliation when the flag loaded is 0 or 1: the calls it makes, and the flag
afterwards. -/
theorem DoStateReconcile_calls (s : MicState) (now : Bool)
    (hms : s.micState = 0 ∨ s.micState = 1) :
    (DoStateReconcile s now).micCalls
        = s.micCalls ++
          (if decide (s.micState = 1) = now then []
            else if s.micState = 1 then [MicCall.start (some (s.curSampleRate, s.curChannels))]
            else [MicCall.stop]) ∧
      (DoStateReconcile s now).micState = s.micState := by
  unfold DoStateReconcile Microphone.startMic Microphone.stopMic
  rcases hms with h | h <;> cases now <;> simp [h]

/-- The reconciliation on a state that is not started leaves the flag loaded in place. -/
theorem DoStateReconcile_fresh (s : MicState) :
    (DoStateReconcile s false).micState = s.micState := by
  by_cases h0 : s.micState = 0
  · simp [DoStateReconcile, h0]
  · by_cases h1 : s.micState = 1
    · simp [DoStateReconcile, h1, Microphone.startMic]
    · simp [DoStateReconcile, h0, h1]

/-- Loading a save state of section version 1 or 2 leaves the target address and the
delivered-byte count as they were before the load. -/
theorem DoState_read_old (s : MicState) (restoreId v nns : Int) (wt : List MicWaitInfo)
    (ini : Bool) (csr cch ms ev cta rml : Int) (rest : List Item) (hv : v = 1 ∨ v = 2) :
    ∃ p1 s1,
      __UsbMicDoState
          ⟨Mode.MODE_READ, snapshotItems v nns wt ini csr cch ms ev cta rml ++ rest⟩ s
          restoreId = some (p1, s1) ∧
        s1.curTargetAddr = s.curTargetAddr ∧ s1.readMicDataLength = s.readMicDataLength := by
  have hv3 : v = 1 ∨ v = 2 ∨ v = 3 := by omega
  have h2 : ¬ v > 2 := by omega
  refine ⟨_, _, DoState_read s restoreId v nns wt ini csr cch ms ev cta rml rest hv3, ?_, ?_⟩
  · rw [(DoStateReconcile_fields _ _).2.2.2.2.2.1, (DoStateBuffer_fields _).2.2.2.2.2.2.1]
    simp only [withValues, if_neg h2]
  · rw [(DoStateReconcile_fields _ _).2.2.2.2.2.2, (DoStateBuffer_fields _).2.2.2.2.2.2.2.1]
    simp only [withValues, if_neg h2]

/-! ## The claims on save states and on the mutex -/

/-- C15 (the code departs from the claim): the running state has the target address
`0x09000000` and 128 bytes delivered; loading a save state of section version 2 reads every
value of it and leaves both as they were, not at 0: `__UsbMicDoState` has no default for
the two variables it reads from version 3 on. -/
theorem C15_old_snapshot_keeps_counters :
    exStateDelivered.curTargetAddr = 0x09000000 ∧
      exStateDelivered.readMicDataLength = 128 ∧
      (__UsbMicDoState exSnapshot2 exStateDelivered 9).map
          (fun r => (r.1.data, r.2.numNeedSamples, r.2.curTargetAddr, r.2.readMicDataLength))
        = some ([], 64, 0x09000000, 128) := by
  decide

/-- C16: loading a save state of section version 1, 2 or 3 whose started flag is 0 or 1
succeeds, whatever follows the section; when the flag differs from the started state observed before the load, one call
is made, `startMic` with the sample rate and channel count loaded when the flag is 1 and
`stopMic` when it is 0; when it agrees no call is made; and `isMicStarted` afterwards is
the flag. -/
theorem C16_load_reconciles_started (s : MicState) (restoreId v nns : Int)
    (wt : List MicWaitInfo) (ini : Bool) (csr cch ms ev cta rml : Int) (rest : List Item)
    (hv : v = 1 ∨ v = 2 ∨ v = 3) (hms : ms = 0 ∨ ms = 1) :
    ∃ p1 s1,
      __UsbMicDoState
          ⟨Mode.MODE_READ, snapshotItems v nns wt ini csr cch ms ev cta rml ++ rest⟩ s
          restoreId = some (p1, s1) ∧
        s1.micCalls
          = s.micCalls ++
            (if decide (ms = 1) = Microphone.isMicStarted s then []
              else if ms = 1 then [MicCall.start (some (csr, cch))]
              else [MicCall.stop]) ∧
        Microphone.isMicStarted s1 = decide (ms = 1) := by
  refine ⟨_, _, DoState_read s restoreId v nns wt ini csr cch ms ev cta rml rest hv, ?_, ?_⟩
  · obtain ⟨b1, b2, b3, b4, b5, b6, b7, b8, b9⟩ := DoStateBuffer_fields
      (withValues s nns wt ini csr cch ms
        (RestoreRegisterEvent (if v > 1 then ev else -1) restoreId)
        (if v > 2 then cta else s.curTargetAddr)
        (if v > 2 then rml else s.readMicDataLength))
    have hms2 : (DoStateBuffer (withValues s nns wt ini csr cch ms
        (RestoreRegisterEvent (if v > 1 then ev else -1) restoreId)
        (if v > 2 then cta else s.curTargetAddr)
        (if v > 2 then rml else s.readMicDataLength))).micState = 0 ∨
        (DoStateBuffer (withValues s nns wt ini csr cch ms
        (RestoreRegisterEvent (if v > 1 then ev else -1) restoreId)
        (if v > 2 then cta else s.curTargetAddr)
        (if v > 2 then rml else s.readMicDataLength))).micState = 1 := by
      rw [b6]; exact hms
    rw [(DoStateReconcile_calls _ (Microphone.isMicStarted s) hms2).1, b9, b6, b4, b5]
    rfl
  · obtain ⟨-, -, -, -, -, b6, -, -, -⟩ := DoStateBuffer_fields
      (withValues s nns wt ini csr cch ms
        (RestoreRegisterEvent (if v > 1 then ev else -1) restoreId)
        (if v > 2 then cta else s.curTargetAddr)
        (if v > 2 then rml else s.readMicDataLength))
    have hms2 : (DoStateBuffer (withValues s nns wt ini csr cch ms
        (RestoreRegisterEvent (if v > 1 then ev else -1) restoreId)
        (if v > 2 then cta else s.curTargetAddr)
        (if v > 2 then rml else s.readMicDataLength))).micState = 0 ∨
        (DoStateBuffer (withValues s nns wt ini csr cch ms
        (RestoreRegisterEvent (if v > 1 then ev else -1) restoreId)
        (if v > 2 then cta else s.curTargetAddr)
        (if v > 2 then rml else s.readMicDataLength))).micState = 1 := by
      rw [b6]; exact hms
    unfold Microphone.isMicStarted
    rw [(DoStateReconcile_calls _ _ hms2).2, b6]
    rfl

/-- C16 at a sample load: the state is not started and the save state of version 2 says
started, with the rate 22050 and one channel. -/
theorem C16_load_reconciles_started_witness :
    ∃ p1 s1,
      __UsbMicDoState ⟨Mode.MODE_READ, snapshotItems 2 64 [] true 22050 1 1 3 0 0 ++ []⟩
          exState 9 = some (p1, s1) ∧
        s1.micCalls
          = exState.micCalls ++
            (if decide ((1 : Int) = 1) = Microphone.isMicStarted exState then []
              else if (1 : Int) = 1 then [MicCall.start (some (22050, 1))]
              else [MicCall.stop]) ∧
        Microphone.isMicStarted s1 = decide ((1 : Int) = 1) :=
  C16_load_reconciles_started exState 9 2 64 [] true 22050 1 1 3 0 0 [] (by decide)
    (by decide)

/-- C17: saving a state `s` with `__UsbMicDoState` (section version 3) and loading what
was written (followed by whatever comes after the section) into a state that
`__UsbMicInit` has just set up succeeds, reads exactly the values written, and gives `numNeedSamples`, `waitingThreads`, `isNeedInput`, `curSampleRate`,
`curChannels`, `micState`, `curTargetAddr` and `readMicDataLength` the values they have
in `s`. -/
theorem C17_save_load_round_trip (s t : MicState) (registered saveId loadId : Int)
    (rest : List Item) :
    ∃ p1 s1 p2 s2,
      __UsbMicDoState ⟨Mode.MODE_WRITE, []⟩ s saveId = some (p1, s1) ∧
        __UsbMicDoState ⟨Mode.MODE_READ, p1.data ++ rest⟩ (__UsbMicInit t registered) loadId
          = some (p2, s2) ∧
        p2.data = rest ∧
        s2.numNeedSamples = s.numNeedSamples ∧
        s2.waitingThreads = s.waitingThreads ∧
        s2.isNeedInput = s.isNeedInput ∧
        s2.curSampleRate = s.curSampleRate ∧
        s2.curChannels = s.curChannels ∧
        s2.micState = s.micState ∧
        s2.curTargetAddr = s.curTargetAddr ∧
        s2.readMicDataLength = s.readMicDataLength := by
  refine ⟨_, _, _, _, DoState_write s saveId,
    DoState_read (__UsbMicInit t registered) loadId 3 _ _ _ _ _ _ _ _ _ rest
      (Or.inr (Or.inr rfl)), rfl, ?_⟩
  have hfresh : Microphone.isMicStarted (__UsbMicInit t registered) = false := rfl
  rw [hfresh]
  obtain ⟨c1, c2, c3, c4, c5, c6, c7⟩ := DoStateReconcile_fields
    (DoStateBuffer (withValues (__UsbMicInit t registered) s.numNeedSamples s.waitingThreads
      s.isNeedInput s.curSampleRate s.curChannels s.micState
      (RestoreRegisterEvent (if (3 : Int) > 1 then s.eventMicBlockingResume else -1) loadId)
      (if (3 : Int) > 2 then s.curTargetAddr else (__UsbMicInit t registered).curTargetAddr)
      (if (3 : Int) > 2 then s.readMicDataLength
        else (__UsbMicInit t registered).readMicDataLength))) false
  obtain ⟨b1, b2, b3, b4, b5, b6, b7, b8, -⟩ := DoStateBuffer_fields
    (withValues (__UsbMicInit t registered) s.numNeedSamples s.waitingThreads
      s.isNeedInput s.curSampleRate s.curChannels s.micState
      (RestoreRegisterEvent (if (3 : Int) > 1 then s.eventMicBlockingResume else -1) loadId)
      (if (3 : Int) > 2 then s.curTargetAddr else (__UsbMicInit t registered).curTargetAddr)
      (if (3 : Int) > 2 then s.readMicDataLength
        else (__UsbMicInit t registered).readMicDataLength))
  refine ⟨c1.trans b1, c2.trans b2, c3.trans b3, c4.trans b4, c5.trans b5, ?_, c6.trans b7,
    c7.trans b8⟩
  rw [DoStateReconcile_fresh, b6]
  rfl

/-- C18 (the code departs from the claim): `push`, `pop` and `flush` touch the fields only
between `lock` and `unlock`, but `resize` takes no lock of its own: called from
`__MicInput` on an existing ring it compares and rewrites `capacity`, `available`, `end`
and `buf_` while the mutex is not held. -/
theorem C18_resize_runs_unlocked :
    (∀ (q : QueueBuf) (size : Int), guarded 0 (q.pushSteps size) = true) ∧
      (∀ size : Int, guarded 0 (QueueBuf.popSteps size) = true) ∧
      guarded 0 QueueBuf.flushSteps = true ∧
      guarded 0 (exQueue128.resizeSteps 256) = false ∧
      guarded 0 (exQueue128.resizeSteps 64) = false ∧
      guarded 0 (MicInputRingSteps exStateFull 128) = false := by
  refine ⟨fun q size => ?_, fun size => ?_, by decide, by decide, by decide, by decide⟩
  · unfold QueueBuf.pushSteps QueueBuf.resizeSteps QueueBuf.popSteps
    split_ifs <;> rfl
  · unfold QueueBuf.popSteps
    split_ifs <;> rfl

/-! ## Lemmas on the drains -/

/-- What `pop` leaves alone in the destination block: every byte outside the range it
fills. -/
theorem pop_mem_outside (h : Heap) (q : QueueBuf) (buf : Ptr) (m : Int) (hq : q.Inv)
    (hm : 0 ≤ m) (j : Int) (hj : j < buf.off ∨ buf.off + min m q.available ≤ j) :
    (q.pop h buf m).2.1.mem buf.blk j = h.mem buf.blk j := by
  have hs := QueueBuf.getStartPos_range q hq
  obtain ⟨h1, h2, h3, h4, h5⟩ := hq
  unfold QueueBuf.pop memcpy Ptr.add QueueBuf.getAvailableSize
  by_cases h0 : m = 0
  · simp [h0]
  · simp only [h0, if_false]
    generalize q.getStartPos = sp at *
    split_ifs <;> simp only [true_and] <;> split_ifs <;>
      first
        | rfl
        | (exfalso; omega)

/-- The call `getAudioData(GetPointerWriteUnchecked(t), n)` with `0 <= n <= available`: the
`n` oldest unread bytes land at the guest address `t`, in order, the rest stays unread, and
guest memory outside `[t, t + n)` is as before. -/
theorem getAudioData_drain (s : MicState) (q : QueueBuf) (t n : Int)
    (hb : s.audioBuf = some q) (hq : q.Inv) (hg : q.buf_ ≠ guestBlk)
    (hn0 : 0 ≤ n) (hn : n ≤ q.available) :
    readBytes (Microphone.getAudioData s ⟨guestBlk, t⟩ n).2.heap ⟨guestBlk, t⟩ n
        = (q.unread s.heap).take n.toNat ∧
      (∃ q1, (Microphone.getAudioData s ⟨guestBlk, t⟩ n).2.audioBuf = some q1 ∧
        q1.unread (Microphone.getAudioData s ⟨guestBlk, t⟩ n).2.heap
          = (q.unread s.heap).drop n.toNat ∧
        q1.available = q.available - n) ∧
      (∀ j, j < t ∨ t + n ≤ j →
        (Microphone.getAudioData s ⟨guestBlk, t⟩ n).2.heap.mem guestBlk j
          = s.heap.mem guestBlk j) := by
  have e : (Microphone.getAudioData s ⟨guestBlk, t⟩ n).2
      = { s with heap := (q.pop s.heap ⟨guestBlk, t⟩ n).2.1,
                 audioBuf := some (q.pop s.heap ⟨guestBlk, t⟩ n).2.2 } := by
    unfold Microphone.getAudioData
    simp only [hb]
  have hg2 : (⟨guestBlk, t⟩ : Ptr).blk ≠ q.buf_ := fun e => hg e.symm
  have emin : min n q.available = n := min_eq_left hn
  have p1 := QueueBuf.pop_fst s.heap q ⟨guestBlk, t⟩ n hq.2.1
  have p2 := QueueBuf.readBytes_pop s.heap q ⟨guestBlk, t⟩ n hq hn0 hg2
  have p3 := QueueBuf.unread_pop s.heap q ⟨guestBlk, t⟩ n hq hn0 hg2
  have p4 := QueueBuf.pop_snd s.heap q ⟨guestBlk, t⟩ n hq.2.1
  rw [emin] at p1 p4
  rw [p1] at p2 p3
  rw [e]
  refine ⟨p2, ⟨_, rfl, p3, ?_⟩, ?_⟩
  · rw [p4]
  · intro j hj
    exact pop_mem_outside s.heap q ⟨guestBlk, t⟩ n hq hn0 j (by rw [emin]; exact hj)

/-- The drain of `Microphone::addAudioData` on a valid target range, with the counters in
range: `q` and `h1` are the ring and the heap as `push` leaves them. -/
theorem addAudioData_valid (env : Env) (fuel : Nat) (s : MicState) (q0 q : QueueBuf)
    (h1 : Heap) (buf : Ptr) (size k : Int)
    (hb : s.audioBuf = some q0) (hp : q0.push fuel s.heap buf size = some (k, h1, q))
    (hq : q.Inv) (hg : q.buf_ ≠ guestBlk)
    (hn0 : 0 ≤ s.numNeedSamples) (hn1 : s.numNeedSamples < 1073741824)
    (hr0 : 0 ≤ s.readMicDataLength) (hr1 : s.readMicDataLength ≤ 2 * s.numNeedSamples)
    (ht0 : 0 ≤ s.curTargetAddr) (ht1 : s.curTargetAddr + s.readMicDataLength < 4294967296)
    (hv : env.IsValidRange (s.curTargetAddr + s.readMicDataLength)
      (min q.available (2 * s.numNeedSamples - s.readMicDataLength)) = true) :
    ∃ s1, Microphone.addAudioData env fuel s buf size = some (size, s1) ∧
      s1.readMicDataLength = s.readMicDataLength
        + min q.available (2 * s.numNeedSamples - s.readMicDataLength) ∧
      readBytes s1.heap ⟨guestBlk, s.curTargetAddr + s.readMicDataLength⟩
          (min q.available (2 * s.numNeedSamples - s.readMicDataLength))
        = (q.unread h1).take
            (min q.available (2 * s.numNeedSamples - s.readMicDataLength)).toNat ∧
      (∃ q1, s1.audioBuf = some q1 ∧
        q1.unread s1.heap = (q.unread h1).drop
            (min q.available (2 * s.numNeedSamples - s.readMicDataLength)).toNat ∧
        q1.available
          = q.available - min q.available (2 * s.numNeedSamples - s.readMicDataLength)) ∧
      (∀ j, j < s.curTargetAddr + s.readMicDataLength ∨
          s.curTargetAddr + s.readMicDataLength
            + min q.available (2 * s.numNeedSamples - s.readMicDataLength) ≤ j →
        s1.heap.mem guestBlk j = h1.mem guestBlk j) ∧
      s1.curTargetAddr = s.curTargetAddr ∧ s1.numNeedSamples = s.numNeedSamples := by
  have ha := hq.2.1
  have hcomm : s.numNeedSamples * 2 = 2 * s.numNeedSamples := Int.mul_comm _ _
  have e1 : s32 s.numNeedSamples = s.numNeedSamples := s32_of_range _ (by omega) (by omega)
  have e2 : s32 (2 * s.numNeedSamples) = 2 * s.numNeedSamples :=
    s32_of_range _ (by omega) (by omega)
  have e3 : s32 s.readMicDataLength = s.readMicDataLength :=
    s32_of_range _ (by omega) (by omega)
  have e4 : s32 (2 * s.numNeedSamples - s.readMicDataLength)
      = 2 * s.numNeedSamples - s.readMicDataLength := s32_of_range _ (by omega) (by omega)
  have e5 : u32 (s.curTargetAddr + s.readMicDataLength)
      = s.curTargetAddr + s.readMicDataLength := u32_of_range _ (by omega) (by omega)
  generalize hn : min q.available (2 * s.numNeedSamples - s.readMicDataLength) = n at *
  have hn0 : 0 ≤ n := by omega
  have hn1 : n ≤ q.available := by omega
  have hn2 : n ≤ 2 * s.numNeedSamples - s.readMicDataLength := by omega
  have e6 : u32 n = n := u32_of_range _ (by omega) (by omega)
  have e7 : u32 (s.readMicDataLength + n) = s.readMicDataLength + n :=
    u32_of_range _ (by omega) (by omega)
  obtain ⟨d1, ⟨q1, d2, d3, d4⟩, d5⟩ :=
    getAudioData_drain { s with heap := h1, audioBuf := some q } q
      (s.curTargetAddr + s.readMicDataLength) n rfl hq hg hn0 hn1
  have er : (Microphone.getAudioData { s with heap := h1, audioBuf := some q }
      ⟨guestBlk, s.curTargetAddr + s.readMicDataLength⟩ n).2.readMicDataLength
      = s.readMicDataLength := rfl
  have ec : (Microphone.getAudioData { s with heap := h1, audioBuf := some q }
      ⟨guestBlk, s.curTargetAddr + s.readMicDataLength⟩ n).2.curTargetAddr
      = s.curTargetAddr := rfl
  have en : (Microphone.getAudioData { s with heap := h1, audioBuf := some q }
      ⟨guestBlk, s.curTargetAddr + s.readMicDataLength⟩ n).2.numNeedSamples
      = s.numNeedSamples := rfl
  unfold Microphone.addAudioData
  simp only [hb, hp, Microphone.availableAudioBufSize, Microphone.numNeedSamples,
    Microphone.getReadMicDataLength, QueueBuf.getAvailableSize, e1, hcomm, e2, e3, e4, hn,
    e5, e6, hv, if_true, er, e7]
  exact ⟨_, rfl, rfl, d1, ⟨q1, d2, d3, d4⟩, d5, ec, en⟩

/-- The data fields after `__MicInput`, blocking or not, are those after the immediate
drain. -/
theorem MicInput_data (env : Env) (s : MicState) (maxSamples sampleRate bufAddr : Int)
    (type : MICTYPE) (block : Bool) :
    (__MicInput env s maxSamples sampleRate bufAddr type block).2.heap
        = (MicInputDrain env (MicInputSetup s maxSamples sampleRate bufAddr)
            (s32 (u32 (maxSamples * 2)))).heap ∧
      (__MicInput env s maxSamples sampleRate bufAddr type block).2.audioBuf
        = (MicInputDrain env (MicInputSetup s maxSamples sampleRate bufAddr)
            (s32 (u32 (maxSamples * 2)))).audioBuf ∧
      (__MicInput env s maxSamples sampleRate bufAddr type block).2.readMicDataLength
        = (MicInputDrain env (MicInputSetup s maxSamples sampleRate bufAddr)
            (s32 (u32 (maxSamples * 2)))).readMicDataLength ∧
      (__MicInput env s maxSamples sampleRate bufAddr type block).2.curTargetAddr
        = (MicInputDrain env (MicInputSetup s maxSamples sampleRate bufAddr)
            (s32 (u32 (maxSamples * 2)))).curTargetAddr ∧
      (__MicInput env s maxSamples sampleRate bufAddr type block).2.numNeedSamples
        = (MicInputDrain env (MicInputSetup s maxSamples sampleRate bufAddr)
            (s32 (u32 (maxSamples * 2)))).numNeedSamples := by
  cases block
  · exact ⟨rfl, rfl, rfl, rfl, rfl⟩
  · rw [MicInput_block]
    exact ⟨rfl, rfl, rfl, rfl, rfl⟩

/-- The adapter fields after `__MicInput`, blocking or not, are those after the set-up
part. -/
theorem MicInput_adapter (env : Env) (s : MicState) (maxSamples sampleRate bufAddr : Int)
    (type : MICTYPE) (block : Bool) :
    (__MicInput env s maxSamples sampleRate bufAddr type block).2.micState
        = (MicInputSetup s maxSamples sampleRate bufAddr).micState ∧
      (__MicInput env s maxSamples sampleRate bufAddr type block).2.micCalls
        = (MicInputSetup s maxSamples sampleRate bufAddr).micCalls ∧
      (__MicInput env s maxSamples sampleRate bufAddr type block).2.curSampleRate
        = (MicInputSetup s maxSamples sampleRate bufAddr).curSampleRate ∧
      (__MicInput env s maxSamples sampleRate bufAddr type block).2.curChannels
        = (MicInputSetup s maxSamples sampleRate bufAddr).curChannels := by
  have d : ∀ t : MicState,
      (MicInputDrain env t (s32 (u32 (maxSamples * 2)))).micState = t.micState ∧
      (MicInputDrain env t (s32 (u32 (maxSamples * 2)))).micCalls = t.micCalls ∧
      (MicInputDrain env t (s32 (u32 (maxSamples * 2)))).curSampleRate = t.curSampleRate ∧
      (MicInputDrain env t (s32 (u32 (maxSamples * 2)))).curChannels = t.curChannels := by
    intro t
    unfold MicInputDrain Microphone.getAudioData
    cases hb : t.audioBuf <;> simp only [] <;> split_ifs <;> exact ⟨rfl, rfl, rfl, rfl⟩
  cases block
  · exact d _
  · rw [MicInput_block]
    exact d _

/-- The immediate drain leaves the sample count of the request alone. -/
theorem MicInputDrain_numNeedSamples (env : Env) (t : MicState) (size : Int) :
    (MicInputDrain env t size).numNeedSamples = t.numNeedSamples := by
  unfold MicInputDrain Microphone.getAudioData
  cases hb : t.audioBuf <;> simp only [] <;> split_ifs <;> rfl

/-- The set-up part of `__MicInput` stores the request. -/
theorem MicInputSetup_request (s : MicState) (maxSamples sampleRate bufAddr : Int) :
    (MicInputSetup s maxSamples sampleRate bufAddr).curTargetAddr = bufAddr ∧
      (MicInputSetup s maxSamples sampleRate bufAddr).numNeedSamples = maxSamples ∧
      (MicInputSetup s maxSamples sampleRate bufAddr).curSampleRate = sampleRate ∧
      (MicInputSetup s maxSamples sampleRate bufAddr).curChannels = 1 ∧
      (MicInputSetup s maxSamples sampleRate bufAddr).micState = 1 ∧
      (MicInputSetup s maxSamples sampleRate bufAddr).micCalls
        = (if s.micState = 1 then s.micCalls
            else s.micCalls ++ [MicCall.start (some (sampleRate, 1))]) := by
  unfold MicInputSetup
  by_cases hs : s.micState = 1
  · cases hb : s.audioBuf <;>
      simp [Microphone.startMic, Microphone.isMicStarted, hs]
  · cases hb : s.audioBuf <;>
      simp [Microphone.startMic, Microphone.isMicStarted, hs]

/-- The immediate drain of `__MicInput` on a valid target range: `q` is the ring as the
drain finds it, and nothing is delivered yet. -/
theorem MicInputDrain_valid (env : Env) (s : MicState) (q : QueueBuf) (size : Int)
    (hb : s.audioBuf = some q) (hq : q.Inv) (hg : q.buf_ ≠ guestBlk)
    (hs0 : 0 ≤ size) (hs1 : size < 2147483648) (hr : s.readMicDataLength = 0)
    (hv : env.IsValidRange s.curTargetAddr (min q.available size) = true) :
    (MicInputDrain env s size).readMicDataLength = min q.available size ∧
      readBytes (MicInputDrain env s size).heap ⟨guestBlk, s.curTargetAddr⟩
          (min q.available size)
        = (q.unread s.heap).take (min q.available size).toNat ∧
      (∃ q1, (MicInputDrain env s size).audioBuf = some q1 ∧
        q1.unread (MicInputDrain env s size).heap
          = (q.unread s.heap).drop (min q.available size).toNat ∧
        q1.available = q.available - min q.available size) ∧
      (∀ j, j < s.curTargetAddr ∨ s.curTargetAddr + min q.available size ≤ j →
        (MicInputDrain env s size).heap.mem guestBlk j = s.heap.mem guestBlk j) ∧
      (MicInputDrain env s size).curTargetAddr = s.curTargetAddr ∧
      (MicInputDrain env s size).numNeedSamples = s.numNeedSamples := by
  have ha := hq.2.1
  generalize hn : min q.available size = n at *
  have hn0 : 0 ≤ n := by omega
  have hn1 : n ≤ q.available := by omega
  have e1 : u32 n = n := u32_of_range _ (by omega) (by omega)
  have e2 : s32 n = n := s32_of_range _ (by omega) (by omega)
  by_cases hpos : q.available > 0
  · obtain ⟨d1, ⟨q1, d2, d3, d4⟩, d5⟩ :=
      getAudioData_drain s q s.curTargetAddr n hb hq hg hn0 hn1
    have er : (Microphone.getAudioData s ⟨guestBlk, s.curTargetAddr⟩ n).2.readMicDataLength
        = s.readMicDataLength := by
      unfold Microphone.getAudioData
      simp only [hb]
    have ec : (Microphone.getAudioData s ⟨guestBlk, s.curTargetAddr⟩ n).2.curTargetAddr
        = s.curTargetAddr := by
      unfold Microphone.getAudioData
      simp only [hb]
    have en : (Microphone.getAudioData s ⟨guestBlk, s.curTargetAddr⟩ n).2.numNeedSamples
        = s.numNeedSamples := by
      unfold Microphone.getAudioData
      simp only [hb]
    have e3 : u32 (0 + n) = n := by rw [zero_add]; exact e1
    unfold MicInputDrain
    simp only [Microphone.availableAudioBufSize, hb, QueueBuf.getAvailableSize, hpos, if_true,
      hn, e1, e2, hv, er, hr, e3]
    exact ⟨trivial, d1, ⟨q1, d2, d3, d4⟩, d5, ec, en⟩
  · have h0 : q.available = 0 := by omega
    have hn2 : n = 0 := by omega
    have e : MicInputDrain env s size = s := by
      unfold MicInputDrain
      simp only [Microphone.availableAudioBufSize, hb, QueueBuf.getAvailableSize, hpos,
        if_false]
    rw [e, hn2]
    refine ⟨hr, ?_, ⟨q, hb, ?_, by omega⟩, fun _ _ => rfl, rfl, rfl⟩
    · simp [readBytes]
    · simp

/-- The immediate drain of `__MicInput` on a target range that is not valid: nothing is
popped, nothing is written, and the counter is advanced all the same. -/
theorem MicInputDrain_invalid (env : Env) (s : MicState) (q : QueueBuf) (size : Int)
    (hb : s.audioBuf = some q) (ha : 0 ≤ q.available)
    (hs0 : 0 ≤ size) (hs1 : size < 2147483648) (hr : s.readMicDataLength = 0)
    (hv : env.IsValidRange s.curTargetAddr (min q.available size) = false) :
    (MicInputDrain env s size).readMicDataLength = min q.available size ∧
      (MicInputDrain env s size).heap = s.heap ∧
      (MicInputDrain env s size).audioBuf = some q := by
  generalize hn : min q.available size = n at *
  have e1 : u32 n = n := u32_of_range _ (by omega) (by omega)
  by_cases hpos : q.available > 0
  · have e3 : u32 (0 + n) = n := by rw [zero_add]; exact e1
    unfold MicInputDrain
    simp only [Microphone.availableAudioBufSize, hb, QueueBuf.getAvailableSize, hpos, if_true,
      hn, e1, hv, Bool.false_eq_true, if_false, hr, e3]
    exact ⟨trivial, trivial, trivial⟩
  · have hn2 : n = 0 := by omega
    have e : MicInputDrain env s size = s := by
      unfold MicInputDrain
      simp only [Microphone.availableAudioBufSize, hb, QueueBuf.getAvailableSize, hpos,
        if_false]
    rw [e, hn2]
    exact ⟨hr, rfl, hb⟩

/-- The drain of `Microphone::addAudioData` on a target range that is not valid: nothing
is popped, nothing is written, and the counter is advanced all the same. -/
theorem addAudioData_invalid (env : Env) (fuel : Nat) (s : MicState) (q0 q : QueueBuf)
    (h1 : Heap) (buf : Ptr) (size k : Int)
    (hb : s.audioBuf = some q0) (hp : q0.push fuel s.heap buf size = some (k, h1, q))
    (ha : 0 ≤ q.available)
    (hn0 : 0 ≤ s.numNeedSamples) (hn1 : s.numNeedSamples < 1073741824)
    (hr0 : 0 ≤ s.readMicDataLength) (hr1 : s.readMicDataLength ≤ 2 * s.numNeedSamples)
    (ht0 : 0 ≤ s.curTargetAddr) (ht1 : s.curTargetAddr + s.readMicDataLength < 4294967296)
    (hv : env.IsValidRange (s.curTargetAddr + s.readMicDataLength)
      (min q.available (2 * s.numNeedSamples - s.readMicDataLength)) = false) :
    Microphone.addAudioData env fuel s buf size
      = some (size, { s with
          heap := h1
          audioBuf := some q
          readMicDataLength := s.readMicDataLength
            + min q.available (2 * s.numNeedSamples - s.readMicDataLength) }) := by
  have hcomm : s.numNeedSamples * 2 = 2 * s.numNeedSamples := Int.mul_comm _ _
  have e1 : s32 s.numNeedSamples = s.numNeedSamples := s32_of_range _ (by omega) (by omega)
  have e2 : s32 (2 * s.numNeedSamples) = 2 * s.numNeedSamples :=
    s32_of_range _ (by omega) (by omega)
  have e3 : s32 s.readMicDataLength = s.readMicDataLength :=
    s32_of_range _ (by omega) (by omega)
  have e4 : s32 (2 * s.numNeedSamples - s.readMicDataLength)
      = 2 * s.numNeedSamples - s.readMicDataLength := s32_of_range _ (by omega) (by omega)
  have e5 : u32 (s.curTargetAddr + s.readMicDataLength)
      = s.curTargetAddr + s.readMicDataLength := u32_of_range _ (by omega) (by omega)
  generalize hn : min q.available (2 * s.numNeedSamples - s.readMicDataLength) = n at *
  have e6 : u32 n = n := u32_of_range _ (by omega) (by omega)
  have e7 : u32 (s.readMicDataLength + n) = s.readMicDataLength + n :=
    u32_of_range _ (by omega) (by omega)
  unfold Microphone.addAudioData
  simp only [hb, hp, Microphone.availableAudioBufSize, Microphone.numNeedSamples,
    Microphone.getReadMicDataLength, QueueBuf.getAvailableSize, e1, hcomm, e2, e3, e4, hn,
    e5, e6, hv, Bool.false_eq_true, if_false, e7]

/-- The sizes of an accepted request below `2^30` samples do not wrap. -/
theorem size_of_range (maxSamples : Int) (h0 : 0 < maxSamples)
    (h1 : maxSamples < 1073741824) : s32 (u32 (maxSamples * 2)) = 2 * maxSamples := by
  rw [u32_of_range _ (by omega) (by omega), s32_of_range _ (by omega) (by omega)]
  omega

/-- With a device present the callback leaves the counters and the ring alone. -/
theorem MicBlockingResumeLoop_device_counter (env : Env) (threadID userdata : Int)
    (hd : Microphone.isHaveDevice env = true) (l : List MicWaitInfo) (s : MicState) :
    (MicBlockingResumeLoop env threadID userdata l s).2.readMicDataLength
        = s.readMicDataLength ∧
      (MicBlockingResumeLoop env threadID userdata l s).2.numNeedSamples = s.numNeedSamples ∧
      (MicBlockingResumeLoop env threadID userdata l s).2.audioBuf = s.audioBuf ∧
      (MicBlockingResumeLoop env threadID userdata l s).2.heap = s.heap := by
  induction l generalizing s with
  | nil => exact ⟨rfl, rfl, rfl, rfl⟩
  | cons w rest ih =>
    unfold MicBlockingResumeLoop
    simp only [hd, if_true]
    split_ifs
    · exact ih s
    · exact ih s
    · exact ih _
    · exact ih _

/-- With a device present a firing of `__MicBlockingResume` leaves `readMicDataLength` and
`numNeedSamples` as they are. -/
theorem MicBlockingResume_device_counter (env : Env) (s : MicState) (userdata : Int)
    (hd : Microphone.isHaveDevice env = true) :
    (__MicBlockingResume env s userdata).readMicDataLength = s.readMicDataLength ∧
      (__MicBlockingResume env s userdata).numNeedSamples = s.numNeedSamples := by
  obtain ⟨a1, a2, -, -⟩ :=
    MicBlockingResumeLoop_device_counter env (s32 userdata) userdata hd s.waitingThreads s
  exact ⟨a1, a2⟩

/-- The drain of `Microphone::addAudioData` keeps the counter within the request: it never
lowers `readMicDataLength` and never raises it above `2 * numNeedSamples`. -/
theorem addAudioData_counter (env : Env) (fuel : Nat) (s : MicState) (q0 q : QueueBuf)
    (h1 : Heap) (buf : Ptr) (size k : Int)
    (hb : s.audioBuf = some q0) (hp : q0.push fuel s.heap buf size = some (k, h1, q))
    (hq : q.Inv) (hg : q.buf_ ≠ guestBlk)
    (hn0 : 0 ≤ s.numNeedSamples) (hn1 : s.numNeedSamples < 1073741824)
    (hr0 : 0 ≤ s.readMicDataLength) (hr1 : s.readMicDataLength ≤ 2 * s.numNeedSamples)
    (ht0 : 0 ≤ s.curTargetAddr) (ht1 : s.curTargetAddr + s.readMicDataLength < 4294967296) :
    ∃ s1, Microphone.addAudioData env fuel s buf size = some (size, s1) ∧
      s.readMicDataLength ≤ s1.readMicDataLength ∧
      s1.readMicDataLength ≤ 2 * s1.numNeedSamples := by
  have ha := hq.2.1
  cases hv : env.IsValidRange (s.curTargetAddr + s.readMicDataLength)
      (min q.available (2 * s.numNeedSamples - s.readMicDataLength)) with
  | true =>
    obtain ⟨s1, d0, d1, -, -, -, -, d6⟩ := addAudioData_valid env fuel s q0 q h1 buf
      size k hb hp hq hg hn0 hn1 hr0 hr1 ht0 ht1 hv
    exact ⟨s1, d0, by omega, by omega⟩
  | false =>
    refine ⟨_, addAudioData_invalid env fuel s q0 q h1 buf size k hb hp ha hn0 hn1
      hr0 hr1 ht0 ht1 hv, ?_, ?_⟩
    · simp only []; omega
    · simp only []; omega

/-- The immediate drain of `__MicInput` leaves the counter within the request. -/
theorem MicInput_counter (env : Env) (s : MicState) (maxSamples sampleRate bufAddr : Int)
    (type : MICTYPE) (block : Bool) (q : QueueBuf)
    (hb : (MicInputSetup s maxSamples sampleRate bufAddr).audioBuf = some q)
    (hq : q.Inv) (hg : q.buf_ ≠ guestBlk)
    (hm0 : 0 < maxSamples) (hm1 : maxSamples < 1073741824) :
    0 ≤ (__MicInput env s maxSamples sampleRate bufAddr type block).2.readMicDataLength ∧
      (__MicInput env s maxSamples sampleRate bufAddr type block).2.readMicDataLength
        ≤ 2 * (__MicInput env s maxSamples sampleRate bufAddr type block).2.numNeedSamples := by
  have ha := hq.2.1
  obtain ⟨-, -, a3, -, a5⟩ := MicInput_data env s maxSamples sampleRate bufAddr type block
  obtain ⟨-, hr⟩ := MicInputSetup_available s maxSamples sampleRate bufAddr
  obtain ⟨ht, hnn, -⟩ := MicInputSetup_request s maxSamples sampleRate bufAddr
  have hsz := size_of_range maxSamples hm0 hm1
  rw [a3, a5, hsz]
  cases hv : env.IsValidRange bufAddr (min q.available (2 * maxSamples)) with
  | true =>
    obtain ⟨d1, -, -, -, -, d6⟩ := MicInputDrain_valid env
      (MicInputSetup s maxSamples sampleRate bufAddr) q (2 * maxSamples) hb hq hg
      (by omega) (by omega) hr (by rw [ht]; exact hv)
    rw [d1, d6, hnn]
    omega
  | false =>
    obtain ⟨d1, -, -⟩ := MicInputDrain_invalid env
      (MicInputSetup s maxSamples sampleRate bufAddr) q (2 * maxSamples) hb ha
      (by omega) (by omega) hr (by rw [ht]; exact hv)
    rw [d1, MicInputDrain_numNeedSamples, hnn]
    omega

/-- While the product stays below `2^32` the wait of `__MicBlockingResume` does not grow
with the delivered count. -/
theorem resumeWaitTimeus_mono (needSize d1 d2 sampleRate : Int) (hn : needSize ≤ 4294)
    (h0 : 0 ≤ d1) (h12 : d1 ≤ d2) (h2 : d2 ≤ needSize) (hs : 0 < sampleRate) :
    resumeWaitTimeus needSize d2 sampleRate ≤ resumeWaitTimeus needSize d1 sampleRate := by
  rw [resumeWaitTimeus_exact _ _ _ (by omega) (by omega),
    resumeWaitTimeus_exact _ _ _ (by omega) (by omega)]
  apply Int.ediv_le_ediv hs
  apply Int.ediv_le_ediv (by decide)
  omega

/-- An accepted request reaches `__MicInput` with `block = false`. -/
theorem sceUsbMicInput_accepted (env : Env) (s : MicState)
    (maxSamples sampleRate bufAddr : Int)
    (ha : env.IsValidAddress bufAddr = true) (h0 : 0 < maxSamples)
    (h64 : maxSamples % 64 = 0)
    (hr : sampleRate = 44100 ∨ sampleRate = 22050 ∨ sampleRate = 11025) :
    sceUsbMicInput env s maxSamples sampleRate bufAddr
      = (s32 maxSamples,
         (__MicInput env s maxSamples sampleRate bufAddr MICTYPE.USBMIC false).2) := by
  have hm2 := valid_max_samples maxSamples h0 h64
  have hr2 : ¬ (sampleRate ≠ 44100 ∧ sampleRate ≠ 22050 ∧ sampleRate ≠ 11025) := by omega
  have ha2 : ¬ ¬ env.IsValidAddress bufAddr = true := not_not.2 ha
  unfold sceUsbMicInput
  rw [if_neg ha2, if_neg hm2, if_neg hr2]
  rfl

/-! ## The claims on the counters, the drains and the adapter -/

/-- C21 (the code departs from the claim): no device is present. Thread 7 and then thread
8 ask for 64 samples each and wait; the callback fires for thread 7 and then for thread 8.
Every step is one of the claim, the state is reachable, and each firing adds the whole
`needSize` to the counter: `readMicDataLength` is 256 while `2 * numNeedSamples` is 128.
With one thread: thread 7 waits for 64 samples, the producer hands over 16 bytes, which are
delivered, and the callback fires; it writes all 128 bytes of the pattern from the start of
the target, over the 16 delivered bytes, and leaves the counter at 144, not at 128. -/
theorem C21_deviceless_counter_overshoots :
    Microphone.isHaveDevice exEnv = false ∧
      Reachable exEnv false
        (__MicBlockingResume exEnv (__MicBlockingResume exEnv exStateTwoWaiting 7) 8) ∧
      exStateTwoWaiting.waitingThreads
        = [⟨7, 0x09000000, 128, 44100⟩, ⟨8, 0x09000100, 128, 44100⟩] ∧
      exStateTwoWaiting.readMicDataLength = 0 ∧
      (__MicBlockingResume exEnv exStateTwoWaiting 7).readMicDataLength = 128 ∧
      (__MicBlockingResume exEnv (__MicBlockingResume exEnv exStateTwoWaiting 7)
        8).readMicDataLength = 256 ∧
      (__MicBlockingResume exEnv (__MicBlockingResume exEnv exStateTwoWaiting 7)
        8).numNeedSamples = 64 ∧
      ¬ (__MicBlockingResume exEnv (__MicBlockingResume exEnv exStateTwoWaiting 7)
          8).readMicDataLength
        ≤ 2 * (__MicBlockingResume exEnv (__MicBlockingResume exEnv exStateTwoWaiting 7)
          8).numNeedSamples ∧
      Microphone.addAudioData exEnv 1 exStateWaiting ⟨2, 0⟩ 16 = some (16, exStatePushed) ∧
      Reachable exEnv false (__MicBlockingResume exEnv exStatePushed 7) ∧
      exStatePushed.readMicDataLength = 16 ∧
      readBytes exStatePushed.heap ⟨guestBlk, 0x09000000⟩ 16 = List.replicate 16 170 ∧
      (__MicBlockingResume exEnv exStatePushed 7).readMicDataLength = 144 ∧
      (__MicBlockingResume exEnv exStatePushed 7).numNeedSamples = 64 ∧
      readBytes (__MicBlockingResume exEnv exStatePushed 7).heap ⟨guestBlk, 0x09000000⟩ 16
        = List.range 16 ∧
      ¬ (__MicBlockingResume exEnv exStatePushed 7).readMicDataLength
        ≤ 2 * (__MicBlockingResume exEnv exStatePushed 7).numNeedSamples := by
  have hw : Reachable exEnv false exStateWaiting :=
    Reachable.blocking _ 64 44100 0x09000000 (Reachable.init exState 3) (by decide)
  have hp : Microphone.addAudioData exEnv 1 exStateWaiting ⟨2, 0⟩ 16
      = some (16, exStatePushed) := rfl
  refine ⟨by decide, ?_, by decide, by decide, by decide, by decide, by decide, by decide,
    hp, ?_, by decide, by decide, by decide, by decide, by decide, by decide⟩
  · exact Reachable.fire _ 8 (Reachable.fire _ 7
      (Reachable.blocking _ 64 44100 0x09000100 (Reachable.switch _ 8 hw) (by decide)))
  · exact Reachable.fire _ 7 (Reachable.push _ 1 ⟨2, 0⟩ 16 _ hw hp)

/-- C22, as stated, fails: the ring holds 128 unread bytes, the first of them `1`, and the
128 bytes asked for at `0x09FFFFC0` run past the end of valid guest memory. The immediate
drain of the accepted request pops nothing and writes nothing (the ring still holds 128
bytes, the target still holds `170`), and `readMicDataLength` is advanced by 128. -/
theorem C22_counter_advances_without_copy :
    exEnv.IsValidAddress 0x09FFFFC0 = true ∧
      exEnv.IsValidRange 0x09FFFFC0 128 = false ∧
      exStateRing.audioBuf = some ⟨1, 128, 0, 128⟩ ∧
      (QueueBuf.unread exStateRing.heap ⟨1, 128, 0, 128⟩).take 9
        = [1, 2, 3, 4, 5, 6, 7, 8, 170] ∧
      (sceUsbMicInput exEnv exStateRing 64 44100 0x09FFFFC0).1 = 64 ∧
      (sceUsbMicInput exEnv exStateRing 64 44100 0x09FFFFC0).2.readMicDataLength = 128 ∧
      (sceUsbMicInput exEnv exStateRing 64 44100 0x09FFFFC0).2.audioBuf
        = some ⟨1, 128, 0, 128⟩ ∧
      readBytes (sceUsbMicInput exEnv exStateRing 64 44100 0x09FFFFC0).2.heap
          ⟨guestBlk, 0x09FFFFC0⟩ 9
        = List.replicate 9 170 ∧
      (sceUsbMicInput exEnv exStateRing 64 44100 0x09FFFFC0).2.heap.mem
        = exStateRing.heap.mem := by
  refine ⟨by decide, by decide, by decide, by decide, by decide, by decide, by decide,
    by decide, rfl⟩

/-- C22, amended: `q` is the ring as a drain finds it (after the set-up part of
`__MicInput`, after the `push` of `Microphone::addAudioData`), it satisfies the class
invariant and its storage is not guest memory; the counters are in range (fewer than
`2^30` samples, `0 <= readMicDataLength <= 2 * numNeedSamples`, the target below `2^32`).
The drain takes `n = min(available, bytes still missing)` bytes and advances
`readMicDataLength` by `n` in every case. When `IsValidRange(target, n)` holds, with
`target = curTargetAddr + readMicDataLength` before the drain, the `n` oldest unread bytes
are written to guest memory at `target` in order, the rest stays unread, and guest memory
outside `[target, target + n)`, the bytes delivered earlier among it, is as before. When
`IsValidRange(target, n)` fails, nothing is popped and nothing is written. -/
theorem C22_valid_drain_is_contiguous (env : Env) (s : MicState) (q : QueueBuf)
    (hq : q.Inv) (hg : q.buf_ ≠ guestBlk) :
    (∀ (maxSamples sampleRate bufAddr : Int) (type : MICTYPE) (block : Bool),
      (MicInputSetup s maxSamples sampleRate bufAddr).audioBuf = some q →
      0 < maxSamples → maxSamples < 1073741824 →
      (__MicInput env s maxSamples sampleRate bufAddr type block).2.readMicDataLength
          = min q.available (2 * maxSamples) ∧
        (env.IsValidRange bufAddr (min q.available (2 * maxSamples)) = true →
          readBytes (__MicInput env s maxSamples sampleRate bufAddr type block).2.heap
              ⟨guestBlk, bufAddr⟩ (min q.available (2 * maxSamples))
            = (q.unread (MicInputSetup s maxSamples sampleRate bufAddr).heap).take
                (min q.available (2 * maxSamples)).toNat ∧
          (∃ q1,
            (__MicInput env s maxSamples sampleRate bufAddr type block).2.audioBuf = some q1 ∧
            q1.unread (__MicInput env s maxSamples sampleRate bufAddr type block).2.heap
              = (q.unread (MicInputSetup s maxSamples sampleRate bufAddr).heap).drop
                  (min q.available (2 * maxSamples)).toNat ∧
            q1.available = q.available - min q.available (2 * maxSamples)) ∧
          (∀ j, j < bufAddr ∨ bufAddr + min q.available (2 * maxSamples) ≤ j →
            (__MicInput env s maxSamples sampleRate bufAddr type block).2.heap.mem guestBlk j
              = (MicInputSetup s maxSamples sampleRate bufAddr).heap.mem guestBlk j)) ∧
        (env.IsValidRange bufAddr (min q.available (2 * maxSamples)) = false →
          (__MicInput env s maxSamples sampleRate bufAddr type block).2.heap
              = (MicInputSetup s maxSamples sampleRate bufAddr).heap ∧
            (__MicInput env s maxSamples sampleRate bufAddr type block).2.audioBuf
              = some q)) ∧
      (∀ (fuel : Nat) (q0 : QueueBuf) (h1 : Heap) (buf : Ptr) (size k : Int),
        s.audioBuf = some q0 → q0.push fuel s.heap buf size = some (k, h1, q) →
        0 ≤ s.numNeedSamples → s.numNeedSamples < 1073741824 →
        0 ≤ s.readMicDataLength → s.readMicDataLength ≤ 2 * s.numNeedSamples →
        0 ≤ s.curTargetAddr → s.curTargetAddr + s.readMicDataLength < 4294967296 →
        ∃ s1, Microphone.addAudioData env fuel s buf size = some (size, s1) ∧
          s1.readMicDataLength = s.readMicDataLength
            + min q.available (2 * s.numNeedSamples - s.readMicDataLength) ∧
          (env.IsValidRange (s.curTargetAddr + s.readMicDataLength)
              (min q.available (2 * s.numNeedSamples - s.readMicDataLength)) = true →
            readBytes s1.heap ⟨guestBlk, s.curTargetAddr + s.readMicDataLength⟩
                (min q.available (2 * s.numNeedSamples - s.readMicDataLength))
              = (q.unread h1).take
                  (min q.available (2 * s.numNeedSamples - s.readMicDataLength)).toNat ∧
            (∃ q1, s1.audioBuf = some q1 ∧
              q1.unread s1.heap = (q.unread h1).drop
                  (min q.available (2 * s.numNeedSamples - s.readMicDataLength)).toNat ∧
              q1.available = q.available
                - min q.available (2 * s.numNeedSamples - s.readMicDataLength)) ∧
            (∀ j, j < s.curTargetAddr + s.readMicDataLength ∨
                s.curTargetAddr + s.readMicDataLength
                  + min q.available (2 * s.numNeedSamples - s.readMicDataLength) ≤ j →
              s1.heap.mem guestBlk j = h1.mem guestBlk j)) ∧
          (env.IsValidRange (s.curTargetAddr + s.readMicDataLength)
              (min q.available (2 * s.numNeedSamples - s.readMicDataLength)) = false →
            s1.heap = h1 ∧ s1.audioBuf = some q)) := by
  constructor
  · intro maxSamples sampleRate bufAddr type block hb hm0 hm1
    obtain ⟨a1, a2, a3, -, -⟩ := MicInput_data env s maxSamples sampleRate bufAddr type block
    obtain ⟨-, hr⟩ := MicInputSetup_available s maxSamples sampleRate bufAddr
    obtain ⟨ht, -⟩ := MicInputSetup_request s maxSamples sampleRate bufAddr
    have hsz := size_of_range maxSamples hm0 hm1
    rw [a1, a2, a3, hsz]
    cases hv : env.IsValidRange bufAddr (min q.available (2 * maxSamples)) with
    | true =>
      obtain ⟨d1, d2, d3, d4, -, -⟩ := MicInputDrain_valid env
        (MicInputSetup s maxSamples sampleRate bufAddr) q (2 * maxSamples) hb hq hg
        (by omega) (by omega) hr (by rw [ht]; exact hv)
      rw [ht] at d2 d4
      exact ⟨d1, fun _ => ⟨d2, d3, d4⟩, fun hf => absurd hf (by simp)⟩
    | false =>
      obtain ⟨d1, d2, d3⟩ := MicInputDrain_invalid env
        (MicInputSetup s maxSamples sampleRate bufAddr) q (2 * maxSamples) hb hq.2.1
        (by omega) (by omega) hr (by rw [ht]; exact hv)
      exact ⟨d1, fun hf => absurd hf (by simp), fun _ => ⟨d2, d3⟩⟩
  · intro fuel q0 h1 buf size k hb hp hn0 hn1 hr0 hr1 ht0 ht1
    cases hv : env.IsValidRange (s.curTargetAddr + s.readMicDataLength)
        (min q.available (2 * s.numNeedSamples - s.readMicDataLength)) with
    | true =>
      obtain ⟨s1, d0, d1, d2, d3, d4, -, -⟩ := addAudioData_valid env fuel s q0 q h1 buf
        size k hb hp hq hg hn0 hn1 hr0 hr1 ht0 ht1 hv
      exact ⟨s1, d0, d1, fun _ => ⟨d2, d3, d4⟩, fun hf => absurd hf (by simp)⟩
    | false =>
      exact ⟨_, addAudioData_invalid env fuel s q0 q h1 buf size k hb hp hq.2.1 hn0 hn1
        hr0 hr1 ht0 ht1 hv, rfl, fun hf => absurd hf (by simp), fun _ => ⟨rfl, rfl⟩⟩

/-- C22, amended, at sample drains: the immediate drain of a request of 64 samples on the
ring that holds 128 bytes, at the valid target `0x09000000` and at `0x09FFFFC0`, whose
range is not valid; and the drain of `addAudioData` for 16 bytes while thread 7 waits for
its 64 samples at `0x09000000`. -/
theorem C22_valid_drain_is_contiguous_witness :
    ((__MicInput exEnv exStateRing 64 44100 0x09000000 MICTYPE.USBMIC
          false).2.readMicDataLength = 128 ∧
        readBytes (__MicInput exEnv exStateRing 64 44100 0x09000000 MICTYPE.USBMIC
            false).2.heap ⟨guestBlk, 0x09000000⟩ 128
          = (QueueBuf.unread exStateRing.heap ⟨1, 128, 0, 128⟩).take 128) ∧
      ((__MicInput exEnv exStateRing 64 44100 0x09FFFFC0 MICTYPE.USBMIC
          false).2.readMicDataLength = 128 ∧
        (__MicInput exEnv exStateRing 64 44100 0x09FFFFC0 MICTYPE.USBMIC false).2.audioBuf
          = some ⟨1, 128, 0, 128⟩) ∧
      (∃ s1, Microphone.addAudioData exEnv 1 exStateWaiting ⟨2, 0⟩ 16 = some (16, s1) ∧
        s1.readMicDataLength = 16 ∧
        readBytes s1.heap ⟨guestBlk, 0x09000000⟩ 16
          = (QueueBuf.unread
              (QueueBuf.pushHeap exStateWaiting.heap ⟨1, 0, 0, 128⟩ ⟨2, 0⟩ 16)
              ⟨1, 16, 16, 128⟩).take 16) := by
  have a := (C22_valid_drain_is_contiguous exEnv exStateRing ⟨1, 128, 0, 128⟩ (by decide)
    (by decide)).1 64 44100 0x09000000 MICTYPE.USBMIC false (by decide) (by decide)
    (by decide)
  have b := (C22_valid_drain_is_contiguous exEnv exStateRing ⟨1, 128, 0, 128⟩ (by decide)
    (by decide)).1 64 44100 0x09FFFFC0 MICTYPE.USBMIC false (by decide) (by decide)
    (by decide)
  obtain ⟨s1, c1, c2, c3, -⟩ :=
    (C22_valid_drain_is_contiguous exEnv exStateWaiting ⟨1, 16, 16, 128⟩ (by decide)
      (by decide)).2 1 ⟨1, 0, 0, 128⟩
      (QueueBuf.pushHeap exStateWaiting.heap ⟨1, 0, 0, 128⟩ ⟨2, 0⟩ 16) ⟨2, 0⟩ 16 16
      (by decide) rfl (by decide) (by decide) (by decide) (by decide) (by decide) (by decide)
  exact ⟨⟨a.1, (a.2.1 (by decide)).1⟩, ⟨b.1, (b.2.2 (by decide)).2⟩,
    ⟨s1, c1, c2, (c3 (by decide)).1⟩⟩

/-- C23, as stated, fails: the adapter was started with `(44100, 1)`, and the accepted
request of 64 samples at 11025 Hz issues no call at all: no stop, no start. The adapter
stays started, the most recent start call still has the rate 44100, and `curSampleRate`
is 11025. -/
theorem C23_no_restart_on_new_rate :
    exStateStarted.micState = 1 ∧
      exStateStarted.micCalls = [MicCall.start (some (44100, 1))] ∧
      (sceUsbMicInput exEnv exStateStarted 64 11025 0x09000000).1 = 64 ∧
      (sceUsbMicInput exEnv exStateStarted 64 11025 0x09000000).2.micState = 1 ∧
      (sceUsbMicInput exEnv exStateStarted 64 11025 0x09000000).2.micCalls
        = [MicCall.start (some (44100, 1))] ∧
      (sceUsbMicInput exEnv exStateStarted 64 11025 0x09000000).2.micCalls.getLast?
        ≠ some (MicCall.start (some (11025, 1))) ∧
      (sceUsbMicInput exEnv exStateStarted 64 11025 0x09000000).2.curSampleRate = 11025 ∧
      (sceUsbMicInputBlocking exEnv exStateStarted 64 11025 0x09000000).2.micCalls
        = [MicCall.start (some (44100, 1))] := by
  decide

/-- C23, amended: after every call of `__MicInput`, blocking or not, the capture adapter
is started (`micState` is 1), `curSampleRate` is the sample rate asked for and
`curChannels` is 1. When the adapter was not started before, `__MicInput` issues exactly
one call, `startMic` with `(sampleRate, 1)`; when it was started, `__MicInput` issues no
call, neither stop nor start, so the most recent start call keeps the parameters it was
given earlier, also when the rate asked for differs. -/
theorem C23_start_only_when_stopped (env : Env) (s : MicState)
    (maxSamples sampleRate bufAddr : Int) (type : MICTYPE) (block : Bool) :
    (__MicInput env s maxSamples sampleRate bufAddr type block).2.micState = 1 ∧
      (__MicInput env s maxSamples sampleRate bufAddr type block).2.curSampleRate
        = sampleRate ∧
      (__MicInput env s maxSamples sampleRate bufAddr type block).2.curChannels = 1 ∧
      (__MicInput env s maxSamples sampleRate bufAddr type block).2.micCalls
        = (if s.micState = 1 then s.micCalls
            else s.micCalls ++ [MicCall.start (some (sampleRate, 1))]) := by
  obtain ⟨a1, a2, a3, a4⟩ := MicInput_adapter env s maxSamples sampleRate bufAddr type block
  obtain ⟨-, -, b3, b4, b5, b6⟩ := MicInputSetup_request s maxSamples sampleRate bufAddr
  rw [a1, a2, a3, a4]
  exact ⟨b5, b3, b4, b6⟩

/-- C24 (the code departs from the claim): a device is present and thread 7 waits for
the 2176 samples (4352 bytes) of its accepted request at 44100 Hz. With 0 bytes delivered
the callback re-arms with a delay of 646 microseconds, with 100 bytes delivered it re-arms
with 48208: the product `4352 * 1000000` does not fit in the `u32` it is computed in,
`4252 * 1000000` does. The re-arm delay grows with the delivered count. -/
theorem C24_rearm_delay_grows :
    ((0 : Int) < 2176 ∧ (2176 : Int) % 64 = 0 ∧ (4352 : Int) = 2 * 2176) ∧
      ((0 : Int) ≤ 100 ∧ (100 : Int) < 4352) ∧
      (4294967295 : Int) < (4352 - 0) * 1000000 ∧ (4352 - 100) * 1000000 < (4294967296 : Int) ∧
      resumeWaitTimeus 4352 0 44100 = 646 ∧
      resumeWaitTimeus 4352 100 44100 = 48208 ∧
      ¬ resumeWaitTimeus 4352 100 44100 ≤ resumeWaitTimeus 4352 0 44100 ∧
      exStateBig.waitingThreads = [⟨7, 0x09000000, 4352, 44100⟩] ∧
      exStateBig.readMicDataLength = 0 ∧
      Microphone.addAudioData exEnvDevice 1 exStateBig ⟨2, 0⟩ 100
        = some (100, exStateBigPushed) ∧
      exStateBigPushed.waitingThreads = [⟨7, 0x09000000, 4352, 44100⟩] ∧
      exStateBigPushed.readMicDataLength = 100 ∧
      (__MicBlockingResume exEnvDevice exStateBig 7).events
        = exStateBig.events ++ [⟨exEnvDevice.usToCycles 646, 3, 7⟩] ∧
      (__MicBlockingResume exEnvDevice exStateBigPushed 7).events
        = exStateBigPushed.events ++ [⟨exEnvDevice.usToCycles 48208, 3, 7⟩] := by
  refine ⟨by decide, by decide, by decide, by decide, by decide, by decide, by decide,
    by decide, by decide, rfl, by decide, by decide, by decide, by decide⟩

/-- C25: an accepted request of `sceUsbMicInput` (valid first address, a sample count that
is a positive multiple of 64, a listed rate) returns the sample count, stores the request,
and leaves `waitingThreads`, the scheduled events and the thread scheduler as they were:
no entry is added, no wakeup is scheduled and the current thread is not suspended. The
request of 64 samples at 11025 Hz returns 64 and adds no entry, with or without a
device. -/
theorem C25_nonblocking_registers_nothing (env : Env) (s : MicState)
    (maxSamples sampleRate bufAddr : Int)
    (ha : env.IsValidAddress bufAddr = true) (h0 : 0 < maxSamples)
    (h64 : maxSamples % 64 = 0)
    (hr : sampleRate = 44100 ∨ sampleRate = 22050 ∨ sampleRate = 11025) :
    (sceUsbMicInput env s maxSamples sampleRate bufAddr).1 = s32 maxSamples ∧
      (sceUsbMicInput env s maxSamples sampleRate bufAddr).2.numNeedSamples = maxSamples ∧
      (sceUsbMicInput env s maxSamples sampleRate bufAddr).2.waitingThreads
        = s.waitingThreads ∧
      (sceUsbMicInput env s maxSamples sampleRate bufAddr).2.events = s.events ∧
      (sceUsbMicInput env s maxSamples sampleRate bufAddr).2.kernel = s.kernel ∧
      (sceUsbMicInput env s 64 11025 bufAddr).1 = 64 ∧
      (sceUsbMicInput env s 64 11025 bufAddr).2.waitingThreads = s.waitingThreads ∧
      (sceUsbMicInput env s 64 11025 bufAddr).2.events = s.events ∧
      (sceUsbMicInput env s 64 11025 bufAddr).2.kernel = s.kernel := by
  obtain ⟨a1, a2, a3, -⟩ := MicInput_frame env s maxSamples sampleRate bufAddr MICTYPE.USBMIC
  obtain ⟨b1, b2, b3, -⟩ := MicInput_frame env s 64 11025 bufAddr MICTYPE.USBMIC
  obtain ⟨-, -, -, -, c5⟩ :=
    MicInput_data env s maxSamples sampleRate bufAddr MICTYPE.USBMIC false
  obtain ⟨-, c6, -⟩ := MicInputSetup_request s maxSamples sampleRate bufAddr
  have d6 : (MicInputDrain env (MicInputSetup s maxSamples sampleRate bufAddr)
      (s32 (u32 (maxSamples * 2)))).numNeedSamples = maxSamples :=
    (MicInputDrain_numNeedSamples env _ _).trans c6
  rw [sceUsbMicInput_accepted env s maxSamples sampleRate bufAddr ha h0 h64 hr,
    sceUsbMicInput_accepted env s 64 11025 bufAddr ha (by decide) (by decide)
      (Or.inr (Or.inr rfl))]
  have e64 : s32 64 = 64 := by decide
  exact ⟨rfl, c5.trans d6, a1, a2, a3, e64, b1, b2, b3⟩

/-- C25 at the sample request: 64 samples at 11025 Hz, no device, no pending request. -/
theorem C25_nonblocking_registers_nothing_witness :
    Microphone.isHaveDevice exEnv = false ∧
      (sceUsbMicInput exEnv exState 64 11025 0x09000000).1 = 64 ∧
      (sceUsbMicInput exEnv exState 64 11025 0x09000000).2.numNeedSamples = 64 ∧
      (sceUsbMicInput exEnv exState 64 11025 0x09000000).2.waitingThreads = [] ∧
      (sceUsbMicInput exEnv exState 64 11025 0x09000000).2.events = [] ∧
      (sceUsbMicInput exEnv exState 64 11025 0x09000000).2.kernel = exState.kernel := by
  have w := C25_nonblocking_registers_nothing exEnv exState 64 11025 0x09000000 (by decide)
    (by decide) (by decide) (Or.inr (Or.inr rfl))
  exact ⟨by decide, w.2.2.2.2.2.1, w.2.1, w.2.2.1, w.2.2.2.1, w.2.2.2.2.1⟩

end UsbMic
